import Mathlib

/-!
Shallow embedding of the soft-delete / dependency-aware restore engine of
`admin_backend_final` (files `deleted.py` and `signals.py`).

Conventions of the embedding:
* JSON values stored in a trash snapshot (`record_data`, a Django `JSONField`)
  are modelled by `JValue`.  Floats are carried abstractly as their repr string
  together with a zero flag (the engine never does float arithmetic; it only
  needs truthiness and `str()`).
* Python `str(x)` on a JSON value is `pyStr`, Python truthiness is `truthy`.
* Database rows are explicit lists; Django querysets become list traversals in
  the same iteration order.
* All primary keys of the models touched by the restore engine are
  `CharField`s, so live-row primary keys are modelled as the string Django
  coerces lookups to (`pyStr` of the looked-up value).
* Unbounded `while` loops (breadth-first closures, Kahn's algorithm) are
  modelled with an explicit fuel argument; the fuel chosen is provably
  sufficient (see the drain lemmas below), so the functions agree with the
  source on every state.
* The trash model `RecentlyDeletedItem` is imported by the source from
  `.models` but its class definition is not part of the repository snapshot;
  its record shape is modelled from the spec (§3 "TrashEntry").
-/

/-- JSON-safe scalar values as stored in a `record_data` snapshot. -/
inductive JValue where
  | null : JValue
  | bool : Bool → JValue
  | int : Int → JValue
  | float : String → Bool → JValue
  | str : String → JValue
deriving DecidableEq, Repr

/-- Python `str()` of a JSON value. -/
def pyStr : JValue → String
  | .null => "None"
  | .bool true => "True"
  | .bool false => "False"
  | .int n => toString n
  | .float s _ => s
  | .str s => s

/-- Python truthiness of a JSON value. -/
def truthy : JValue → Bool
  | .null => false
  | .bool b => b
  | .int n => n != 0
  | .float _ isZero => !isZero
  | .str s => s != ""

/-- Python `x in (None, "", 0)` (equality-based membership, so `False` and a
zero float also match). -/
def isNoneEmptyZero : JValue → Bool
  | .null => true
  | .bool b => !b
  | .int n => n == 0
  | .float _ isZero => isZero
  | .str s => s == ""

/-- A JSON object (Python dict) as an association list with the usual
first-match lookup; keys are kept unique by `rdSet`. -/
abbrev RD := List (String × JValue)

/-- Dict lookup, `d.get(k)`. -/
def rdGet (rd : RD) (k : String) : Option JValue :=
  (rd.find? (fun p => p.1 == k)).map (·.2)

/-- Dict lookup with default `None`, `d.get(k)` used as a value. -/
def rdGetD (rd : RD) (k : String) : JValue :=
  (rdGet rd k).getD .null

/-- Dict key membership, `k in d`. -/
def rdHas (rd : RD) (k : String) : Bool :=
  (rdGet rd k).isSome

/-- Dict update `d[k] = v`: replaces the value in place if the key exists,
otherwise appends (Python dicts keep insertion order on overwrite). -/
def rdSet (rd : RD) (k : String) (v : JValue) : RD :=
  if rdHas rd k then rd.map (fun p => if p.1 == k then (k, v) else p)
  else rd ++ [(k, v)]

/-- Dict merge `d.update(e)` / `{**d, **e}`: entries of `e` override `d`. -/
def rdUpdate (rd : RD) (upd : RD) : RD :=
  upd.foldl (fun acc p => rdSet acc p.1 p.2) rd

/-- Dict comprehension dropping one key,
`{k: v for k, v in d.items() if k != bad}`. -/
def rdDrop (rd : RD) (bad : String) : RD :=
  rd.filter (fun p => p.1 != bad)

/-- One trash-store row.  Modelled from the spec: the `RecentlyDeletedItem`
model class is not part of the repository snapshot (only its callers are);
fields follow spec §3 "TrashEntry".  `id` is the opaque primary key, `parent`
the optional trash-tree parent link. -/
structure RecentlyDeletedItem where
  id : Nat
  table_name : String
  record_id : String
  record_data : RD
  status : String
  parent : Option Nat
  deleted_at : Nat
  deleted_by : String
  deleted_reason : String
deriving DecidableEq, Repr

/-- One live database row: model (table) name, primary key as the string
Django coerces key lookups to, and the field data. -/
structure LiveRow where
  model : String
  pk : String
  data : RD
deriving DecidableEq, Repr

/-- The database state seen by the restore engine. -/
structure DB where
  live : List LiveRow
  trash : List RecentlyDeletedItem
deriving DecidableEq, Repr

/-- One `corestore` rule entry `(child_model, child_fk_key, parent_pk_field)`. -/
structure CoRule where
  child : String
  fk_key : String
  parent_pk_field : String
deriving DecidableEq, Repr

/-- One entry of a rule's `parents` list.  Every lambda in the source's
`DEPENDENCY_RULES` has one of two shapes: unconditionally return
`(model, rd.get(key), fkname)`, or return it only when `rd.get(key)` is
truthy (else `None`). -/
inductive ParentFn where
  | req : String → String → String → ParentFn
  | opt : String → String → String → ParentFn
deriving DecidableEq, Repr

/-- Apply a `parents` lambda to a snapshot. -/
def evalParentFn (fn : ParentFn) (rd : RD) : Option (String × JValue × String) :=
  match fn with
  | .req m k f => some (m, rdGetD rd k, f)
  | .opt m k f => if truthy (rdGetD rd k) then some (m, rdGetD rd k, f) else none

/-- One dependency rule. -/
structure DepRule where
  standalone : Bool
  parents : List ParentFn
  corestore : List CoRule
deriving DecidableEq, Repr

/-- The rule used for tables absent from the table
(`{"parents": [], "standalone": True}` and friends). -/
def defaultRule : DepRule := { standalone := true, parents := [], corestore := [] }

/-- The static dependency rule table, transcribed from `DEPENDENCY_RULES` in
`deleted.py`. -/
def DEPENDENCY_RULES : List (String × DepRule) :=
  [ ("Product",
     { standalone := true, parents := [],
       corestore :=
        [ ⟨"ProductSEO", "product_id", "product_id"⟩,
          ⟨"ProductCards", "product_id", "product_id"⟩,
          ⟨"ProductInventory", "product_id", "product_id"⟩,
          ⟨"ProductVariant", "product_id", "product_id"⟩,
          ⟨"ProductImage", "product_id", "product_id"⟩,
          ⟨"Attribute", "product_id", "product_id"⟩,
          ⟨"ProductSubCategoryMap", "product_id", "product_id"⟩,
          ⟨"ProductTestimonial", "product_id", "product_id"⟩,
          ⟨"ShippingInfo", "product_id", "product_id"⟩ ] }),
    ("ProductVariant",
     { standalone := false,
       parents := [.req "Product" "product_id" "product_id"],
       corestore := [⟨"VariantCombination", "variant_id", "variant_id"⟩] }),
    ("VariantCombination",
     { standalone := false,
       parents := [.req "ProductVariant" "variant_id" "variant_id"],
       corestore := [] }),
    ("ProductImage",
     { standalone := false,
       parents := [.req "Product" "product_id" "product_id",
                   .req "Image" "image_id" "image_id"],
       corestore := [] }),
    ("ProductInventory",
     { standalone := false,
       parents := [.req "Product" "product_id" "product_id"], corestore := [] }),
    ("ProductSEO",
     { standalone := false,
       parents := [.req "Product" "product_id" "product_id"], corestore := [] }),
    ("ProductCards",
     { standalone := false,
       parents := [.req "Product" "product_id" "product_id"], corestore := [] }),
    ("Attribute",
     { standalone := false,
       parents := [.req "Product" "product_id" "product_id",
                   .opt "Attribute" "parent_id" "attr_id"],
       corestore := [] }),
    ("ProductSubCategoryMap",
     { standalone := false,
       parents := [.req "Product" "product_id" "product_id",
                   .req "SubCategory" "subcategory_id" "subcategory_id"],
       corestore := [] }),
    ("ProductTestimonial",
     { standalone := false,
       parents := [.req "Product" "product_id" "product_id"], corestore := [] }),
    ("ShippingInfo",
     { standalone := false,
       parents := [.req "Product" "product_id" "product_id"], corestore := [] }),
    ("Category",
     { standalone := true, parents := [],
       corestore := [⟨"CategoryImage", "category_id", "category_id"⟩,
                     ⟨"CategorySubCategoryMap", "category_id", "category_id"⟩] }),
    ("CategoryImage",
     { standalone := false,
       parents := [.req "Category" "category_id" "category_id",
                   .req "Image" "image_id" "image_id"],
       corestore := [] }),
    ("SubCategory",
     { standalone := true, parents := [],
       corestore :=
        [ ⟨"SubCategoryImage", "subcategory_id", "subcategory_id"⟩,
          ⟨"CategorySubCategoryMap", "subcategory_id", "subcategory_id"⟩,
          ⟨"ProductSubCategoryMap", "subcategory_id", "subcategory_id"⟩ ] }),
    ("SubCategoryImage",
     { standalone := false,
       parents := [.req "SubCategory" "subcategory_id" "subcategory_id",
                   .req "Image" "image_id" "image_id"],
       corestore := [] }),
    ("CategorySubCategoryMap",
     { standalone := false,
       parents := [.req "Category" "category_id" "category_id",
                   .req "SubCategory" "subcategory_id" "subcategory_id"],
       corestore := [] }),
    ("BlogPost",
     { standalone := true, parents := [],
       corestore := [⟨"BlogImage", "blog_id", "blog_id"⟩,
                     ⟨"BlogComment", "blog_id", "blog_id"⟩] }),
    ("BlogImage",
     { standalone := false,
       parents := [.req "BlogPost" "blog_id" "blog_id",
                   .req "Image" "image_id" "image_id"],
       corestore := [] }),
    ("BlogComment",
     { standalone := false,
       parents := [.req "BlogPost" "blog_id" "blog_id"], corestore := [] }),
    ("FirstCarousel",
     { standalone := true, parents := [],
       corestore := [⟨"FirstCarouselImage", "carousel_id", "id"⟩] }),
    ("FirstCarouselImage",
     { standalone := false,
       parents := [.req "FirstCarousel" "carousel_id" "id",
                   .req "Image" "image_id" "image_id",
                   .opt "SubCategory" "subcategory_id" "subcategory_id"],
       corestore := [] }),
    ("SecondCarousel",
     { standalone := true, parents := [],
       corestore := [⟨"SecondCarouselImage", "carousel_id", "id"⟩] }),
    ("SecondCarouselImage",
     { standalone := false,
       parents := [.req "SecondCarousel" "carousel_id" "id",
                   .req "Image" "image_id" "image_id",
                   .opt "SubCategory" "subcategory_id" "subcategory_id"],
       corestore := [] }),
    ("Image", { standalone := true, parents := [], corestore := [] }),
    ("Cart",
     { standalone := true, parents := [],
       corestore := [⟨"CartItem", "cart_id", "cart_id"⟩] }),
    ("CartItem",
     { standalone := false,
       parents := [.req "Cart" "cart_id" "cart_id"], corestore := [] }) ]

/-- Rule lookup with the source's default. -/
def rulesFor (table : String) : DepRule :=
  ((DEPENDENCY_RULES.find? (fun p => p.1 == table)).map (·.2)).getD defaultRule

/-- Metadata of one concrete model field, as `_recreate_instance` consumes it:
`name`, `attname` (for a foreign key, the `*_id` attribute name) and whether
the field is a `ForeignKey`. -/
structure FieldInfo where
  name : String
  attname : String
  isFK : Bool
deriving DecidableEq, Repr

/-- Metadata of one registered model: primary-key field name and the
concrete fields. -/
structure ModelInfo where
  pk_name : String
  fields : List FieldInfo
deriving DecidableEq, Repr

/-- The external collaborators of the engine: the model registry
(`apps.get_models()` resolution by class name) and oracles deciding whether a
database write raises (constraint violation, type mismatch).  `upsertFails`
is consulted by the pass-1 upsert with the model name, primary-key value and
field data; `attrUpdateFails` by the pass-2 `Attribute.parent_id` fix-up. -/
structure Env where
  models : List (String × ModelInfo)
  upsertFails : String → JValue → RD → Option String
  attrUpdateFails : String → String → Option String

/-- Resolve a model by class name (`_model`). -/
def model_lookup (env : Env) (name : String) : Option ModelInfo :=
  (env.models.find? (fun p => p.1 == name)).map (·.2)

/-- Check whether a live row exists by primary key (`_exists_live`). -/
def exists_live (env : Env) (db : DB) (name : String) (pk : JValue) : Bool :=
  if (model_lookup env name).isNone then false
  else if isNoneEmptyZero pk then false
  else db.live.any (fun r => r.model == name && r.pk == pyStr pk)

/-- One element of a `blocked_by` list. -/
structure Blocked where
  model : String
  id : String
  reason : String
deriving DecidableEq, Repr

/-- Required parents of an item that are neither live nor in trash
(`_parents_for`). -/
def parents_for (env : Env) (db : DB) (item : RecentlyDeletedItem) : List Blocked :=
  (rulesFor item.table_name).parents.foldl
    (fun blocked fn =>
      match evalParentFn fn item.record_data with
      | none => blocked
      | some (pm, pp, _) =>
        let in_live := exists_live env db pm pp
        let in_trash := db.trash.any (fun e => e.table_name == pm && e.record_id == pyStr pp)
        if !(in_live || in_trash) then
          blocked ++ [⟨pm, if truthy pp then pyStr pp else "", "missing-parent"⟩]
        else blocked)
    []

/-- Direct parents of a node that are in trash and not already live
(`_parents_in_trash`). -/
def parents_in_trash (env : Env) (db : DB) (node : RecentlyDeletedItem) :
    List RecentlyDeletedItem :=
  (rulesFor node.table_name).parents.foldl
    (fun out fn =>
      match evalParentFn fn node.record_data with
      | none => out
      | some (pm, pp, _) =>
        if !truthy pp then out
        else if exists_live env db pm pp then out
        else
          match db.trash.find? (fun e => e.table_name == pm && e.record_id == pyStr pp) with
          | some hit => out ++ [hit]
          | none => out)
    []

/-- Trash entries that are co-restore children of a node: same child table
and the snapshot's foreign-key field equal to the JSON string of the node's
record id (`direct_children` inside `_collect_corestore_closure`). -/
def direct_children (db : DB) (node : RecentlyDeletedItem) : List RecentlyDeletedItem :=
  (rulesFor node.table_name).corestore.foldl
    (fun out cr =>
      out ++ db.trash.filter
        (fun e => e.table_name == cr.child &&
          rdGet e.record_data cr.fk_key == some (.str node.record_id)))
    []

/-- Intermediate state of a breadth-first traversal. -/
structure BfsStep where
  seen : List Nat
  queue : List RecentlyDeletedItem
  result : List RecentlyDeletedItem
deriving Repr

/-- Sequentially admit candidate nodes whose id is unseen, extending seen
set, queue and result (the inner `for ch in ...: if ch.id not in seen` loop
shared by both closures). -/
def addNew (seen : List Nat) (queue result : List RecentlyDeletedItem) :
    List RecentlyDeletedItem → BfsStep
  | [] => ⟨seen, queue, result⟩
  | ch :: chs =>
    if seen.contains ch.id then addNew seen queue result chs
    else addNew (seen ++ [ch.id]) (queue ++ [ch]) (result ++ [ch]) chs

/-- Fuelled worklist loop of `_collect_corestore_closure`; the second
component records whether the queue drained (the source's `while queue` loop
always drains, see `corestoreBFS_drains`). -/
def corestoreBFS (db : DB) :
    Nat → List Nat → List RecentlyDeletedItem → List RecentlyDeletedItem →
    (List RecentlyDeletedItem × Bool)
  | 0, _, queue, result => (result, queue.isEmpty)
  | fuel + 1, seen, queue, result =>
    match queue with
    | [] => (result, true)
    | cur :: rest =>
      let st := addNew seen rest result (direct_children db cur)
      corestoreBFS db fuel st.seen st.queue st.result

/-- Downward closure over `corestore` edges (`_collect_corestore_closure`). -/
def collect_corestore_closure (db : DB) (seed : RecentlyDeletedItem) :
    List RecentlyDeletedItem :=
  (corestoreBFS db (db.trash.length + 1) [seed.id] [seed] [seed]).1

/-- Fuelled worklist loop of `_collect_upwards_closure`. -/
def upwardsBFS (env : Env) (db : DB) :
    Nat → List Nat → List RecentlyDeletedItem → List RecentlyDeletedItem →
    List RecentlyDeletedItem
  | 0, _, _, result => result
  | fuel + 1, seen, queue, result =>
    match queue with
    | [] => result
    | cur :: rest =>
      let st := addNew seen rest result (parents_in_trash env db cur)
      upwardsBFS env db fuel st.seen st.queue st.result

/-- Upward closure over required parents still in trash
(`_collect_upwards_closure`); the seed itself is not part of the result. -/
def collect_upwards_closure (env : Env) (db : DB) (seed : RecentlyDeletedItem) :
    List RecentlyDeletedItem :=
  let ps := parents_in_trash env db seed
  upwardsBFS env db (db.trash.length + 1) (seed.id :: ps.map (·.id)) ps ps

/-- The nodes contributed by one seed: downward closure, upward closure,
transitive upward closure of everything collected, then image parents found
in trash (the per-seed block of `RestoreItemsAPIView.post`).  List
membership on Django model instances compares primary keys, hence the id
comparisons. -/
def seedNodes (env : Env) (db : DB) (s : RecentlyDeletedItem) :
    List RecentlyDeletedItem :=
  let nodes0 := collect_corestore_closure db s ++ collect_upwards_closure env db s
  let extra_up := nodes0.foldl
    (fun acc n =>
      (collect_upwards_closure env db n).foldl
        (fun acc2 p =>
          if (nodes0.map (·.id)).contains p.id || (acc2.map (·.id)).contains p.id then acc2
          else acc2 ++ [p])
        acc)
    []
  let nodes1 := nodes0 ++ extra_up
  let extra_imgs := nodes1.foldl
    (fun acc n =>
      (rulesFor n.table_name).parents.foldl
        (fun acc2 fn =>
          match evalParentFn fn n.record_data with
          | none => acc2
          | some (pm, pp, _) =>
            if pm == "Image" && truthy pp then
              match db.trash.find?
                (fun e => e.table_name == "Image" && e.record_id == pyStr pp) with
              | some img =>
                if (nodes1.map (·.id)).contains img.id then acc2 else acc2 ++ [img]
              | none => acc2
            else acc2)
        acc)
    []
  nodes1 ++ extra_imgs

/-- A restore request body: trash ids and/or `(table, record_id)` pairs. -/
structure RestoreRequest where
  ids : List Nat
  record_ids : List (String × String)
deriving Repr

/-- Resolve the request body to seed trash entries (id seeds first, then
`(table, id)` seeds in request order; blank components are skipped). -/
def computeSeeds (db : DB) (req : RestoreRequest) : List RecentlyDeletedItem :=
  let fromIds := db.trash.filter (fun e => req.ids.contains e.id)
  let fromRecs := req.record_ids.foldl
    (fun acc tr =>
      let t := tr.1.trim
      let rid := tr.2.trim
      if t == "" || rid == "" then acc
      else
        match db.trash.find? (fun e => e.table_name == t && e.record_id == rid) with
        | some hit => acc ++ [hit]
        | none => acc)
    []
  fromIds ++ fromRecs

/-- Keep the first entry per trash id (the `seen`/`uniq` de-dup loop). -/
def dedupById (l : List RecentlyDeletedItem) : List RecentlyDeletedItem :=
  (l.foldl
    (fun (p : List Nat × List RecentlyDeletedItem) n =>
      if p.1.contains n.id then p else (p.1 ++ [n.id], p.2 ++ [n]))
    ([], [])).2

/-- The de-duplicated union of all seeds' closures (`all_nodes`). -/
def restoreNodes (env : Env) (db : DB) (req : RestoreRequest) :
    List RecentlyDeletedItem :=
  dedupById ((computeSeeds db req).foldl (fun acc s => acc ++ seedNodes env db s) [])

/-- One entry of the final guard's `details` list; the source renders the
item as the string `f"{table_name}:{record_id}"`, carried here as its two
components. -/
structure GuardViolation where
  item_table : String
  item_record_id : String
  blocked_by : List Blocked
deriving DecidableEq, Repr

/-- The final guard: re-check every non-standalone node of the closure
(`blockers` loop). -/
def guardViolations (env : Env) (db : DB) (nodes : List RecentlyDeletedItem) :
    List GuardViolation :=
  nodes.foldl
    (fun acc n =>
      if (rulesFor n.table_name).standalone then acc
      else
        let miss := parents_for env db n
        if miss.isEmpty then acc else acc ++ [⟨n.table_name, n.record_id, miss⟩])
    []

/-- The `data` dict built by `_recreate_instance`: payload entries for every
concrete field, foreign keys keyed by their `attname`. -/
def recreateData (M : ModelInfo) (payload : RD) : RD :=
  M.fields.foldl
    (fun acc f =>
      let key := if f.isFK then f.attname else f.name
      match rdGet payload key with
      | some v => rdSet acc key v
      | none => acc)
    []

/-- Apply `update_or_create(**{pk_name: pkVal}, defaults=data)` to the live
store: update the matching row's fields, or create the row. -/
def applyUpsert (live : List LiveRow) (model : String) (pk_name : String)
    (pkVal : JValue) (data : RD) : List LiveRow :=
  let pk := pyStr pkVal
  if live.any (fun r => r.model == model && r.pk == pk) then
    live.map (fun r =>
      if r.model == model && r.pk == pk then { r with data := rdUpdate r.data data } else r)
  else
    live ++ [⟨model, pk, rdUpdate [(pk_name, pkVal)] data⟩]

/-- One pass-1 upsert, as an observable event (model, primary key, field
data) in execution order. -/
structure UpsertEvent where
  model : String
  pk : JValue
  data : RD
deriving DecidableEq, Repr

/-- The node's payload after the Attribute self-reference strip of pass 1. -/
def strippedPayload (n : RecentlyDeletedItem) : RD :=
  if n.table_name == "Attribute" && truthy (rdGetD n.record_data "parent_id") then
    rdDrop n.record_data "parent_id"
  else n.record_data

/-- The upsert event pass 1 emits for a node (meaningful when the node's
model resolves; pass 1 errors out before emitting otherwise). -/
def eventOf (env : Env) (n : RecentlyDeletedItem) : UpsertEvent :=
  match model_lookup env n.table_name with
  | none => ⟨n.table_name, .null, []⟩
  | some M =>
    ⟨n.table_name, rdGetD (strippedPayload n) M.pk_name, recreateData M (strippedPayload n)⟩

/-- Insertion-ordered string map update (Python dict assignment), used for
`pending_attr_parent_links`. -/
def pendingSet (m : List (String × String)) (k v : String) : List (String × String) :=
  if m.any (fun p => p.1 == k) then m.map (fun p => if p.1 == k then (k, v) else p)
  else m ++ [(k, v)]

/-- The possible outcomes of `RestoreItemsAPIView.post`.  The source renders
each as an HTTP response; the data each constructor carries is the data the
corresponding response embeds (the derived `suggestion` string of the seed
conflict is a join over `blocked_by` and is not carried separately). -/
inductive RestoreResponse where
  | noTargets : RestoreResponse
  | seedBlocked : List Blocked → RestoreResponse
  | finalBlocked : List GuardViolation → RestoreResponse
  | unknownModel : String → RestoreResponse
  | pass1Failed : String → String → String → RestoreResponse
  | pass2Failed : String → String → String → RestoreResponse
  | success : List String → Nat → List String → RestoreResponse
deriving DecidableEq, Repr

/-- The per-seed loop: reject on the first non-standalone seed with missing
parents, otherwise accumulate the seed's closure nodes. -/
def collectLoop (env : Env) (db : DB) :
    List RecentlyDeletedItem → List RecentlyDeletedItem →
    Except (List Blocked) (List RecentlyDeletedItem)
  | [], acc => .ok acc
  | s :: rest, acc =>
    if !(rulesFor s.table_name).standalone && !(parents_for env db s).isEmpty then
      .error (parents_for env db s)
    else collectLoop env db rest (acc ++ seedNodes env db s)

/-- Decrement the in-degrees of a popped node's children, collecting the
children that reach zero in list order (the inner loop of the Kahn
traversal; in-degrees are integers, mirroring Python's unbounded
decrements). -/
def decChildren (indeg : Nat → Int) : List Nat → ((Nat → Int) × List Nat)
  | [] => (indeg, [])
  | c :: cs =>
    let d := indeg c - 1
    let indeg2 := fun x => if x == c then d else indeg x
    let r := decChildren indeg2 cs
    (r.1, (if d == 0 then [c] else []) ++ r.2)

/-- The fuelled Kahn worklist loop (`while q`). -/
def kahnLoop (adj : Nat → List Nat) :
    Nat → (Nat → Int) → List Nat → List Nat → List Nat
  | 0, _, _, ordered => ordered
  | fuel + 1, indeg, q, ordered =>
    match q with
    | [] => ordered
    | cur :: rest =>
      let r := decChildren indeg (adj cur)
      kahnLoop adj fuel r.1 (rest ++ r.2) (ordered ++ [cur])

/-- The parent-to-child edges of the closure: child nodes' declared parents
matched inside the closure by `(table_name, record_id)`; the source's
`by_key` dict keeps the last node per key. -/
def buildEdges (nodes : List RecentlyDeletedItem) : List (Nat × Nat) :=
  nodes.foldl
    (fun acc child =>
      (rulesFor child.table_name).parents.foldl
        (fun acc2 fn =>
          match evalParentFn fn child.record_data with
          | none => acc2
          | some (pm, pp, _) =>
            if pm == "" || !truthy pp then acc2
            else
              match (nodes.reverse).find?
                (fun n => n.table_name == pm && n.record_id == pyStr pp) with
              | some parent_node => acc2 ++ [(parent_node.id, child.id)]
              | none => acc2)
        acc)
    []

/-- Adjacency list derived from the edge list (the source's `graph` dict is
built by appending the same pairs in the same order). -/
def adjOf (edges : List (Nat × Nat)) (p : Nat) : List Nat :=
  (edges.filter (fun e => e.1 == p)).map (·.2)

/-- Initial in-degree of a node: its number of incoming edge instances (the
source's `indeg` dict is built by unit increments over the same pairs). -/
def indegOf (edges : List (Nat × Nat)) (c : Nat) : Int :=
  ((edges.filter (fun e => e.2 == c)).length : Int)

/-- The Kahn output over the closure's ids; the initial queue lists the
zero-in-degree ids in `all_nodes` order (dict insertion order). -/
def kahnIds (nodes : List RecentlyDeletedItem) : List Nat :=
  let edges := buildEdges nodes
  let q0 := (nodes.map (·.id)).filter (fun i => indegOf edges i == 0)
  kahnLoop (adjOf edges) (nodes.length + 1) (indegOf edges) q0 []

/-- The source's cycle test `len(ordered_ids) == len(all_nodes)`. -/
def kahnComplete (nodes : List RecentlyDeletedItem) : Bool :=
  (kahnIds nodes).length == nodes.length

/-- The cycle-fallback weight: number of declared parent rules. -/
def ruleWeight (n : RecentlyDeletedItem) : Nat :=
  (rulesFor n.table_name).parents.length

/-- The restore order: Kahn output resolved back to nodes, or on an
incomplete Kahn output the stable ascending sort by `ruleWeight`
(Python `sorted` and `List.mergeSort` are both stable). -/
def computeOrder (nodes : List RecentlyDeletedItem) : List RecentlyDeletedItem :=
  if kahnComplete nodes then
    (kahnIds nodes).filterMap (fun i => (nodes.reverse).find? (fun n => n.id == i))
  else nodes.mergeSort (fun a b => ruleWeight a ≤ ruleWeight b)

/-- Pass 1: upsert every node in restore order; for an `Attribute` node with
a truthy `parent_id`, stash the link and strip the field first.  An error
response aborts the pass (and, at the call site, rolls the transaction
back). -/
def pass1 (env : Env) :
    List RecentlyDeletedItem → List LiveRow → List (String × String) →
    List UpsertEvent →
    Except RestoreResponse (List LiveRow × List (String × String) × List UpsertEvent)
  | [], live, pending, trace => .ok (live, pending, trace)
  | n :: rest, live, pending, trace =>
    match model_lookup env n.table_name with
    | none => .error (.unknownModel n.table_name)
    | some M =>
      let pending2 :=
        if n.table_name == "Attribute" && truthy (rdGetD n.record_data "parent_id") then
          pendingSet pending (pyStr (rdGetD n.record_data "attr_id"))
            (pyStr (rdGetD n.record_data "parent_id"))
        else pending
      let payload := strippedPayload n
      let pkVal := rdGetD payload M.pk_name
      let data := recreateData M payload
      match env.upsertFails n.table_name pkVal data with
      | some msg => .error (.pass1Failed n.table_name n.record_id msg)
      | none =>
        pass1 env rest (applyUpsert live n.table_name M.pk_name pkVal data) pending2
          (trace ++ [⟨n.table_name, pkVal, data⟩])

/-- The targeted pass-2 update `Attribute.objects.filter(pk=attr_id).update(parent_id=parent_id)`. -/
def pass2Update (live : List LiveRow) (attr_id parent_id : String) : List LiveRow :=
  live.map (fun r =>
    if r.model == "Attribute" && r.pk == attr_id then
      { r with data := rdSet r.data "parent_id" (.str parent_id) }
    else r)

/-- Pass 2: apply the recorded Attribute parent links. -/
def pass2 (env : Env) :
    List (String × String) → List LiveRow → Except RestoreResponse (List LiveRow)
  | [], live => .ok live
  | (a, p) :: rest, live =>
    match model_lookup env "Attribute" with
    | none => .error (.pass2Failed a p "unknown model Attribute")
    | some _ =>
      match env.attrUpdateFails a p with
      | some msg => .error (.pass2Failed a p msg)
      | none => pass2 env rest (pass2Update live a p)

/-- Cascading trash delete.  Modelled from the spec: deleting a TrashEntry
cascades to its `parent`-linked children in the trash tree (§3); the
worklist fuel is sufficient for every acyclic parent forest. -/
def trashDelete (trash : List RecentlyDeletedItem) :
    Nat → List Nat → List RecentlyDeletedItem
  | 0, _ => trash
  | _ + 1, [] => trash
  | fuel + 1, t :: rest =>
    let kids := (trash.filter (fun e => e.parent == some t)).map (·.id)
    trashDelete (trash.filter (fun e => e.id != t)) fuel (kids ++ rest)

/-- Delete one trash entry (and its cascade) by id; a no-op when absent. -/
def deleteEntry (trash : List RecentlyDeletedItem) (tid : Nat) :
    List RecentlyDeletedItem :=
  trashDelete trash (trash.length + 1) [tid]

/-- Entity types whose notifications are muted during restore. -/
def MUTE_NOTIFY_MODELS : List String := ["Cart", "CartItem"]

/-- The touched entity types intersected with the mute set. -/
def mutedFor (ordered : List RecentlyDeletedItem) : List String :=
  MUTE_NOTIFY_MODELS.filter (fun m => ordered.any (fun n => n.table_name == m))

/-- The `transaction.atomic` block of the restore: pass 1, pass 2, then the
trash cleanup in reverse order.  Every error return inside the source's
block calls `transaction.set_rollback(True)` first, so an error commits the
original state. -/
def runPasses (env : Env) (db : DB) (ordered : List RecentlyDeletedItem) :
    RestoreResponse × DB × List UpsertEvent :=
  match pass1 env ordered db.live [] [] with
  | .error e => (e, db, [])
  | .ok (live1, pending, trace) =>
    match pass2 env pending live1 with
    | .error e => (e, db, [])
    | .ok live2 =>
      let trash2 := ordered.reverse.foldl (fun t n => deleteEntry t n.id) db.trash
      (.success (ordered.map (fun n => n.table_name ++ ":" ++ n.record_id))
         ordered.length (mutedFor ordered),
       ⟨live2, trash2⟩, trace)

/-- The restore endpoint (`RestoreItemsAPIView.post`).  Returns the
response, the committed database state, and the pass-1 upsert trace of the
committed transaction. -/
def restore (env : Env) (db : DB) (req : RestoreRequest) :
    RestoreResponse × DB × List UpsertEvent :=
  let seeds := computeSeeds db req
  if seeds.isEmpty then (.noTargets, db, [])
  else
    match collectLoop env db seeds [] with
    | .error missing => (.seedBlocked missing, db, [])
    | .ok raw =>
      let all_nodes := dedupById raw
      let blockers := guardViolations env db all_nodes
      if !blockers.isEmpty then (.finalBlocked blockers, db, [])
      else runPasses env db (computeOrder all_nodes)

/-- Python `str.upper()` for the ASCII strings the endpoint compares
against (kernel-computable, unlike `String.toUpper`). -/
def pyUpper (s : String) : String := ⟨s.data.map Char.toUpper⟩

/-- Python `str.strip()` (kernel-computable, unlike `String.trim`). -/
def pyStrip (s : String) : String :=
  ⟨((s.data.dropWhile Char.isWhitespace).reverse.dropWhile Char.isWhitespace).reverse⟩

/-- The possible outcomes of the visibility-toggle endpoint `recover_item`. -/
inductive RecoverResponse where
  | invalidStatus : RecoverResponse
  | notFound : RecoverResponse
  | success : Nat → String → RecoverResponse
  | recursionError : RecoverResponse
deriving DecidableEq, Repr

/-- Apply `target.status = flag; target.save(update_fields=["status"])` to
the one entry with the given id. -/
def markOne (flag : String) (t : Nat) (e : RecentlyDeletedItem) : RecentlyDeletedItem :=
  if e.id == t then { e with status := flag } else e

/-- The fuelled worklist form of `recursive_mark`: mark the target's status,
then recurse into its trash-tree children (`target.children.all()`).  `none`
corresponds to the source's unbounded recursion failing to terminate, which
only happens on a cyclic parent graph. -/
def recursiveMark (flag : String) :
    Nat → List Nat → List RecentlyDeletedItem → Option (List RecentlyDeletedItem)
  | _, [], trash => some trash
  | 0, _ :: _, _ => none
  | fuel + 1, t :: rest, trash =>
    let trash1 := trash.map (markOne flag t)
    let kids := (trash1.filter (fun e => e.parent == some t)).map (·.id)
    recursiveMark flag fuel (kids ++ rest) trash1

/-- The visibility-toggle endpoint (`recover_item`): normalize the requested
status, accept only `UNHIDE`/`HIDE`, and recursively mark the item and its
trash-tree descendants. -/
def recover_item (db : DB) (reqId : Nat) (reqStatus : String) :
    RecoverResponse × DB :=
  let flag := pyStrip (pyUpper reqStatus)
  if !(flag == "UNHIDE" || flag == "HIDE") then (.invalidStatus, db)
  else
    match db.trash.find? (fun e => e.id == reqId) with
    | none => (.notFound, db)
    | some item =>
      match recursiveMark flag (db.trash.length + 1) [item.id] db.trash with
      | some trash2 => (.success reqId flag, { db with trash := trash2 })
      | none => (.recursionError, db)

/-- Python values a model field can hold, as `_to_jsonable` distinguishes
them.  `datetime` carries its `isoformat()` string, whether that call
raises, and its `str()` fallback; `fieldFile` carries `value.name` (possibly
absent) and whether reading it raises; `other` is any remaining object,
carrying `str(value)` or `none` when that raises. -/
inductive PyValue where
  | none : PyValue
  | bool : Bool → PyValue
  | int : Int → PyValue
  | float : String → Bool → PyValue
  | str : String → PyValue
  | decimal : String → PyValue
  | uuid : String → PyValue
  | datetime : String → Bool → String → PyValue
  | fieldFile : Option String → Bool → PyValue
  | other : Option String → PyValue
deriving DecidableEq, Repr

/-- The serialization rule `_to_jsonable` of `signals.py`. -/
def to_jsonable : PyValue → JValue
  | .none => .null
  | .bool b => .bool b
  | .int n => .int n
  | .float s z => .float s z
  | .str s => .str s
  | .decimal s => .str s
  | .uuid s => .str s
  | .datetime iso r fb => .str (if r then fb else iso)
  | .fieldFile nm r => if r then .str "" else .str (nm.getD "")
  | .other (some s) => .str s
  | .other .none => .null

/-- One concrete field of a Python model instance, as the capture path reads
it: names, foreign-key flag, the field's value and whether reading the
attribute raises. -/
structure PyField where
  name : String
  attname : String
  isFK : Bool
  value : PyValue
  getRaises : Bool
deriving DecidableEq, Repr

/-- A Python model instance about to be logged into trash: the string form
of its primary key, its `str()` representation, its optional `created_by`
attribute and its concrete fields. -/
structure PyInstance where
  pk_str : String
  repr_str : String
  created_by : Option String
  fields : List PyField
deriving Repr

/-- `serialize_instance_for_trash`: JSON-safe dict over the concrete fields;
foreign keys stored under their `attname`, a per-field failure stored as
`None` under `field.name`. -/
def serialize_instance_for_trash (fields : List PyField) : RD :=
  fields.foldl
    (fun data f =>
      if f.getRaises then rdSet data f.name .null
      else if f.isFK then rdSet data f.attname (to_jsonable f.value)
      else rdSet data f.name (to_jsonable f.value))
    []

/-- External failure modes of the capture path: the primary
`RecentlyDeletedItem.objects.create` call raising (for instance the JSON
encoding of `record_data` or a database error), with its message, and the
fallback create raising. -/
structure CaptureEnv where
  primaryCreateRaises : Bool
  primaryErr : String
  fallbackCreateRaises : Bool

/-- A trash-store create that may raise. -/
def createEntry (raises : Bool) (err : String) (entry : RecentlyDeletedItem)
    (trash : List RecentlyDeletedItem) : Except String (List RecentlyDeletedItem) :=
  if raises then .error err else .ok (trash ++ [entry])

/-- The default visibility of a fresh trash entry.  Modelled from the spec:
the `RecentlyDeletedItem` model (and its status default) is not part of the
repository snapshot; spec §3 lists `VISIBLE` as the visible state. -/
def freshStatus : String := "VISIBLE"

/-- The trash entry the primary capture path writes. -/
def primaryEntry (model_name : String) (inst : PyInstance) (parent : Option Nat)
    (reason : String) (now newId : Nat) : RecentlyDeletedItem :=
  { id := newId, table_name := model_name, record_id := inst.pk_str,
    record_data := serialize_instance_for_trash inst.fields,
    status := freshStatus, parent := parent, deleted_at := now,
    deleted_by := inst.created_by.getD "", deleted_reason := reason }

/-- The minimal fallback entry written when the primary path raises. -/
def fallbackEntry (model_name : String) (inst : PyInstance) (parent : Option Nat)
    (reason : String) (e : String) (now newId : Nat) : RecentlyDeletedItem :=
  { id := newId, table_name := model_name, record_id := inst.pk_str,
    record_data := [("pk", .str inst.pk_str), ("repr", .str inst.repr_str)],
    status := freshStatus, parent := parent, deleted_at := now,
    deleted_by := "",
    deleted_reason := reason ++ " (fallback due to serialization error: " ++ e ++ ")" }

/-- `capture_deleted_instance`: log a deleted row, falling back to the
minimal snapshot on a primary failure and swallowing a fallback failure.
The `Except` codomain makes "must never raise" a provable statement; the
optional result is the created entry's id (`None` on the fallback path, as
in the source). -/
def capture_deleted_instance (cenv : CaptureEnv) (model_name : String)
    (inst : PyInstance) (parent : Option Nat) (reason : String) (now newId : Nat)
    (trash : List RecentlyDeletedItem) :
    Except String (List RecentlyDeletedItem × Option Nat) :=
  match createEntry cenv.primaryCreateRaises cenv.primaryErr
    (primaryEntry model_name inst parent reason now newId) trash with
  | .ok t => .ok (t, some newId)
  | .error e =>
    match createEntry cenv.fallbackCreateRaises "fallback create failed"
      (fallbackEntry model_name inst parent reason e now newId) trash with
    | .ok t => .ok (t, Option.none)
    | .error _ => .ok (trash, Option.none)

/-! ## Generic helper lemmas -/

theorem foldl_app {α β : Type} (g : α → List β) :
    ∀ (l : List α) (acc : List β),
      l.foldl (fun a x => a ++ g x) acc = acc ++ (l.map g).flatten := by
  intro l
  induction l with
  | nil => intro acc; simp
  | cons x xs ih => intro acc; simp [List.foldl_cons, ih]

theorem rdHas_append (a b : RD) (k : String) :
    rdHas (a ++ b) k = (rdHas a k || rdHas b k) := by
  induction a with
  | nil => simp [rdHas, rdGet]
  | cons p ps ih =>
    by_cases h : p.1 = k
    · simp [rdHas, rdGet, List.find?, h]
    · have h' : (p.1 == k) = false := by simp [h]
      simp [rdHas, rdGet, List.find?, h', ih]

theorem rdSet_of_not_has (rd : RD) (k : String) (v : JValue) (h : rdHas rd k = false) :
    rdSet rd k v = rd ++ [(k, v)] := by
  simp [rdSet, h]

/-! ## Claim C7: the capture path never raises and degrades to the fallback
snapshot -/

/-- C7: for every deleted entity instance, `capture_deleted_instance` never
raises: its outcome is always `ok`; and when the primary create raises (a
serialization failure) while the fallback create itself succeeds, a trash
entry is still created, whose snapshot is the minimal fallback
`{pk, repr}` dict, so the deletion proceeds. -/
theorem capture_never_raises (cenv : CaptureEnv) (model_name : String)
    (inst : PyInstance) (parent : Option Nat) (reason : String) (now newId : Nat)
    (trash : List RecentlyDeletedItem) :
    (∃ r, capture_deleted_instance cenv model_name inst parent reason now newId trash
        = .ok r) ∧
    (cenv.primaryCreateRaises = true → cenv.fallbackCreateRaises = false →
      capture_deleted_instance cenv model_name inst parent reason now newId trash
        = .ok (trash ++
            [fallbackEntry model_name inst parent reason cenv.primaryErr now newId],
            Option.none) ∧
      (fallbackEntry model_name inst parent reason cenv.primaryErr now newId).record_data
        = [("pk", .str inst.pk_str), ("repr", .str inst.repr_str)]) := by
  constructor
  · cases hp : cenv.primaryCreateRaises <;> cases hf : cenv.fallbackCreateRaises <;>
      simp [capture_deleted_instance, createEntry, hp, hf]
  · intro hp hf
    simp [capture_deleted_instance, createEntry, hp, hf, fallbackEntry]

theorem capture_never_raises_witness :
    (∃ r, capture_deleted_instance ⟨true, "boom", false⟩ "Product"
        ⟨"P1", "a product", Option.none, []⟩ Option.none "Product deleted" 5 9 [] = .ok r) ∧
    capture_deleted_instance ⟨true, "boom", false⟩ "Product"
        ⟨"P1", "a product", Option.none, []⟩ Option.none "Product deleted" 5 9 []
      = .ok ([fallbackEntry "Product" ⟨"P1", "a product", Option.none, []⟩
              Option.none "Product deleted" "boom" 5 9], Option.none) := by
  refine ⟨(capture_never_raises ⟨true, "boom", false⟩ "Product"
    ⟨"P1", "a product", Option.none, []⟩ Option.none "Product deleted" 5 9 []).1, ?_⟩
  have h := (capture_never_raises ⟨true, "boom", false⟩ "Product"
    ⟨"P1", "a product", Option.none, []⟩ Option.none "Product deleted" 5 9 []).2 rfl rfl
  simpa using h.1

/-! ## Claim C8: captured snapshots hold only JSON-safe scalars -/

/-- The dict key a field's value is stored under: `attname` for a foreign
key, `name` otherwise, and `name` on a per-field failure. -/
def usedKey (f : PyField) : String :=
  if f.getRaises then f.name else if f.isFK then f.attname else f.name

/-- The scalar stored for a field: `null` on a per-field failure, the
`_to_jsonable` image otherwise. -/
def serializedValue (f : PyField) : JValue :=
  if f.getRaises then .null else to_jsonable f.value

theorem serialize_step_eq (data : RD) (f : PyField) :
    (if f.getRaises then rdSet data f.name .null
     else if f.isFK then rdSet data f.attname (to_jsonable f.value)
     else rdSet data f.name (to_jsonable f.value))
      = rdSet data (usedKey f) (serializedValue f) := by
  by_cases h1 : f.getRaises <;> by_cases h2 : f.isFK <;>
    simp [usedKey, serializedValue, h1, h2]

theorem serialize_go (fs : List PyField) :
    ∀ (acc : RD), (∀ f ∈ fs, rdHas acc (usedKey f) = false) →
      (fs.map usedKey).Nodup →
      fs.foldl
        (fun data f =>
          if f.getRaises then rdSet data f.name .null
          else if f.isFK then rdSet data f.attname (to_jsonable f.value)
          else rdSet data f.name (to_jsonable f.value))
        acc
      = acc ++ fs.map (fun f => (usedKey f, serializedValue f)) := by
  induction fs with
  | nil => intro acc _ _; simp
  | cons f rest ih =>
    intro acc hfresh hnodup
    have hstep := serialize_step_eq acc f
    have hset : rdSet acc (usedKey f) (serializedValue f)
        = acc ++ [(usedKey f, serializedValue f)] :=
      rdSet_of_not_has acc _ _ (hfresh f (by simp))
    have hnodup' : (rest.map usedKey).Nodup := by
      simpa using hnodup.of_cons
    have hfresh' : ∀ g ∈ rest, rdHas (acc ++ [(usedKey f, serializedValue f)]) (usedKey g) = false := by
      intro g hg
      have hne : usedKey g ≠ usedKey f := by
        intro hEq
        have : usedKey f ∈ rest.map usedKey := by
          exact List.mem_map.mpr ⟨g, hg, hEq⟩
        exact (List.nodup_cons.mp hnodup).1 this
      have h1 : rdHas acc (usedKey g) = false := hfresh g (by simp [hg])
      have h2 : rdHas [(usedKey f, serializedValue f)] (usedKey g) = false := by
        have : (usedKey f == usedKey g) = false := by
          simp [Ne.symm hne]
        simp [rdHas, rdGet, List.find?, this]
      simp [rdHas_append, h1, h2]
    calc
      _ = rest.foldl _ (rdSet acc (usedKey f) (serializedValue f)) := by
            rw [List.foldl_cons, hstep]
      _ = (acc ++ [(usedKey f, serializedValue f)])
            ++ rest.map (fun f => (usedKey f, serializedValue f)) := by
            rw [hset]; exact ih _ hfresh' hnodup'
      _ = acc ++ (f :: rest).map (fun f => (usedKey f, serializedValue f)) := by simp

/-- C8: for every entity instance whose fields' storage keys are distinct
(as they are for a Django model), the captured `record_data` is exactly one
JSON-safe scalar per concrete field — `null` for a per-field failure (the
row is not aborted), the `_to_jsonable` image otherwise — together with the
serialization rule itself: scalar passthrough, decimal and UUID and
date/time to strings (`isoformat` when it does not raise), file references
to the stored name or the empty string, anything else a best-effort string,
and `null` when even `str()` raises. -/
theorem capture_shape (fs : List PyField) (hkeys : (fs.map usedKey).Nodup) :
    serialize_instance_for_trash fs
        = fs.map (fun f => (usedKey f, serializedValue f)) ∧
    (∀ b, to_jsonable (.bool b) = .bool b) ∧
    (∀ n, to_jsonable (.int n) = .int n) ∧
    (∀ s z, to_jsonable (.float s z) = .float s z) ∧
    (∀ s, to_jsonable (.str s) = .str s) ∧
    to_jsonable .none = .null ∧
    (∀ s, to_jsonable (.decimal s) = .str s) ∧
    (∀ s, to_jsonable (.uuid s) = .str s) ∧
    (∀ iso fb, to_jsonable (.datetime iso false fb) = .str iso) ∧
    (∀ iso fb, to_jsonable (.datetime iso true fb) = .str fb) ∧
    (∀ nm, to_jsonable (.fieldFile nm false) = .str (nm.getD "")) ∧
    (∀ r, to_jsonable (.fieldFile r true) = .str "") ∧
    (∀ s, to_jsonable (.other (some s)) = .str s) ∧
    to_jsonable (.other Option.none) = .null := by
  refine ⟨?_, by intro b; rfl, by intro n; rfl, by intro s z; rfl, by intro s; rfl,
    rfl, by intro s; rfl, by intro s; rfl, by intro iso fb; rfl, by intro iso fb; rfl,
    by intro nm; rfl, by intro r; rfl, by intro s; rfl, rfl⟩
  have := serialize_go fs [] (by intro f _; simp [rdHas, rdGet]) hkeys
  simpa [serialize_instance_for_trash] using this

theorem capture_shape_witness :
    serialize_instance_for_trash
        [⟨"price", "price", false, .decimal "12.50", false⟩,
         ⟨"product", "product_id", true, .str "P1", false⟩,
         ⟨"broken", "broken", false, .other (some "x"), true⟩]
      = [("price", .str "12.50"), ("product_id", .str "P1"), ("broken", .null)] := by
  have h := (capture_shape
    [⟨"price", "price", false, .decimal "12.50", false⟩,
     ⟨"product", "product_id", true, .str "P1", false⟩,
     ⟨"broken", "broken", false, .other (some "x"), true⟩] (by decide)).1
  simpa [usedKey, serializedValue, to_jsonable] using h

/-! ## Claim C9: the visibility toggle -/

/-- The ids `recursive_mark` processes, in order (the executable skeleton of
`recursiveMark`, reading only `id` and `parent`). -/
def markSet (trash : List RecentlyDeletedItem) : Nat → List Nat → Option (List Nat)
  | _, [] => some []
  | 0, _ :: _ => none
  | fuel + 1, t :: rest =>
    (markSet trash fuel
      (((trash.filter (fun e => e.parent == some t)).map (·.id)) ++ rest)).map
      (fun S => t :: S)

/-- Set the status of every entry whose id is in the processed set. -/
def applyMarks (flag : String) (S : List Nat) (trash : List RecentlyDeletedItem) :
    List RecentlyDeletedItem :=
  trash.map (fun e => if S.contains e.id then { e with status := flag } else e)

/-- A trash entry with its status blanked, for frame statements. -/
def eraseStatus (e : RecentlyDeletedItem) : RecentlyDeletedItem :=
  { e with status := "" }

theorem markOne_id (flag : String) (t : Nat) (e : RecentlyDeletedItem) :
    (markOne flag t e).id = e.id := by
  by_cases h : e.id = t <;> simp [markOne, h]

theorem markOne_parent (flag : String) (t : Nat) (e : RecentlyDeletedItem) :
    (markOne flag t e).parent = e.parent := by
  by_cases h : e.id = t <;> simp [markOne, h]

theorem mark_preserves_kids (flag : String) (t t' : Nat)
    (trash : List RecentlyDeletedItem) :
    ((trash.map (markOne flag t)).filter (fun e => e.parent == some t')).map (·.id)
      = (trash.filter (fun e => e.parent == some t')).map (·.id) := by
  induction trash with
  | nil => simp
  | cons e es ih =>
    by_cases hp : e.parent = some t'
    · simp [List.filter_cons, markOne_parent, markOne_id, hp, ih]
    · simp [List.filter_cons, markOne_parent, markOne_id, hp, ih]

theorem markSet_mark_eq (flag : String) (t : Nat) :
    ∀ (fuel : Nat) (wl : List Nat) (trash : List RecentlyDeletedItem),
      markSet (trash.map (markOne flag t)) fuel wl = markSet trash fuel wl := by
  intro fuel
  induction fuel with
  | zero => intro wl trash; cases wl <;> simp [markSet]
  | succ n ih =>
    intro wl trash
    cases wl with
    | nil => simp [markSet]
    | cons t' rest =>
      simp only [markSet, mark_preserves_kids, ih]

theorem applyMarks_mark (flag : String) (t : Nat) (S : List Nat)
    (trash : List RecentlyDeletedItem) :
    applyMarks flag S (trash.map (markOne flag t))
      = applyMarks flag (t :: S) trash := by
  simp only [applyMarks, List.map_map]
  apply List.map_congr_left
  intro e _
  by_cases h1 : e.id = t <;> by_cases h2 : S.contains e.id = true <;>
    simp [Function.comp, markOne, h1, h2]

theorem recursiveMark_eq_markSet (flag : String) :
    ∀ (fuel : Nat) (wl : List Nat) (trash : List RecentlyDeletedItem),
      recursiveMark flag fuel wl trash
        = (markSet trash fuel wl).map (fun S => applyMarks flag S trash) := by
  intro fuel
  induction fuel with
  | zero =>
    intro wl trash
    cases wl with
    | nil =>
      simp [recursiveMark, markSet, applyMarks]
    | cons t rest => simp [recursiveMark, markSet]
  | succ n ih =>
    intro wl trash
    cases wl with
    | nil =>
      simp [recursiveMark, markSet, applyMarks]
    | cons t rest =>
      simp only [recursiveMark, markSet]
      rw [show ((trash.map (markOne flag t)).filter
            (fun e => e.parent == some t)).map (·.id)
          = (trash.filter (fun e => e.parent == some t)).map (·.id)
        from mark_preserves_kids flag t t trash]
      rw [ih]
      rw [markSet_mark_eq flag t n _ trash]
      cases h : markSet trash n
          (((trash.filter (fun e => e.parent == some t)).map (·.id)) ++ rest) with
      | none => simp [h]
      | some S => simp [h, applyMarks_mark]

theorem markSet_spec :
    ∀ (fuel : Nat) (wl : List Nat) (trash : List RecentlyDeletedItem) (S : List Nat),
      markSet trash fuel wl = some S →
      (∀ t ∈ wl, t ∈ S) ∧
      (∀ t ∈ S, ∀ e ∈ trash, e.parent = some t → e.id ∈ S) ∧
      (∀ s ∈ S, s ∈ wl ∨ ∃ t ∈ S, ∃ e ∈ trash, e.id = s ∧ e.parent = some t) := by
  intro fuel
  induction fuel with
  | zero =>
    intro wl trash S h
    cases wl with
    | nil =>
      simp [markSet] at h
      subst h
      exact ⟨by simp, by simp, by simp⟩
    | cons t rest => simp [markSet] at h
  | succ n ih =>
    intro wl trash S h
    cases wl with
    | nil =>
      simp [markSet] at h
      subst h
      exact ⟨by simp, by simp, by simp⟩
    | cons t rest =>
      simp only [markSet, Option.map_eq_some'] at h
      obtain ⟨S', hS', hTS⟩ := h
      subst hTS
      obtain ⟨iha, ihb, ihc⟩ := ih _ trash S' hS'
      refine ⟨?_, ?_, ?_⟩
      · intro x hx
        rcases List.mem_cons.mp hx with hx | hx
        · exact List.mem_cons.mpr (Or.inl hx)
        · exact List.mem_cons.mpr (Or.inr (iha x (by simp [hx])))
      · intro t' ht' e he hp
        rcases List.mem_cons.mp ht' with ht' | ht'
        · subst ht'
          have : e.id ∈ (trash.filter (fun e => e.parent == some t')).map (·.id) := by
            simp only [List.mem_map]
            exact ⟨e, List.mem_filter.mpr ⟨he, by simp [hp]⟩, rfl⟩
          exact List.mem_cons.mpr (Or.inr (iha e.id (by simp [List.mem_append]; left; simpa using this)))
        · exact List.mem_cons.mpr (Or.inr (ihb t' ht' e he hp))
      · intro s hs
        rcases List.mem_cons.mp hs with hs | hs
        · exact Or.inl (by simp [hs])
        · rcases ihc s hs with hwl | ⟨t', ht', e, he, hid, hp⟩
          · rcases List.mem_append.mp hwl with hkid | hrest
            · right
              simp only [List.mem_map] at hkid
              obtain ⟨e, he, hid⟩ := hkid
              have hef := List.mem_filter.mp he
              exact ⟨t, by simp, e, hef.1, hid, by simpa using hef.2⟩
            · exact Or.inl (by simp [hrest])
          · exact Or.inr ⟨t', List.mem_cons.mpr (Or.inr ht'), e, he, hid, hp⟩

theorem applyMarks_frame (flag : String) (S : List Nat)
    (trash : List RecentlyDeletedItem) :
    (applyMarks flag S trash).map eraseStatus = trash.map eraseStatus := by
  simp only [applyMarks, List.map_map]
  apply List.map_congr_left
  intro e _
  by_cases h : e.id ∈ S <;> simp [Function.comp, eraseStatus, h]

/-- Fixture: a small trash forest (entry 2 is a trash-tree child of entry 1,
entry 3 an unrelated root). -/
def c9e1 : RecentlyDeletedItem :=
  ⟨1, "Product", "P1", [("product_id", .str "P1")], "VISIBLE", Option.none, 0, "",
    "Product deleted"⟩

def c9e2 : RecentlyDeletedItem :=
  ⟨2, "ProductSEO", "S1", [("seo_id", .str "S1"), ("product_id", .str "P1")],
    "VISIBLE", some 1, 0, "", "ProductSEO deleted"⟩

def c9e3 : RecentlyDeletedItem :=
  ⟨3, "Category", "C1", [("category_id", .str "C1")], "VISIBLE", Option.none, 0, "",
    "Category deleted"⟩

def c9db : DB := ⟨[], [c9e1, c9e2, c9e3]⟩

/-- C9, counterexample: the endpoint does not accept the statuses `VISIBLE`
or `HIDDEN` the claim names; it rejects both with a validation error and
mutates nothing (the accepted tokens are `UNHIDE` and `HIDE`). -/
theorem recover_item_rejects_visible :
    recover_item c9db 1 "VISIBLE" = (.invalidStatus, c9db) ∧
    recover_item c9db 1 "HIDDEN" = (.invalidStatus, c9db) := by
  constructor <;> rfl

/-- C9, amended: for an existing trash id and a requested status normalizing
to `UNHIDE` or `HIDE` (not `VISIBLE`/`HIDDEN`), the endpoint recursively
applies that status to the entry and all of its trash-tree descendants and
to nothing else, mutating only the `status` field — record data, tree
structure and the live tables are unchanged.  `S` is the processed id set:
it contains the target, is closed under trash-tree children, and contains
only the target and its descendants. -/
theorem recover_item_marks_descendants
    (db : DB) (reqId : Nat) (reqStatus : String) (item : RecentlyDeletedItem)
    (S : List Nat)
    (hflag : pyStrip (pyUpper reqStatus) = "UNHIDE" ∨ pyStrip (pyUpper reqStatus) = "HIDE")
    (hfind : db.trash.find? (fun e => e.id == reqId) = some item)
    (hterm : markSet db.trash (db.trash.length + 1) [item.id] = some S) :
    recover_item db reqId reqStatus
      = (.success reqId (pyStrip (pyUpper reqStatus)),
         { db with trash := applyMarks (pyStrip (pyUpper reqStatus)) S db.trash }) ∧
    (applyMarks (pyStrip (pyUpper reqStatus)) S db.trash).map eraseStatus
      = db.trash.map eraseStatus ∧
    (recover_item db reqId reqStatus).2.live = db.live ∧
    item.id ∈ S ∧
    (∀ t ∈ S, ∀ e ∈ db.trash, e.parent = some t → e.id ∈ S) ∧
    (∀ s ∈ S, s = item.id ∨ ∃ t ∈ S, ∃ e ∈ db.trash, e.id = s ∧ e.parent = some t) := by
  obtain ⟨ha, hb, hc⟩ := markSet_spec (db.trash.length + 1) [item.id] db.trash S hterm
  have hmain : recover_item db reqId reqStatus
      = (.success reqId (pyStrip (pyUpper reqStatus)),
         { db with trash := applyMarks (pyStrip (pyUpper reqStatus)) S db.trash }) := by
    have hcond : (!(pyStrip (pyUpper reqStatus) == "UNHIDE"
        || pyStrip (pyUpper reqStatus) == "HIDE")) = false := by
      rcases hflag with h | h <;> simp [h]
    simp only [recover_item, hcond, Bool.false_eq_true, if_false, hfind,
      recursiveMark_eq_markSet, hterm, Option.map_some']
  refine ⟨hmain, applyMarks_frame _ _ _, by rw [hmain], ha item.id (by simp), hb, ?_⟩
  intro s hs
  rcases hc s hs with h | h
  · exact Or.inl (by simpa using h)
  · exact Or.inr h

theorem recover_item_marks_descendants_witness :
    recover_item c9db 1 "hide"
      = (.success 1 "HIDE", { c9db with trash := applyMarks "HIDE" [1, 2] c9db.trash })
      ∧ (1 : Nat) ∈ ([1, 2] : List Nat) := by
  have h := recover_item_marks_descendants c9db 1 "hide" c9e1 [1, 2]
    (Or.inr (by decide)) (by decide) (by decide)
  exact ⟨h.1, h.2.2.2.1⟩

/-! ## Claim C1: a non-standalone seed with a missing parent blocks the
restore before any mutation -/

/-- The contribution of one `parents` lambda to `_parents_for`'s output. -/
def blockedOf (env : Env) (db : DB) (rd : RD) (fn : ParentFn) : List Blocked :=
  match evalParentFn fn rd with
  | none => []
  | some (pm, pp, _) =>
    if !(exists_live env db pm pp
        || db.trash.any (fun e => e.table_name == pm && e.record_id == pyStr pp)) then
      [⟨pm, if truthy pp then pyStr pp else "", "missing-parent"⟩]
    else []

theorem parents_for_eq (env : Env) (db : DB) (item : RecentlyDeletedItem) :
    parents_for env db item
      = (((rulesFor item.table_name).parents).map
          (blockedOf env db item.record_data)).flatten := by
  have hstep :
      (fun (blocked : List Blocked) (fn : ParentFn) =>
        match evalParentFn fn item.record_data with
        | none => blocked
        | some (pm, pp, _) =>
          let in_live := exists_live env db pm pp
          let in_trash := db.trash.any
            (fun e => e.table_name == pm && e.record_id == pyStr pp)
          if !(in_live || in_trash) then
            blocked ++ [⟨pm, if truthy pp then pyStr pp else "", "missing-parent"⟩]
          else blocked)
      = fun blocked fn => blocked ++ blockedOf env db item.record_data fn := by
    funext blocked fn
    cases h : evalParentFn fn item.record_data with
    | none => simp [blockedOf, h]
    | some tup =>
      obtain ⟨pm, pp, fk⟩ := tup
      by_cases hc : (exists_live env db pm pp
          || db.trash.any (fun e => e.table_name == pm && e.record_id == pyStr pp)) = true <;>
        simp [blockedOf, h, hc]
  rw [parents_for, hstep, foldl_app]
  simp

theorem parents_for_mem (env : Env) (db : DB) (item : RecentlyDeletedItem)
    (fn : ParentFn) (pm : String) (pp : JValue) (fk : String)
    (hfn : fn ∈ (rulesFor item.table_name).parents)
    (heval : evalParentFn fn item.record_data = some (pm, pp, fk))
    (hlive : exists_live env db pm pp = false)
    (htrash : db.trash.any (fun e => e.table_name == pm && e.record_id == pyStr pp) = false) :
    (⟨pm, if truthy pp then pyStr pp else "", "missing-parent"⟩ : Blocked)
      ∈ parents_for env db item := by
  rw [parents_for_eq]
  rw [List.mem_flatten]
  refine ⟨blockedOf env db item.record_data fn, List.mem_map.mpr ⟨fn, hfn, rfl⟩, ?_⟩
  simp [blockedOf, heval, hlive, htrash]

/-- C1: for a restore request resolving to a single seed whose rule is
non-standalone and which has a required parent that is neither live nor
present in trash, the restore rejects with a `blocked_by` list containing
that parent as `{model, id, reason: "missing-parent"}` and the database is
returned unchanged: no live rows are created, no trash entries deleted. -/
theorem restore_blocks_missing_parent (env : Env) (db : DB) (req : RestoreRequest)
    (s : RecentlyDeletedItem) (fn : ParentFn) (pm : String) (pp : JValue) (fk : String)
    (hseeds : computeSeeds db req = [s])
    (hstand : (rulesFor s.table_name).standalone = false)
    (hfn : fn ∈ (rulesFor s.table_name).parents)
    (heval : evalParentFn fn s.record_data = some (pm, pp, fk))
    (hlive : exists_live env db pm pp = false)
    (htrash : db.trash.any (fun e => e.table_name == pm && e.record_id == pyStr pp) = false) :
    restore env db req = (.seedBlocked (parents_for env db s), db, []) ∧
    (⟨pm, if truthy pp then pyStr pp else "", "missing-parent"⟩ : Blocked)
      ∈ parents_for env db s := by
  have hmem := parents_for_mem env db s fn pm pp fk hfn heval hlive htrash
  have hne : (parents_for env db s).isEmpty = false := by
    cases h : parents_for env db s with
    | nil => rw [h] at hmem; simp at hmem
    | cons a l => simp
  constructor
  · have hcl : collectLoop env db [s] [] = .error (parents_for env db s) := by
      simp [collectLoop, hstand, hne]
    simp [restore, hseeds, hcl]
  · exact hmem

/-! ## Concrete fixtures (model metadata transcribed from `models.py`) -/

def miProduct : ModelInfo :=
  { pk_name := "product_id",
    fields :=
      [ ⟨"product_id", "product_id", false⟩,
        ⟨"title", "title", false⟩,
        ⟨"description", "description", false⟩,
        ⟨"long_description", "long_description", false⟩,
        ⟨"brand", "brand", false⟩,
        ⟨"price", "price", false⟩,
        ⟨"discounted_price", "discounted_price", false⟩,
        ⟨"tax_rate", "tax_rate", false⟩,
        ⟨"price_calculator", "price_calculator", false⟩,
        ⟨"video_url", "video_url", false⟩,
        ⟨"status", "status", false⟩,
        ⟨"created_by", "created_by", false⟩,
        ⟨"created_by_type", "created_by_type", false⟩,
        ⟨"created_at", "created_at", false⟩,
        ⟨"updated_at", "updated_at", false⟩,
        ⟨"order", "order", false⟩,
        ⟨"rating", "rating", false⟩,
        ⟨"rating_count", "rating_count", false⟩ ] }

def miProductVariant : ModelInfo :=
  { pk_name := "variant_id",
    fields :=
      [ ⟨"variant_id", "variant_id", false⟩,
        ⟨"product", "product_id", true⟩,
        ⟨"size", "size", false⟩,
        ⟨"color", "color", false⟩,
        ⟨"material_type", "material_type", false⟩,
        ⟨"fabric_finish", "fabric_finish", false⟩,
        ⟨"printing_methods", "printing_methods", false⟩,
        ⟨"add_on_options", "add_on_options", false⟩,
        ⟨"created_at", "created_at", false⟩ ] }

def miVariantCombination : ModelInfo :=
  { pk_name := "combo_id",
    fields :=
      [ ⟨"combo_id", "combo_id", false⟩,
        ⟨"variant", "variant_id", true⟩,
        ⟨"description", "description", false⟩,
        ⟨"price_override", "price_override", false⟩,
        ⟨"created_at", "created_at", false⟩ ] }

def miProductSEO : ModelInfo :=
  { pk_name := "seo_id",
    fields :=
      [ ⟨"seo_id", "seo_id", false⟩,
        ⟨"product", "product_id", true⟩,
        ⟨"image_alt_text", "image_alt_text", false⟩,
        ⟨"meta_title", "meta_title", false⟩,
        ⟨"meta_description", "meta_description", false⟩,
        ⟨"meta_keywords", "meta_keywords", false⟩,
        ⟨"open_graph_title", "open_graph_title", false⟩,
        ⟨"open_graph_desc", "open_graph_desc", false⟩,
        ⟨"open_graph_image_url", "open_graph_image_url", false⟩,
        ⟨"canonical_url", "canonical_url", false⟩,
        ⟨"json_ld", "json_ld", false⟩,
        ⟨"custom_tags", "custom_tags", false⟩,
        ⟨"grouped_filters", "grouped_filters", false⟩,
        ⟨"created_at", "created_at", false⟩,
        ⟨"updated_at", "updated_at", false⟩ ] }

def miAttribute : ModelInfo :=
  { pk_name := "attr_id",
    fields :=
      [ ⟨"attr_id", "attr_id", false⟩,
        ⟨"product", "product_id", true⟩,
        ⟨"parent", "parent_id", true⟩,
        ⟨"name", "name", false⟩,
        ⟨"label", "label", false⟩,
        ⟨"image", "image_id", true⟩,
        ⟨"price_delta", "price_delta", false⟩,
        ⟨"is_default", "is_default", false⟩,
        ⟨"description", "description", false⟩,
        ⟨"order", "order", false⟩,
        ⟨"created_at", "created_at", false⟩ ] }

/-- Fixture environment: the models the example scenarios touch, with
writes that never fail. -/
def fxEnv : Env :=
  { models :=
      [ ("Product", miProduct),
        ("ProductVariant", miProductVariant),
        ("VariantCombination", miVariantCombination),
        ("ProductSEO", miProductSEO),
        ("Attribute", miAttribute) ],
    upsertFails := fun _ _ _ => Option.none,
    attrUpdateFails := fun _ _ => Option.none }

/-- Fixture: a lone ProductVariant in trash whose Product parent is neither
live nor in trash. -/
def c1variant : RecentlyDeletedItem :=
  ⟨1, "ProductVariant", "V1",
    [("variant_id", .str "V1"), ("product_id", .str "P9")],
    "VISIBLE", Option.none, 0, "", "ProductVariant deleted"⟩

def c1db : DB := ⟨[], [c1variant]⟩

theorem restore_blocks_missing_parent_witness :
    restore fxEnv c1db ⟨[1], []⟩
      = (.seedBlocked (parents_for fxEnv c1db c1variant), c1db, []) ∧
    (⟨"Product", "P9", "missing-parent"⟩ : Blocked)
      ∈ parents_for fxEnv c1db c1variant := by
  have h := restore_blocks_missing_parent fxEnv c1db ⟨[1], []⟩ c1variant
    (.req "Product" "product_id" "product_id") "Product" (.str "P9") "product_id"
    (by decide) (by decide) (by decide) (by decide) (by decide) (by decide)
  exact ⟨h.1, by simpa using h.2⟩

/-! ## Claim C4: any pass-1 or pass-2 failure rolls the whole restore back -/

theorem pass1_error (env : Env) :
    ∀ (nodes : List RecentlyDeletedItem) (live : List LiveRow)
      (pending : List (String × String)) (trace : List UpsertEvent)
      (e : RestoreResponse),
      pass1 env nodes live pending trace = .error e →
      ∃ n ∈ nodes,
        (model_lookup env n.table_name = Option.none ∧ e = .unknownModel n.table_name) ∨
        (∃ M msg, model_lookup env n.table_name = some M ∧
          env.upsertFails n.table_name (rdGetD (strippedPayload n) M.pk_name)
            (recreateData M (strippedPayload n)) = some msg ∧
          e = .pass1Failed n.table_name n.record_id msg) := by
  intro nodes
  induction nodes with
  | nil => intro live pending trace e h; simp [pass1] at h
  | cons n rest ih =>
    intro live pending trace e h
    cases hM : model_lookup env n.table_name with
    | none =>
      refine ⟨n, by simp, Or.inl ⟨hM, ?_⟩⟩
      simp [pass1, hM] at h
      exact h.symm
    | some M =>
      cases hU : env.upsertFails n.table_name (rdGetD (strippedPayload n) M.pk_name)
          (recreateData M (strippedPayload n)) with
      | none =>
        simp only [pass1, hM, hU] at h
        obtain ⟨m, hm, hcase⟩ := ih _ _ _ _ h
        exact ⟨m, by simp [hm], hcase⟩
      | some msg =>
        refine ⟨n, by simp, Or.inr ⟨M, msg, hM, hU, ?_⟩⟩
        simp [pass1, hM, hU] at h
        exact h.symm

theorem pass2_error (env : Env) :
    ∀ (pending : List (String × String)) (live : List LiveRow) (e : RestoreResponse),
      pass2 env pending live = .error e →
      ∃ a p msg, e = .pass2Failed a p msg ∧
        (model_lookup env "Attribute" = Option.none ∨ env.attrUpdateFails a p = some msg) := by
  intro pending
  induction pending with
  | nil => intro live e h; simp [pass2] at h
  | cons ap rest ih =>
    intro live e h
    obtain ⟨a, p⟩ := ap
    cases hM : model_lookup env "Attribute" with
    | none =>
      simp [pass2, hM] at h
      exact ⟨a, p, "unknown model Attribute", h.symm, Or.inl rfl⟩
    | some M =>
      cases hU : env.attrUpdateFails a p with
      | none =>
        simp only [pass2, hM, hU] at h
        obtain ⟨a', p', msg', he, hw⟩ := ih _ _ h
        refine ⟨a', p', msg', he, ?_⟩
        rcases hw with hw | hw
        · rw [hM] at hw; cases hw
        · exact Or.inr hw
      | some msg =>
        simp [pass2, hM, hU] at h
        exact ⟨a, p, msg, h.symm, Or.inr hU⟩

theorem collectLoop_ok (env : Env) (db : DB) :
    ∀ (seeds : List RecentlyDeletedItem) (acc r : List RecentlyDeletedItem),
      collectLoop env db seeds acc = .ok r →
      r = seeds.foldl (fun a s => a ++ seedNodes env db s) acc := by
  intro seeds
  induction seeds with
  | nil => intro acc r h; simp [collectLoop] at h; simp [h.symm]
  | cons s rest ih =>
    intro acc r h
    by_cases hb : (!(rulesFor s.table_name).standalone
        && !(parents_for env db s).isEmpty) = true
    · simp [collectLoop, hb] at h
    · simp only [collectLoop, hb, Bool.false_eq_true, if_false] at h
      simpa using ih _ _ h

theorem restore_branch (env : Env) (db : DB) (req : RestoreRequest) :
    (restore env db req).1 = .noTargets ∨
    (∃ b, (restore env db req).1 = .seedBlocked b) ∨
    (∃ d, (restore env db req).1 = .finalBlocked d) ∨
    restore env db req = runPasses env db (computeOrder (restoreNodes env db req)) := by
  by_cases h1 : (computeSeeds db req).isEmpty
  · left; simp [restore, h1]
  · cases h2 : collectLoop env db (computeSeeds db req) [] with
    | error missing =>
      right; left
      exact ⟨missing, by simp [restore, h1, h2]⟩
    | ok raw =>
      have hraw : dedupById raw = restoreNodes env db req := by
        rw [restoreNodes, collectLoop_ok env db _ _ _ h2]
      by_cases h3 : (guardViolations env db (dedupById raw)).isEmpty
      · right; right; right
        rw [← hraw]
        simp [restore, h1, h2, h3]
      · right; right; left
        refine ⟨guardViolations env db (dedupById raw), ?_⟩
        simp [restore, h1, h2, h3]

/-- C4: if any row upsert in pass 1 (including an unresolvable model) or any
self-reference fix-up in pass 2 fails, the committed database equals the
input database — zero rows from the restore are committed and no trash
entries are deleted — and the response names the failing entity/row (a node
of the computed restore order whose write the environment made fail, or the
failing Attribute link) and carries the failure message. -/
theorem restore_failure_rolls_back (env : Env) (db : DB) (req : RestoreRequest) :
    (∀ t r m, (restore env db req).1 = .pass1Failed t r m →
      (restore env db req).2.1 = db ∧
      ∃ n ∈ computeOrder (restoreNodes env db req),
        n.table_name = t ∧ n.record_id = r ∧
        ∃ M, model_lookup env t = some M ∧
          env.upsertFails t (rdGetD (strippedPayload n) M.pk_name)
            (recreateData M (strippedPayload n)) = some m) ∧
    (∀ t, (restore env db req).1 = .unknownModel t →
      (restore env db req).2.1 = db ∧
      ∃ n ∈ computeOrder (restoreNodes env db req),
        n.table_name = t ∧ model_lookup env t = Option.none) ∧
    (∀ a p m, (restore env db req).1 = .pass2Failed a p m →
      (restore env db req).2.1 = db ∧
      (model_lookup env "Attribute" = Option.none ∨ env.attrUpdateFails a p = some m)) := by
  rcases restore_branch env db req with h | ⟨b, h⟩ | ⟨d, h⟩ | h
  · refine ⟨fun t r m hc => ?_, fun t hc => ?_, fun a p m hc => ?_⟩ <;>
      · rw [h] at hc; cases hc
  · refine ⟨fun t r m hc => ?_, fun t hc => ?_, fun a p m hc => ?_⟩ <;>
      · rw [h] at hc; cases hc
  · refine ⟨fun t r m hc => ?_, fun t hc => ?_, fun a p m hc => ?_⟩ <;>
      · rw [h] at hc; cases hc
  · set ordered := computeOrder (restoreNodes env db req) with hord
    cases hp1 : pass1 env ordered db.live [] [] with
    | error e =>
      have hrun : restore env db req = (e, db, []) := by
        rw [h, runPasses, hp1]
      obtain ⟨n, hn, hcase⟩ := pass1_error env ordered db.live [] [] e hp1
      refine ⟨?_, ?_, ?_⟩
      · intro t r m hc
        rw [hrun] at hc
        simp only at hc
        subst hc
        rcases hcase with ⟨_, habs⟩ | ⟨M, msg, hM, hU, he⟩
        · cases habs
        · obtain ⟨ht, hr, hm⟩ : n.table_name = t ∧ n.record_id = r ∧ msg = m := by
            cases he
            exact ⟨rfl, rfl, rfl⟩
          subst ht; subst hr; subst hm
          exact ⟨by rw [hrun], n, hn, rfl, rfl, M, hM, hU⟩
      · intro t hc
        rw [hrun] at hc
        simp only at hc
        subst hc
        rcases hcase with ⟨hM, he⟩ | ⟨M, msg, hM, hU, he⟩
        · obtain ht : n.table_name = t := by cases he; rfl
          subst ht
          exact ⟨by rw [hrun], n, hn, rfl, hM⟩
        · cases he
      · intro a p m hc
        rw [hrun] at hc
        simp only at hc
        subst hc
        rcases hcase with ⟨_, habs⟩ | ⟨M, msg, _, _, habs⟩ <;> cases habs
    | ok tup =>
      obtain ⟨live1, pending, trace⟩ := tup
      cases hp2 : pass2 env pending live1 with
      | error e =>
        have hrun : restore env db req = (e, db, []) := by
          rw [h]; simp only [runPasses, hp1, hp2]
        obtain ⟨a0, p0, msg0, he, hwhy⟩ := pass2_error env pending live1 e hp2
        refine ⟨?_, ?_, ?_⟩
        · intro t r m hc
          rw [hrun] at hc
          simp only at hc
          subst hc
          cases he
        · intro t hc
          rw [hrun] at hc
          simp only at hc
          subst hc
          cases he
        · intro a p m hc
          rw [hrun] at hc
          simp only at hc
          subst hc
          obtain ⟨ha, hp, hm⟩ : a0 = a ∧ p0 = p ∧ msg0 = m := by
            cases he
            exact ⟨rfl, rfl, rfl⟩
          subst ha; subst hp; subst hm
          exact ⟨by rw [hrun], hwhy⟩
      | ok live2 =>
        have hrun : (restore env db req).1
            = .success (ordered.map (fun n => n.table_name ++ ":" ++ n.record_id))
                ordered.length (mutedFor ordered) := by
          rw [h]; simp only [runPasses, hp1, hp2]
        refine ⟨fun t r m hc => ?_, fun t hc => ?_, fun a p m hc => ?_⟩ <;>
          · rw [hrun] at hc; cases hc

/-- Fixture environment whose ProductVariant writes fail. -/
def fxEnvFail : Env :=
  { models := fxEnv.models,
    upsertFails := fun t _ _ =>
      if t == "ProductVariant" then some "constraint violation" else Option.none,
    attrUpdateFails := fun _ _ => Option.none }

/-- Fixture: the variant's Product parent is live, so the restore reaches
pass 1 and fails on the variant's upsert. -/
def c4db : DB := ⟨[⟨"Product", "P9", [("product_id", .str "P9")]⟩], [c1variant]⟩

theorem restore_failure_rolls_back_witness :
    (restore fxEnvFail c4db ⟨[1], []⟩).2.1 = c4db ∧
    ∃ n ∈ computeOrder (restoreNodes fxEnvFail c4db ⟨[1], []⟩),
      n.table_name = "ProductVariant" ∧ n.record_id = "V1" ∧
      ∃ M, model_lookup fxEnvFail "ProductVariant" = some M ∧
        fxEnvFail.upsertFails "ProductVariant" (rdGetD (strippedPayload n) M.pk_name)
          (recreateData M (strippedPayload n)) = some "constraint violation" :=
  (restore_failure_rolls_back fxEnvFail c4db ⟨[1], []⟩).1
    "ProductVariant" "V1" "constraint violation" (by decide)

/-! ## Claim C5: the final guard -/

/-- The contribution of one node to the final guard's `details`. -/
def gvOf (env : Env) (db : DB) (n : RecentlyDeletedItem) : List GuardViolation :=
  if (rulesFor n.table_name).standalone then []
  else if (parents_for env db n).isEmpty then []
  else [⟨n.table_name, n.record_id, parents_for env db n⟩]

theorem guardViolations_eq (env : Env) (db : DB) (nodes : List RecentlyDeletedItem) :
    guardViolations env db nodes = (nodes.map (gvOf env db)).flatten := by
  have hstep :
      (fun (acc : List GuardViolation) (n : RecentlyDeletedItem) =>
        if (rulesFor n.table_name).standalone then acc
        else
          let miss := parents_for env db n
          if miss.isEmpty then acc else acc ++ [⟨n.table_name, n.record_id, miss⟩])
      = fun acc n => acc ++ gvOf env db n := by
    funext acc n
    by_cases h1 : (rulesFor n.table_name).standalone <;>
      by_cases h2 : (parents_for env db n).isEmpty <;>
        simp [gvOf, h1, h2]
  rw [guardViolations, hstep, foldl_app]
  simp

theorem guardViolations_mem (env : Env) (db : DB) (nodes : List RecentlyDeletedItem)
    (n : RecentlyDeletedItem) (hn : n ∈ nodes)
    (hs : (rulesFor n.table_name).standalone = false)
    (hm : parents_for env db n ≠ []) :
    (⟨n.table_name, n.record_id, parents_for env db n⟩ : GuardViolation)
      ∈ guardViolations env db nodes := by
  rw [guardViolations_eq, List.mem_flatten]
  refine ⟨gvOf env db n, List.mem_map.mpr ⟨n, hn, rfl⟩, ?_⟩
  have h2 : (parents_for env db n).isEmpty = false := by
    cases h : parents_for env db n with
    | nil => exact absurd h hm
    | cons a l => simp
  simp [gvOf, hs, h2]

theorem runPasses_shape (env : Env) (db : DB) (o : List RecentlyDeletedItem) :
    (∃ t r m, (runPasses env db o).1 = .pass1Failed t r m) ∨
    (∃ t, (runPasses env db o).1 = .unknownModel t) ∨
    (∃ a p m, (runPasses env db o).1 = .pass2Failed a p m) ∨
    (∃ r c mu, (runPasses env db o).1 = .success r c mu) := by
  cases hp1 : pass1 env o db.live [] [] with
  | error e =>
    obtain ⟨n, _, hcase⟩ := pass1_error env o db.live [] [] e hp1
    have he : (runPasses env db o).1 = e := by simp [runPasses, hp1]
    rcases hcase with ⟨_, hsh⟩ | ⟨M, msg, _, _, hsh⟩
    · exact Or.inr (Or.inl ⟨n.table_name, by rw [he, hsh]⟩)
    · exact Or.inl ⟨n.table_name, n.record_id, msg, by rw [he, hsh]⟩
  | ok tup =>
    obtain ⟨live1, pending, trace⟩ := tup
    cases hp2 : pass2 env pending live1 with
    | error e =>
      obtain ⟨a, p, msg, hsh, _⟩ := pass2_error env pending live1 e hp2
      have he : (runPasses env db o).1 = e := by
        simp [runPasses, hp1, hp2]
      exact Or.inr (Or.inr (Or.inl ⟨a, p, msg, by rw [he, hsh]⟩))
    | ok live2 =>
      refine Or.inr (Or.inr (Or.inr
        ⟨o.map (fun n => n.table_name ++ ":" ++ n.record_id), o.length, mutedFor o, ?_⟩))
      simp [runPasses, hp1, hp2]

/-- C5, amended: after the closures of all seeds are unioned and
de-duplicated, every node is re-checked by `_parents_for`, under which a
required parent counts as satisfiable when it is live or is present
anywhere in trash (not only when it is in the final closure set, as the
claim words it — see `final_guard_counterexample`).  If any node is still
blocked the whole restore is rejected with the violation list and nothing
is mutated; and every `finalBlocked` response is exactly that violation
list over the computed closure. -/
theorem final_guard (env : Env) (db : DB) (req : RestoreRequest) :
    (∀ d, (restore env db req).1 = .finalBlocked d →
      restore env db req
        = (.finalBlocked (guardViolations env db (restoreNodes env db req)), db, []) ∧
      guardViolations env db (restoreNodes env db req) ≠ []) ∧
    (∀ n ∈ restoreNodes env db req,
      (rulesFor n.table_name).standalone = false →
      parents_for env db n ≠ [] →
      (∃ b, (restore env db req).1 = .seedBlocked b) ∨
      restore env db req
        = (.finalBlocked (guardViolations env db (restoreNodes env db req)), db, [])) := by
  by_cases h1 : (computeSeeds db req).isEmpty
  · have hseeds : computeSeeds db req = [] := by
      cases h : computeSeeds db req with
      | nil => rfl
      | cons a l => rw [h] at h1; simp at h1
    have hnodes : restoreNodes env db req = [] := by
      simp [restoreNodes, hseeds, dedupById]
    have hresp : restore env db req = (.noTargets, db, []) := by
      simp [restore, h1]
    refine ⟨fun d hd => ?_, fun n hn => ?_⟩
    · rw [hresp] at hd; cases hd
    · rw [hnodes] at hn; cases hn
  · cases h2 : collectLoop env db (computeSeeds db req) [] with
    | error missing =>
      have hresp : restore env db req = (.seedBlocked missing, db, []) := by
        simp [restore, h1, h2]
      refine ⟨fun d hd => ?_, fun n _ _ _ => ?_⟩
      · rw [hresp] at hd; cases hd
      · exact Or.inl ⟨missing, by rw [hresp]⟩
    | ok raw =>
      have hraw : dedupById raw = restoreNodes env db req := by
        rw [restoreNodes, collectLoop_ok env db _ _ _ h2]
      by_cases h3 : (guardViolations env db (dedupById raw)).isEmpty
      · have hresp : restore env db req
            = runPasses env db (computeOrder (dedupById raw)) := by
          simp [restore, h1, h2, h3]
        refine ⟨fun d hd => ?_, fun n hn hs hm => ?_⟩
        · rw [hresp] at hd
          rcases runPasses_shape env db (computeOrder (dedupById raw)) with
            ⟨t, r, m, hsh⟩ | ⟨t, hsh⟩ | ⟨a, p, m, hsh⟩ | ⟨r, c, mu, hsh⟩ <;>
            · rw [hsh] at hd; cases hd
        · exfalso
          rw [← hraw] at hn
          have := guardViolations_mem env db (dedupById raw) n hn hs hm
          rw [List.isEmpty_iff] at h3
          rw [h3] at this
          cases this
      · have hresp : restore env db req
            = (.finalBlocked (guardViolations env db (dedupById raw)), db, []) := by
          simp [restore, h1, h2, h3]
        have hne : guardViolations env db (restoreNodes env db req) ≠ [] := by
          rw [← hraw]
          intro hc
          rw [hc] at h3
          simp at h3
        refine ⟨fun d hd => ?_, fun n _ _ _ => ?_⟩
        · rw [hraw] at hresp
          exact ⟨hresp, hne⟩
        · rw [hraw] at hresp
          exact Or.inr hresp

/-- Fixture: a ProductSEO snapshot whose `product_id` is the JSON number 0
(falsy), with the parent Product present in trash under record id `"0"`. -/
def c5seo : RecentlyDeletedItem :=
  ⟨1, "ProductSEO", "SEO1", [("seo_id", .str "SEO1"), ("product_id", .int 0)],
    "VISIBLE", Option.none, 0, "", "ProductSEO deleted"⟩

def c5prod : RecentlyDeletedItem :=
  ⟨2, "Product", "0", [("product_id", .int 0), ("title", .str "zero")],
    "VISIBLE", Option.none, 0, "", "Product deleted"⟩

def c5db : DB := ⟨[], [c5seo, c5prod]⟩

/-- C5, counterexample: the final guard does not check parents against the
final closure set.  Here the restored ProductSEO node's required Product
parent is neither live nor in the final set (the falsy snapshot key keeps
the upward closure from pulling it in), yet the restore is accepted and
succeeds instead of being rejected, because `_parents_for` accepts a parent
that is merely present anywhere in trash. -/
theorem final_guard_counterexample :
    (restore fxEnv c5db ⟨[1], []⟩).1 = .success ["ProductSEO:SEO1"] 1 [] ∧
    (rulesFor "ProductSEO").standalone = false ∧
    evalParentFn (.req "Product" "product_id" "product_id") c5seo.record_data
      = some ("Product", .int 0, "product_id") ∧
    c5seo ∈ restoreNodes fxEnv c5db ⟨[1], []⟩ ∧
    exists_live fxEnv (restore fxEnv c5db ⟨[1], []⟩).2.1 "Product" (.int 0) = false ∧
    (∀ n ∈ restoreNodes fxEnv c5db ⟨[1], []⟩,
      ¬(n.table_name = "Product" ∧ n.record_id = pyStr (.int 0))) ∧
    c5prod ∈ (restore fxEnv c5db ⟨[1], []⟩).2.1.trash := by
  decide

/-- Fixture: a VariantCombination seed whose ProductVariant parent is in
trash while the grand-parent Product is missing entirely, so the final
guard fires. -/
def c5wC1 : RecentlyDeletedItem :=
  ⟨10, "VariantCombination", "C1",
    [("combo_id", .str "C1"), ("variant_id", .str "V1")],
    "VISIBLE", Option.none, 0, "", "VariantCombination deleted"⟩

def c5wV1 : RecentlyDeletedItem :=
  ⟨11, "ProductVariant", "V1",
    [("variant_id", .str "V1"), ("product_id", .str "P1")],
    "VISIBLE", Option.none, 0, "", "ProductVariant deleted"⟩

def c5wdb : DB := ⟨[], [c5wC1, c5wV1]⟩

theorem final_guard_witness :
    restore fxEnv c5wdb ⟨[10], []⟩
      = (.finalBlocked
          (guardViolations fxEnv c5wdb (restoreNodes fxEnv c5wdb ⟨[10], []⟩)),
         c5wdb, []) := by
  have h := (final_guard fxEnv c5wdb ⟨[10], []⟩).2 c5wV1 (by decide) (by decide)
    (by decide)
  rcases h with ⟨b, hb⟩ | h
  · have hresp : (restore fxEnv c5wdb ⟨[10], []⟩).1
        = .finalBlocked
            [⟨"ProductVariant", "V1",
              [⟨"Product", "P1", "missing-parent"⟩]⟩] := by decide
    rw [hresp] at hb
    cases hb
  · exact h

/-! ## Claim C2: corestore closure completeness -/

theorem direct_children_eq (db : DB) (node : RecentlyDeletedItem) :
    direct_children db node
      = ((rulesFor node.table_name).corestore.map
          (fun cr => db.trash.filter
            (fun e => e.table_name == cr.child &&
              rdGet e.record_data cr.fk_key == some (.str node.record_id)))).flatten := by
  have hstep :
      (fun (out : List RecentlyDeletedItem) (cr : CoRule) =>
        out ++ db.trash.filter
          (fun e => e.table_name == cr.child &&
            rdGet e.record_data cr.fk_key == some (.str node.record_id)))
      = fun out cr => out ++ (fun cr => db.trash.filter
          (fun e => e.table_name == cr.child &&
            rdGet e.record_data cr.fk_key == some (.str node.record_id))) cr := rfl
  rw [direct_children, hstep, foldl_app]
  simp

theorem direct_children_sub (db : DB) (node : RecentlyDeletedItem) :
    ∀ ch ∈ direct_children db node, ch ∈ db.trash := by
  intro ch hch
  rw [direct_children_eq, List.mem_flatten] at hch
  obtain ⟨l, hl, hch⟩ := hch
  rw [List.mem_map] at hl
  obtain ⟨cr, _, hcr⟩ := hl
  rw [← hcr] at hch
  exact (List.mem_filter.mp hch).1

theorem contains_eq_mem_nat (l : List Nat) (a : Nat) :
    l.contains a = true ↔ a ∈ l := by
  simp [List.contains, List.elem_iff]

theorem addNew_spec :
    ∀ (chs : List RecentlyDeletedItem) (seen : List Nat)
      (queue result : List RecentlyDeletedItem),
      ∃ newEnts : List RecentlyDeletedItem,
        addNew seen queue result chs
          = ⟨seen ++ newEnts.map (·.id), queue ++ newEnts, result ++ newEnts⟩ ∧
        (∀ e ∈ newEnts, e ∈ chs) ∧
        (seen.Nodup → (seen ++ newEnts.map (·.id)).Nodup) ∧
        (∀ ch ∈ chs, ch.id ∈ seen ∨ ch.id ∈ newEnts.map (·.id)) := by
  intro chs
  induction chs with
  | nil =>
    intro seen queue result
    exact ⟨[], by simp [addNew], by simp, fun h => by simpa using h, by simp⟩
  | cons ch chs ih =>
    intro seen queue result
    by_cases hc : ch.id ∈ seen
    · have hstep : addNew seen queue result (ch :: chs) = addNew seen queue result chs := by
        simp [addNew, hc]
      obtain ⟨ne, heq, hmem, hnd, hrep⟩ := ih seen queue result
      refine ⟨ne, by rw [hstep]; exact heq, fun e he => by simp [hmem e he], hnd, ?_⟩
      intro c hc'
      rcases List.mem_cons.mp hc' with h | h
      · subst h; exact Or.inl hc
      · exact hrep c h
    · have hstep : addNew seen queue result (ch :: chs)
          = addNew (seen ++ [ch.id]) (queue ++ [ch]) (result ++ [ch]) chs := by
        simp [addNew, hc]
      obtain ⟨ne, heq, hmem, hnd, hrep⟩ :=
        ih (seen ++ [ch.id]) (queue ++ [ch]) (result ++ [ch])
      refine ⟨ch :: ne, ?_, ?_, ?_, ?_⟩
      · rw [hstep, heq]
        simp
      · intro e he
        rcases List.mem_cons.mp he with h | h
        · subst h; simp
        · simp [hmem e h]
      · intro hseen
        have hnodup : (seen ++ [ch.id]).Nodup := by
          rw [List.nodup_append]
          refine ⟨hseen, List.nodup_singleton _, ?_⟩
          intro a ha hb
          simp at hb
          subst hb
          exact hc ha
        have := hnd hnodup
        simpa using this
      · intro c hc'
        rcases List.mem_cons.mp hc' with h | h
        · subst h
          exact Or.inr (by simp)
        · rcases hrep c h with hrl | hrl
          · rcases List.mem_append.mp hrl with hx | hx
            · exact Or.inl hx
            · right
              simp at hx
              simp [hx]
          · refine Or.inr ?_
            rw [List.map_cons, List.mem_cons]
            exact Or.inr hrl

theorem trash_id_inj (db : DB) (hN : (db.trash.map (·.id)).Nodup)
    {e f : RecentlyDeletedItem} (he : e ∈ db.trash) (hf : f ∈ db.trash)
    (hid : e.id = f.id) : e = f :=
  List.inj_on_of_nodup_map hN he hf hid

theorem corestoreBFS_invariant (db : DB) (hN : (db.trash.map (·.id)).Nodup) :
    ∀ (fuel : Nat) (seen : List Nat) (queue result : List RecentlyDeletedItem),
      seen.Nodup →
      (∀ i ∈ seen, i ∈ db.trash.map (·.id)) →
      queue.length + (db.trash.map (·.id)).length ≤ fuel + seen.length →
      (∀ e ∈ queue, e ∈ result) →
      (∀ e ∈ result, e ∈ db.trash) →
      (∀ e ∈ result, e.id ∈ seen) →
      (∀ i ∈ seen, ∃ m ∈ result, m.id = i) →
      (∀ n ∈ result, n.id ∉ queue.map (·.id) →
        ∀ ch ∈ direct_children db n, ch ∈ result) →
      (corestoreBFS db fuel seen queue result).2 = true ∧
      (∀ e ∈ result, e ∈ (corestoreBFS db fuel seen queue result).1) ∧
      (∀ n ∈ (corestoreBFS db fuel seen queue result).1, n ∈ db.trash) ∧
      (∀ n ∈ (corestoreBFS db fuel seen queue result).1,
        ∀ ch ∈ direct_children db n, ch ∈ (corestoreBFS db fuel seen queue result).1) := by
  intro fuel
  induction fuel with
  | zero =>
    intro seen queue result hnd hsub hcount hqr hrt hrs hsr hclosed
    have hslen : seen.length ≤ (db.trash.map (·.id)).length :=
      (List.subperm_of_subset hnd hsub).length_le
    have hq : queue = [] := by
      cases queue with
      | nil => rfl
      | cons a l =>
        exfalso
        simp only [List.length_cons] at hcount
        omega
    subst hq
    refine ⟨by simp [corestoreBFS], by simp [corestoreBFS], ?_, ?_⟩
    · intro n hn
      exact hrt n (by simpa [corestoreBFS] using hn)
    · intro n hn ch hch
      have hn' : n ∈ result := by simpa [corestoreBFS] using hn
      have := hclosed n hn' (by simp) ch hch
      simpa [corestoreBFS] using this
  | succ fuel ih =>
    intro seen queue result hnd hsub hcount hqr hrt hrs hsr hclosed
    cases queue with
    | nil =>
      refine ⟨by simp [corestoreBFS], by simp [corestoreBFS], ?_, ?_⟩
      · intro n hn
        exact hrt n (by simpa [corestoreBFS] using hn)
      · intro n hn ch hch
        have hn' : n ∈ result := by simpa [corestoreBFS] using hn
        have := hclosed n hn' (by simp) ch hch
        simpa [corestoreBFS] using this
    | cons cur rest =>
      obtain ⟨ne, heq, hne_mem, hne_nd, hne_rep⟩ :=
        addNew_spec (direct_children db cur) seen rest result
      have hstep : corestoreBFS db (fuel + 1) seen (cur :: rest) result
          = corestoreBFS db fuel (seen ++ ne.map (·.id)) (rest ++ ne) (result ++ ne) := by
        simp only [corestoreBFS, heq]
      have hcur_res : cur ∈ result := hqr cur (by simp)
      have hcur_trash : cur ∈ db.trash := hrt cur hcur_res
      have hne_trash : ∀ e ∈ ne, e ∈ db.trash := fun e he =>
        direct_children_sub db cur e (hne_mem e he)
      have hlen_ne : (ne.map (·.id)).length = ne.length := List.length_map _ _
      have inv1 : (seen ++ ne.map (·.id)).Nodup := hne_nd hnd
      have inv2 : ∀ i ∈ seen ++ ne.map (·.id), i ∈ db.trash.map (·.id) := by
        intro i hi
        rcases List.mem_append.mp hi with hi | hi
        · exact hsub i hi
        · obtain ⟨e, he, hei⟩ := List.mem_map.mp hi
          exact List.mem_map.mpr ⟨e, hne_trash e he, hei⟩
      have inv3 : (rest ++ ne).length + (db.trash.map (·.id)).length
          ≤ fuel + (seen ++ ne.map (·.id)).length := by
        simp only [List.length_append, List.length_cons] at hcount ⊢
        omega
      have inv4 : ∀ e ∈ rest ++ ne, e ∈ result ++ ne := by
        intro e he
        rcases List.mem_append.mp he with he | he
        · exact List.mem_append_left _ (hqr e (by simp [he]))
        · exact List.mem_append_right _ he
      have inv5 : ∀ e ∈ result ++ ne, e ∈ db.trash := by
        intro e he
        rcases List.mem_append.mp he with he | he
        · exact hrt e he
        · exact hne_trash e he
      have inv6 : ∀ e ∈ result ++ ne, e.id ∈ seen ++ ne.map (·.id) := by
        intro e he
        rcases List.mem_append.mp he with he | he
        · exact List.mem_append_left _ (hrs e he)
        · exact List.mem_append_right _ (List.mem_map.mpr ⟨e, he, rfl⟩)
      have inv7 : ∀ i ∈ seen ++ ne.map (·.id), ∃ m ∈ result ++ ne, m.id = i := by
        intro i hi
        rcases List.mem_append.mp hi with hi | hi
        · obtain ⟨m, hm, hmi⟩ := hsr i hi
          exact ⟨m, List.mem_append_left _ hm, hmi⟩
        · obtain ⟨e, he, hei⟩ := List.mem_map.mp hi
          exact ⟨e, List.mem_append_right _ he, hei⟩
      have inv8 : ∀ n ∈ result ++ ne, n.id ∉ (rest ++ ne).map (·.id) →
          ∀ ch ∈ direct_children db n, ch ∈ result ++ ne := by
        intro n hn hnq ch hch
        rcases List.mem_append.mp hn with hn | hn
        · by_cases hcur : n.id = cur.id
          · have hn_eq : n = cur := trash_id_inj db hN (hrt n hn) hcur_trash hcur
            subst hn_eq
            rcases hne_rep ch hch with hs | hs
            · obtain ⟨m, hm, hmi⟩ := hsr ch.id hs
              have : m = ch := trash_id_inj db hN (hrt m hm)
                (direct_children_sub db n ch hch) hmi
              subst this
              exact List.mem_append_left _ hm
            · obtain ⟨m, hm, hmi⟩ := List.mem_map.mp hs
              have : m = ch := trash_id_inj db hN (hne_trash m hm)
                (direct_children_sub db n ch hch) hmi
              subst this
              exact List.mem_append_right _ hm
          · have hold : n.id ∉ (cur :: rest).map (·.id) := by
              simp only [List.map_cons, List.mem_cons]
              rintro (h | h)
              · exact hcur h
              · exact hnq (by rw [List.map_append]; exact List.mem_append_left _ h)
            exact List.mem_append_left _ (hclosed n hn hold ch hch)
        · exfalso
          exact hnq (by
            rw [List.map_append]
            exact List.mem_append_right _ (List.mem_map.mpr ⟨n, hn, rfl⟩))
      obtain ⟨c1, c2, c3, c4⟩ := ih (seen ++ ne.map (·.id)) (rest ++ ne) (result ++ ne)
        inv1 inv2 inv3 inv4 inv5 inv6 inv7 inv8
      rw [hstep]
      refine ⟨c1, ?_, c3, c4⟩
      intro e he
      exact c2 e (List.mem_append_left _ he)

theorem collect_corestore_closure_spec (db : DB)
    (hN : (db.trash.map (·.id)).Nodup) (seed : RecentlyDeletedItem)
    (hseed : seed ∈ db.trash) :
    seed ∈ collect_corestore_closure db seed ∧
    (∀ n ∈ collect_corestore_closure db seed, n ∈ db.trash) ∧
    (∀ n ∈ collect_corestore_closure db seed, ∀ ch ∈ direct_children db n,
      ch ∈ collect_corestore_closure db seed) := by
  have h := corestoreBFS_invariant db hN (db.trash.length + 1) [seed.id] [seed] [seed]
    (List.nodup_singleton _)
    (by intro i hi; simp at hi; subst hi; exact List.mem_map.mpr ⟨seed, hseed, rfl⟩)
    (by simp only [List.length_cons, List.length_nil, List.length_map]; omega)
    (by intro e he; simpa using he)
    (by intro e he; simp at he; subst he; exact hseed)
    (by intro e he; simp at he; subst he; simp)
    (by intro i hi; simp at hi; subst hi; exact ⟨seed, by simp⟩)
    (by intro n hn hq; simp at hn; subst hn; simp at hq)
  obtain ⟨_, h2, h3, h4⟩ := h
  exact ⟨h2 seed (by simp), h3, h4⟩

/-- The de-dup loop's step, named for the proofs below. -/
def dstep (p : List Nat × List RecentlyDeletedItem) (n : RecentlyDeletedItem) :
    List Nat × List RecentlyDeletedItem :=
  if p.1.contains n.id then p else (p.1 ++ [n.id], p.2 ++ [n])

theorem dedupById_eq_dstep (l : List RecentlyDeletedItem) :
    dedupById l = (l.foldl dstep ([], [])).2 := rfl

theorem dedup_fold_mono (l : List RecentlyDeletedItem) :
    ∀ (p : List Nat × List RecentlyDeletedItem),
      (∀ i ∈ p.1, i ∈ (l.foldl dstep p).1) ∧
      (∀ m ∈ p.2, m ∈ (l.foldl dstep p).2) := by
  induction l with
  | nil => intro p; exact ⟨fun i hi => by simpa using hi, fun m hm => by simpa using hm⟩
  | cons x l ihl =>
    intro p
    by_cases hx : p.1.contains x.id = true
    · have hstep : (x :: l).foldl dstep p = l.foldl dstep p := by
        simp only [List.foldl_cons, dstep, hx, if_true]
      rw [hstep]
      exact ihl p
    · have hxb : (p.1.contains x.id) = false := by
        rw [Bool.eq_false_iff]; exact hx
      have hstep : (x :: l).foldl dstep p = l.foldl dstep (p.1 ++ [x.id], p.2 ++ [x]) := by
        simp only [List.foldl_cons, dstep, hxb, Bool.false_eq_true, if_false]
      rw [hstep]
      obtain ⟨m1, m2⟩ := ihl (p.1 ++ [x.id], p.2 ++ [x])
      exact ⟨fun i hi => m1 i (List.mem_append_left _ hi),
             fun m hm => m2 m (List.mem_append_left _ hm)⟩

theorem dedup_fold_spec (l : List RecentlyDeletedItem) :
    ∀ (S : List Nat) (out : List RecentlyDeletedItem),
      (∀ m ∈ out, m.id ∈ S) →
      ((out.map (·.id)).Nodup) →
      (∀ i ∈ S, ∃ m ∈ out, m.id = i) →
      (((l.foldl dstep (S, out)).2.map (·.id)).Nodup) ∧
      (∀ i ∈ (l.foldl dstep (S, out)).1, ∃ m ∈ (l.foldl dstep (S, out)).2, m.id = i) ∧
      (∀ x ∈ l, ∃ m ∈ (l.foldl dstep (S, out)).2, m.id = x.id) ∧
      (∀ m ∈ (l.foldl dstep (S, out)).2, m ∈ out ∨ m ∈ l) := by
  induction l with
  | nil =>
    intro S out h1 h2 h3
    exact ⟨h2, h3, by simp, fun m hm => Or.inl hm⟩
  | cons x l ihl =>
    intro S out h1 h2 h3
    by_cases hx : x.id ∈ S
    · have hxb : S.contains x.id = true := (contains_eq_mem_nat S x.id).mpr hx
      have hstep : (x :: l).foldl dstep (S, out) = l.foldl dstep (S, out) := by
        simp only [List.foldl_cons, dstep, hxb, if_true]
      rw [hstep]
      obtain ⟨c2, c3, c4, c5⟩ := ihl S out h1 h2 h3
      refine ⟨c2, c3, ?_, ?_⟩
      · intro y hy
        rcases List.mem_cons.mp hy with hy | hy
        · subst hy
          exact c3 y.id ((dedup_fold_mono l (S, out)).1 y.id hx)
        · exact c4 y hy
      · intro m hm
        rcases c5 m hm with h | h
        · exact Or.inl h
        · exact Or.inr (by simp [h])
    · have hxb : (S.contains x.id) = false := by
        rw [Bool.eq_false_iff]
        intro hcb
        exact hx ((contains_eq_mem_nat S x.id).mp hcb)
      have hstep : (x :: l).foldl dstep (S, out)
          = l.foldl dstep (S ++ [x.id], out ++ [x]) := by
        simp only [List.foldl_cons, dstep, hxb, Bool.false_eq_true, if_false]
      rw [hstep]
      have h1' : ∀ m ∈ out ++ [x], m.id ∈ S ++ [x.id] := by
        intro m hm
        rcases List.mem_append.mp hm with hm | hm
        · exact List.mem_append_left _ (h1 m hm)
        · simp at hm; subst hm; simp
      have h2' : ((out ++ [x]).map (·.id)).Nodup := by
        rw [List.map_append, List.nodup_append]
        refine ⟨h2, by simp, ?_⟩
        intro a ha hb
        simp at hb
        subst hb
        obtain ⟨m, hm, hmi⟩ := List.mem_map.mp ha
        exact hx (by rw [← hmi]; exact h1 m hm)
      have h3' : ∀ i ∈ S ++ [x.id], ∃ m ∈ out ++ [x], m.id = i := by
        intro i hi
        rcases List.mem_append.mp hi with hi | hi
        · obtain ⟨m, hm, hmi⟩ := h3 i hi
          exact ⟨m, List.mem_append_left _ hm, hmi⟩
        · simp at hi; subst hi; exact ⟨x, by simp⟩
      obtain ⟨c2, c3, c4, c5⟩ := ihl (S ++ [x.id]) (out ++ [x]) h1' h2' h3'
      refine ⟨c2, c3, ?_, ?_⟩
      · intro y hy
        rcases List.mem_cons.mp hy with hy | hy
        · subst hy
          exact c3 y.id ((dedup_fold_mono l (S ++ [y.id], out ++ [y])).1 y.id (by simp))
        · exact c4 y hy
      · intro m hm
        rcases c5 m hm with h | h
        · rcases List.mem_append.mp h with h | h
          · exact Or.inl h
          · simp at h; subst h; exact Or.inr (by simp)
        · exact Or.inr (by simp [h])

theorem dedupById_spec (l : List RecentlyDeletedItem) :
    ((dedupById l).map (·.id)).Nodup ∧
    (∀ x ∈ l, ∃ m ∈ dedupById l, m.id = x.id) ∧
    (∀ m ∈ dedupById l, m ∈ l) := by
  rw [dedupById_eq_dstep]
  obtain ⟨c2, _, c4, c5⟩ := dedup_fold_spec l [] [] (by simp) (by simp) (by simp)
  refine ⟨c2, c4, ?_⟩
  intro m hm
  rcases c5 m hm with h | h
  · simp at h
  · exact h

theorem computeSeeds_sub (db : DB) (req : RestoreRequest) :
    ∀ s ∈ computeSeeds db req, s ∈ db.trash := by
  intro s hs
  rcases List.mem_append.mp hs with hs | hs
  · exact (List.mem_filter.mp hs).1
  · have hg : ∀ (acc : List RecentlyDeletedItem) (l : List (String × String)),
        (∀ x ∈ acc, x ∈ db.trash) →
        ∀ x ∈ l.foldl
          (fun acc tr =>
            let t := tr.1.trim
            let rid := tr.2.trim
            if t == "" || rid == "" then acc
            else
              match db.trash.find? (fun e => e.table_name == t && e.record_id == rid) with
              | some hit => acc ++ [hit]
              | none => acc) acc, x ∈ db.trash := by
      intro acc l
      induction l generalizing acc with
      | nil => intro hacc x hx; exact hacc x hx
      | cons tr rest ihr =>
        intro hacc x hx
        refine ihr _ ?_ x hx
        intro y hy
        by_cases hb : (tr.1.trim == "" || tr.2.trim == "") = true
        · simp only [hb, if_true] at hy
          exact hacc y hy
        · simp only [hb, Bool.false_eq_true, if_false] at hy
          cases hf : db.trash.find?
              (fun e => e.table_name == tr.1.trim && e.record_id == tr.2.trim) with
          | none =>
            rw [hf] at hy
            exact hacc y hy
          | some hit =>
            rw [hf] at hy
            rcases List.mem_append.mp hy with hy | hy
            · exact hacc y hy
            · simp at hy
              subst hy
              exact List.mem_of_find?_eq_some hf
    exact hg [] req.record_ids (by simp) s hs

theorem mem_seedNodes_of_closure (env : Env) (db : DB) (s n : RecentlyDeletedItem)
    (h : n ∈ collect_corestore_closure db s) : n ∈ seedNodes env db s :=
  List.mem_append_left _ (List.mem_append_left _ (List.mem_append_left _ h))

theorem mem_restoreNodes_of_seedNodes (env : Env) (db : DB) (req : RestoreRequest)
    (s x : RecentlyDeletedItem) (hs : s ∈ computeSeeds db req)
    (hx : x ∈ seedNodes env db s) :
    ∃ m ∈ restoreNodes env db req, m.id = x.id := by
  have hfold : (computeSeeds db req).foldl (fun a s => a ++ seedNodes env db s) []
      = ((computeSeeds db req).map (seedNodes env db)).flatten := by
    rw [foldl_app (seedNodes env db)]
    simp
  have hmem : x ∈ (computeSeeds db req).foldl (fun a s => a ++ seedNodes env db s) [] := by
    rw [hfold, List.mem_flatten]
    exact ⟨seedNodes env db s, List.mem_map.mpr ⟨s, hs, rfl⟩, hx⟩
  exact (dedupById_spec _).2.1 x hmem

/-- C2, amended: the downward (co-restore) closure is complete for the
seeds: the seed is in its closure, and for every node reached from a seed
over co-restore edges, every trash entry of a co-restore child type whose
snapshot foreign-key field equals that node's record id is also in the
closure, hence included (by trash id) in the de-duplicated set the restore
operates on.  Parents pulled in only by the upward closure do not get their
own co-restore children collected (see `corestore_counterexample`), so the
guarantee covers exactly the seeds' corestore subtrees.  Trash ids are
assumed unique, as for any primary key. -/
theorem corestore_closure_complete (env : Env) (db : DB) (req : RestoreRequest)
    (hN : (db.trash.map (·.id)).Nodup) :
    ∀ s ∈ computeSeeds db req,
      s ∈ collect_corestore_closure db s ∧
      (∀ n ∈ collect_corestore_closure db s,
        ∀ ch ∈ direct_children db n, ch ∈ collect_corestore_closure db s) ∧
      (∀ n ∈ collect_corestore_closure db s,
        ∃ m ∈ restoreNodes env db req, m.id = n.id) := by
  intro s hs
  have hseed : s ∈ db.trash := computeSeeds_sub db req s hs
  obtain ⟨h1, _, h3⟩ := collect_corestore_closure_spec db hN s hseed
  refine ⟨h1, h3, ?_⟩
  intro n hn
  exact mem_restoreNodes_of_seedNodes env db req s n hs
    (mem_seedNodes_of_closure env db s n hn)

/-- Fixture: VariantCombination seed whose ProductVariant parent (with a
second co-restore child still in trash) is pulled in by the upward closure;
the Product grand-parent is live. -/
def c2C1 : RecentlyDeletedItem :=
  ⟨1, "VariantCombination", "C1",
    [("combo_id", .str "C1"), ("variant_id", .str "V1")],
    "VISIBLE", Option.none, 0, "", "VariantCombination deleted"⟩

def c2V1 : RecentlyDeletedItem :=
  ⟨2, "ProductVariant", "V1",
    [("variant_id", .str "V1"), ("product_id", .str "P1")],
    "VISIBLE", Option.none, 0, "", "ProductVariant deleted"⟩

def c2C2 : RecentlyDeletedItem :=
  ⟨3, "VariantCombination", "C2",
    [("combo_id", .str "C2"), ("variant_id", .str "V1")],
    "VISIBLE", Option.none, 0, "", "VariantCombination deleted"⟩

def c2db : DB :=
  ⟨[⟨"Product", "P1", [("product_id", .str "P1")]⟩], [c2C1, c2V1, c2C2]⟩

/-- C2, counterexample: restoring C1 pulls its ProductVariant parent V1 in
through the upward closure and makes V1 live, while V1's other co-restore
child C2 — a trash entry of a declared co-restore child type whose snapshot
foreign key equals V1's record id — is left in trash.  The claim's
extension to "every restored entity, including parents pulled in by the
upward closure" is therefore false. -/
theorem corestore_counterexample :
    (restore fxEnv c2db ⟨[1], []⟩).1
      = .success ["ProductVariant:V1", "VariantCombination:C1"] 2 [] ∧
    (∃ r ∈ (restore fxEnv c2db ⟨[1], []⟩).2.1.live,
      r.model = "ProductVariant" ∧ r.pk = "V1") ∧
    (rulesFor "ProductVariant").corestore
      = [⟨"VariantCombination", "variant_id", "variant_id"⟩] ∧
    rdGet c2C2.record_data "variant_id" = some (.str "V1") ∧
    c2C2 ∈ (restore fxEnv c2db ⟨[1], []⟩).2.1.trash := by
  decide

theorem corestore_closure_complete_witness :
    c2C1 ∈ collect_corestore_closure c2db c2C1 ∧
    (∃ m ∈ restoreNodes fxEnv c2db ⟨[1], []⟩, m.id = c2C1.id) := by
  have h := corestore_closure_complete fxEnv c2db ⟨[1], []⟩ (by decide) c2C1 (by decide)
  exact ⟨h.1, h.2.2 c2C1 h.1⟩

/-! ## Claim C3: topological restore order -/

/-- Occurrence order in a list of ids: `p` appears strictly before `c`. -/
def idBefore (l : List Nat) (p c : Nat) : Prop :=
  ∃ i j : Nat, i < j ∧ l[i]? = some p ∧ l[j]? = some c

theorem mem_ite_singleton (b : Int) (y z : Nat) :
    (y ∈ (if b == 0 then [z] else [])) ↔ (b = 0 ∧ y = z) := by
  by_cases hb : b = 0 <;> simp [hb]

theorem decChildren_spec :
    ∀ (cs : List Nat) (indeg : Nat → Int),
      (∀ x, (decChildren indeg cs).1 x = indeg x - (cs.count x : Int)) ∧
      (∀ x, x ∈ (decChildren indeg cs).2
        ↔ (1 ≤ indeg x ∧ indeg x ≤ (cs.count x : Int))) ∧
      (decChildren indeg cs).2.Nodup := by
  intro cs
  induction cs with
  | nil =>
    intro indeg
    refine ⟨fun x => by simp [decChildren], fun x => ?_, by simp [decChildren]⟩
    simp only [decChildren, List.not_mem_nil, false_iff, List.count_nil, Nat.cast_zero]
    rintro ⟨h1, h2⟩
    omega
  | cons c cs ih =>
    intro indeg
    obtain ⟨ih1, ih2, ih3⟩ := ih (fun y => if y == c then indeg c - 1 else indeg y)
    have heq : decChildren indeg (c :: cs)
        = ((decChildren (fun y => if y == c then indeg c - 1 else indeg y) cs).1,
           (if (indeg c - 1) == 0 then [c] else [])
             ++ (decChildren (fun y => if y == c then indeg c - 1 else indeg y) cs).2) :=
      rfl
    refine ⟨?_, ?_, ?_⟩
    · intro x
      rw [heq]
      dsimp only
      rw [ih1 x]
      by_cases hx : x = c
      · subst hx
        simp [List.count_cons_self]
        omega
      · have hxc : (x == c) = false := by simp [hx]
        simp [List.count_cons, hxc, hx]
    · intro x
      rw [heq]
      dsimp only
      rw [List.mem_append, mem_ite_singleton, ih2 x]
      by_cases hx : x = c
      · subst hx
        simp only [beq_self_eq_true, if_true, List.count_cons_self, and_true]
        push_cast
        constructor
        · rintro (h | ⟨h1, h2⟩) <;> omega
        · intro ⟨h1, h2⟩
          by_cases hone : indeg x = 1
          · exact Or.inl (by omega)
          · exact Or.inr (by omega)
      · have hxc : (x == c) = false := by simp [hx]
        simp only [hxc, Bool.false_eq_true, if_false, List.count_cons]
        have hcx : (c == x) = false := by simp [Ne.symm hx]
        constructor
        · rintro (⟨h1, h2⟩ | ⟨h1, h2⟩)
          · exact absurd h2 hx
          · refine ⟨h1, ?_⟩
            simp only [hcx, Bool.false_eq_true, if_false, Nat.add_zero]
            exact h2
        · rintro ⟨h1, h2⟩
          simp only [hcx, Bool.false_eq_true, if_false, Nat.add_zero] at h2
          exact Or.inr ⟨h1, h2⟩
    · rw [heq]
      dsimp only
      by_cases hz : (indeg c - 1) = 0
      · have hzb : ((indeg c - 1) == 0) = true := by simpa using hz
        simp only [hzb, if_true, List.singleton_append, List.nodup_cons]
        refine ⟨?_, ih3⟩
        intro hc
        have := (ih2 c).mp hc
        simp at this
        omega
      · have hzb : ((indeg c - 1) == 0) = false := by simpa using hz
        simp only [hzb, Bool.false_eq_true, if_false, List.nil_append]
        exact ih3

/-- Remaining in-degree: incoming edge instances whose source has not been
popped yet (ghost quantity for the Kahn invariant). -/
def remIndeg (edges : List (Nat × Nat)) (done : List Nat) (c : Nat) : Int :=
  ((edges.filter (fun e => decide (e.2 = c ∧ e.1 ∉ done))).length : Int)

theorem remIndeg_nonneg (edges : List (Nat × Nat)) (done : List Nat) (c : Nat) :
    0 ≤ remIndeg edges done c :=
  Int.natCast_nonneg _

theorem indegOf_eq_remIndeg (edges : List (Nat × Nat)) (c : Nat) :
    indegOf edges c = remIndeg edges [] c := by
  unfold indegOf remIndeg
  congr 1
  apply congrArg
  apply List.filter_congr
  intro e _
  by_cases h : e.2 = c <;> simp [h]

theorem remIndeg_zero_iff (edges : List (Nat × Nat)) (done : List Nat) (c : Nat) :
    remIndeg edges done c = 0 ↔ ∀ p, (p, c) ∈ edges → p ∈ done := by
  unfold remIndeg
  rw [show ((((edges.filter (fun e => decide (e.2 = c ∧ e.1 ∉ done))).length : Int) = 0)
      ↔ (edges.filter (fun e => decide (e.2 = c ∧ e.1 ∉ done))).length = 0) from by omega]
  rw [List.length_eq_zero, List.filter_eq_nil_iff]
  constructor
  · intro h p hp
    by_contra hd
    exact h (p, c) hp (by simp [hd])
  · intro h e he
    simp only [decide_eq_true_eq, not_and, not_not]
    intro h2
    exact h e.1 (by rw [← h2]; exact he)

theorem remIndeg_pos_edge (edges : List (Nat × Nat)) (done : List Nat) (c : Nat)
    (h : 0 < remIndeg edges done c) : ∃ p, (p, c) ∈ edges ∧ p ∉ done := by
  unfold remIndeg at h
  have hlen : 0 < (edges.filter (fun e => decide (e.2 = c ∧ e.1 ∉ done))).length := by omega
  obtain ⟨e, he⟩ := List.exists_mem_of_length_pos hlen
  have hef := List.mem_filter.mp he
  have hp := of_decide_eq_true hef.2
  refine ⟨e.1, ?_, hp.2⟩
  rw [show (e.1, c) = e from by rw [← hp.1]]
  exact hef.1

theorem remIndeg_cons (e : Nat × Nat) (es : List (Nat × Nat)) (done : List Nat) (c : Nat) :
    remIndeg (e :: es) done c
      = (if e.2 = c ∧ e.1 ∉ done then 1 else 0) + remIndeg es done c := by
  unfold remIndeg
  rw [List.filter_cons]
  by_cases h : e.2 = c ∧ e.1 ∉ done
  · rw [if_pos (show decide (e.2 = c ∧ e.1 ∉ done) = true from decide_eq_true h)]
    rw [if_pos h, List.length_cons]
    push_cast
    ring
  · rw [if_neg (show ¬(decide (e.2 = c ∧ e.1 ∉ done) = true) from by simp [h])]
    rw [if_neg h]
    ring

theorem adjOf_count_cons (e : Nat × Nat) (es : List (Nat × Nat)) (cur c : Nat) :
    ((adjOf (e :: es) cur).count c : Int)
      = (if e.1 = cur ∧ e.2 = c then 1 else 0) + ((adjOf es cur).count c : Int) := by
  unfold adjOf
  rw [List.filter_cons]
  by_cases h1 : e.1 = cur
  · rw [if_pos (show (e.1 == cur) = true from by simp [h1])]
    rw [List.map_cons, List.count_cons]
    by_cases h2 : e.2 = c
    · simp only [h1, h2, and_self, if_true]
      push_cast
      simp only [beq_self_eq_true, if_true]
      omega
    · have hb2 : ¬(e.1 = cur ∧ e.2 = c) := fun hc => h2 hc.2
      simp only [hb2, if_false]
      push_cast
      rw [show (e.2 == c) = false from by simp [h2]]
      simp
  · rw [if_neg (show ¬((e.1 == cur) = true) from by simp [h1])]
    rw [if_neg (fun hc => h1 hc.1)]
    ring

theorem remIndeg_step (edges : List (Nat × Nat)) (done : List Nat) (cur c : Nat)
    (hcur : cur ∉ done) :
    remIndeg edges (done ++ [cur]) c
      = remIndeg edges done c - ((adjOf edges cur).count c : Int) := by
  induction edges with
  | nil => simp [remIndeg, adjOf]
  | cons e es ihe =>
    have hL : (if e.2 = c ∧ e.1 ∉ done ++ [cur] then (1 : Int) else 0)
        = (if e.2 = c ∧ e.1 ∉ done then (1 : Int) else 0)
          - (if e.1 = cur ∧ e.2 = c then (1 : Int) else 0) := by
      by_cases h2 : e.2 = c
      · by_cases h1 : e.1 = cur
        · by_cases hd : e.1 ∈ done
          · exact absurd (h1 ▸ hd) hcur
          · have hm : e.1 ∈ done ++ [cur] := by simp [h1]
            rw [if_neg (fun hcon => hcon.2 hm), if_pos ⟨h2, hd⟩, if_pos ⟨h1, h2⟩]
            ring
        · by_cases hd : e.1 ∈ done
          · have hm : e.1 ∈ done ++ [cur] := by simp [hd]
            rw [if_neg (fun hcon => hcon.2 hm), if_neg (fun hcon => hcon.2 hd),
              if_neg (fun hcon => h1 hcon.1)]
            ring
          · have hm : e.1 ∉ done ++ [cur] := by
              simp only [List.mem_append, List.mem_singleton]
              rintro (h | h)
              · exact hd h
              · exact h1 h
            rw [if_pos ⟨h2, hm⟩, if_pos ⟨h2, hd⟩, if_neg (fun hcon => h1 hcon.1)]
            ring
      · rw [if_neg (fun hcon => h2 hcon.1), if_neg (fun hcon => h2 hcon.1),
          if_neg (fun hcon => h2 hcon.2)]
        ring
    rw [remIndeg_cons, remIndeg_cons, adjOf_count_cons, ihe, hL]
    ring

theorem buildEdges_endpoints (nodes : List RecentlyDeletedItem) :
    ∀ e ∈ buildEdges nodes, e.1 ∈ nodes.map (·.id) ∧ e.2 ∈ nodes.map (·.id) := by
  have hinner : ∀ (child : RecentlyDeletedItem), child ∈ nodes →
      ∀ (fns : List ParentFn) (acc : List (Nat × Nat)),
      (∀ e ∈ acc, e.1 ∈ nodes.map (·.id) ∧ e.2 ∈ nodes.map (·.id)) →
      ∀ e ∈ fns.foldl
        (fun acc2 fn =>
          match evalParentFn fn child.record_data with
          | none => acc2
          | some (pm, pp, _) =>
            if pm == "" || !truthy pp then acc2
            else
              match (nodes.reverse).find?
                (fun n => n.table_name == pm && n.record_id == pyStr pp) with
              | some parent_node => acc2 ++ [(parent_node.id, child.id)]
              | none => acc2) acc,
        e.1 ∈ nodes.map (·.id) ∧ e.2 ∈ nodes.map (·.id) := by
    intro child hchild fns
    induction fns with
    | nil => intro acc hacc e he; exact hacc e he
    | cons fn rest ihf =>
      intro acc hacc e he
      rw [List.foldl_cons] at he
      cases hev : evalParentFn fn child.record_data with
      | none =>
        simp only [hev] at he
        exact ihf acc hacc e he
      | some tup =>
        obtain ⟨pm, pp, fk⟩ := tup
        simp only [hev] at he
        by_cases hskip : (pm == "" || !truthy pp) = true
        · rw [if_pos hskip] at he
          exact ihf acc hacc e he
        · rw [if_neg hskip] at he
          cases hf : (nodes.reverse).find?
              (fun n => n.table_name == pm && n.record_id == pyStr pp) with
          | none =>
            simp only [hf] at he
            exact ihf acc hacc e he
          | some parent_node =>
            simp only [hf] at he
            refine ihf _ ?_ e he
            intro e2 he2
            rcases List.mem_append.mp he2 with h | h
            · exact hacc e2 h
            · simp at h
              subst h
              have hpn : parent_node ∈ nodes :=
                List.mem_reverse.mp (List.mem_of_find?_eq_some hf)
              exact ⟨List.mem_map.mpr ⟨parent_node, hpn, rfl⟩,
                List.mem_map.mpr ⟨child, hchild, rfl⟩⟩
  have houter : ∀ (l : List RecentlyDeletedItem), (∀ x ∈ l, x ∈ nodes) →
      ∀ (acc : List (Nat × Nat)),
      (∀ e ∈ acc, e.1 ∈ nodes.map (·.id) ∧ e.2 ∈ nodes.map (·.id)) →
      ∀ e ∈ l.foldl
        (fun acc child =>
          (rulesFor child.table_name).parents.foldl
            (fun acc2 fn =>
              match evalParentFn fn child.record_data with
              | none => acc2
              | some (pm, pp, _) =>
                if pm == "" || !truthy pp then acc2
                else
                  match (nodes.reverse).find?
                    (fun n => n.table_name == pm && n.record_id == pyStr pp) with
                  | some parent_node => acc2 ++ [(parent_node.id, child.id)]
                  | none => acc2) acc) acc,
        e.1 ∈ nodes.map (·.id) ∧ e.2 ∈ nodes.map (·.id) := by
    intro l
    induction l with
    | nil => intro _ acc hacc e he; exact hacc e he
    | cons x xs ihl =>
      intro hl acc hacc e he
      rw [List.foldl_cons] at he
      exact ihl (fun y hy => hl y (by simp [hy])) _
        (fun e2 he2 => hinner x (hl x (by simp)) _ acc hacc e2 he2) e he
  intro e he
  exact houter nodes (fun x hx => hx) [] (by simp) e he

theorem idBefore_append (l l2 : List Nat) (p c : Nat) (h : idBefore l p c) :
    idBefore (l ++ l2) p c := by
  obtain ⟨i, j, hij, hi, hj⟩ := h
  have hjlen : j < l.length := (List.getElem?_eq_some.mp hj).1
  have hilen : i < l.length := (List.getElem?_eq_some.mp hi).1
  exact ⟨i, j, hij, by rw [List.getElem?_append_left hilen]; exact hi,
    by rw [List.getElem?_append_left hjlen]; exact hj⟩

theorem idBefore_concat (l : List Nat) (p c : Nat) (hp : p ∈ l) :
    idBefore (l ++ [c]) p c := by
  obtain ⟨i, hi⟩ := List.mem_iff_getElem?.mp hp
  have hilen : i < l.length := (List.getElem?_eq_some.mp hi).1
  exact ⟨i, l.length, hilen,
    by rw [List.getElem?_append_left hilen]; exact hi,
    List.getElem?_concat_length l c⟩

theorem kahnLoop_invariant (edges : List (Nat × Nat)) (ids : List Nat)
    (hedge : ∀ e ∈ edges, e.1 ∈ ids ∧ e.2 ∈ ids) :
    ∀ (fuel : Nat) (q ordered : List Nat) (indeg : Nat → Int),
      (∀ c, indeg c = remIndeg edges ordered c) →
      (ordered ++ q).Nodup →
      (∀ x ∈ ordered ++ q, x ∈ ids) →
      (∀ p c, (p, c) ∈ edges → c ∈ ordered ++ q → p ∈ ordered) →
      (∀ p c, (p, c) ∈ edges → c ∈ ordered → idBefore ordered p c) →
      ids.length + 1 ≤ fuel + ordered.length →
      (kahnLoop (adjOf edges) fuel indeg q ordered).Nodup ∧
      (∀ x ∈ kahnLoop (adjOf edges) fuel indeg q ordered, x ∈ ids) ∧
      (∀ p c, (p, c) ∈ edges → c ∈ kahnLoop (adjOf edges) fuel indeg q ordered →
        idBefore (kahnLoop (adjOf edges) fuel indeg q ordered) p c) := by
  intro fuel
  induction fuel with
  | zero =>
    intro q ordered indeg h1 h2 h3 h4 h5 h6
    exfalso
    have hordnd : ordered.Nodup := (List.nodup_append.mp h2).1
    have hordsub : ordered ⊆ ids := fun x hx => h3 x (List.mem_append_left _ hx)
    have := (List.subperm_of_subset hordnd hordsub).length_le
    omega
  | succ fuel ih =>
    intro q ordered indeg h1 h2 h3 h4 h5 h6
    cases q with
    | nil =>
      have hres : kahnLoop (adjOf edges) (fuel + 1) indeg [] ordered = ordered := by
        simp [kahnLoop]
      rw [hres]
      refine ⟨by simpa using h2, fun x hx => h3 x (by simp [hx]), fun p c hpc hc => h5 p c hpc hc⟩
    | cons cur rest =>
      obtain ⟨d1, d2, d3⟩ := decChildren_spec (adjOf edges cur) indeg
      have hres : kahnLoop (adjOf edges) (fuel + 1) indeg (cur :: rest) ordered
          = kahnLoop (adjOf edges) fuel (decChildren indeg (adjOf edges cur)).1
              (rest ++ (decChildren indeg (adjOf edges cur)).2) (ordered ++ [cur]) := rfl
      rw [hres]
      have hcur_not_ord : cur ∉ ordered := by
        have := List.nodup_append.mp h2
        exact fun hx => this.2.2 hx (by simp)
      have hcur_not_rest : cur ∉ rest := by
        have := (List.nodup_append.mp h2).2.1
        exact (List.nodup_cons.mp this).1
      -- a node entering the new queue still had remaining in-degree
      have hr2_pos : ∀ x ∈ (decChildren indeg (adjOf edges cur)).2,
          0 < remIndeg edges ordered x := by
        intro x hx
        have := (d2 x).mp hx
        rw [h1 x] at this
        omega
      have hr2_not_old : ∀ x ∈ (decChildren indeg (adjOf edges cur)).2,
          x ∉ ordered ++ cur :: rest := by
        intro x hx hmem
        obtain ⟨p, hpe, hpnord⟩ := remIndeg_pos_edge edges ordered x (hr2_pos x hx)
        exact hpnord (h4 p x hpe hmem)
      -- the new in-degree function counts sources outside ordered ++ [cur]
      have h1' : ∀ c, (decChildren indeg (adjOf edges cur)).1 c
          = remIndeg edges (ordered ++ [cur]) c := by
        intro c
        rw [d1 c, h1 c, remIndeg_step edges ordered cur c hcur_not_ord]
      -- a newly enqueued node has all its edge sources inside ordered ++ [cur]
      have hr2_zero : ∀ x ∈ (decChildren indeg (adjOf edges cur)).2,
          remIndeg edges (ordered ++ [cur]) x = 0 := by
        intro x hx
        have hmem := (d2 x).mp hx
        rw [h1 x] at hmem
        have hstep := remIndeg_step edges ordered cur x hcur_not_ord
        have hnn := remIndeg_nonneg edges (ordered ++ [cur]) x
        omega
      have h2' : ((ordered ++ [cur]) ++ (rest ++ (decChildren indeg (adjOf edges cur)).2)).Nodup := by
        obtain ⟨hordnd, hcrnd, hdisj⟩ := List.nodup_append.mp h2
        obtain ⟨hcnr, hrestnd⟩ := List.nodup_cons.mp hcrnd
        rw [List.nodup_append]
        refine ⟨?_, ?_, ?_⟩
        · rw [List.nodup_append]
          refine ⟨hordnd, List.nodup_singleton _, ?_⟩
          intro a ha hb
          simp at hb
          subst hb
          exact hcur_not_ord ha
        · rw [List.nodup_append]
          refine ⟨hrestnd, d3, ?_⟩
          intro a ha hb
          exact hr2_not_old a hb (by simp [ha])
        · intro a ha hb
          rcases List.mem_append.mp ha with ha | ha
          · rcases List.mem_append.mp hb with hb | hb
            · exact hdisj ha (by simp [hb])
            · exact hr2_not_old a hb (List.mem_append_left _ ha)
          · simp at ha
            subst ha
            rcases List.mem_append.mp hb with hb | hb
            · exact hcur_not_rest hb
            · exact hr2_not_old a hb (by simp)
      have h3' : ∀ x ∈ (ordered ++ [cur]) ++ (rest ++ (decChildren indeg (adjOf edges cur)).2),
          x ∈ ids := by
        intro x hx
        rcases List.mem_append.mp hx with hx | hx
        · rcases List.mem_append.mp hx with hx | hx
          · exact h3 x (List.mem_append_left _ hx)
          · simp at hx; subst hx; exact h3 x (by simp)
        · rcases List.mem_append.mp hx with hx | hx
          · exact h3 x (by simp [hx])
          · obtain ⟨p, hpe, _⟩ := remIndeg_pos_edge edges ordered x (hr2_pos x hx)
            exact (hedge (p, x) hpe).2
      have h4' : ∀ p c, (p, c) ∈ edges →
          c ∈ (ordered ++ [cur]) ++ (rest ++ (decChildren indeg (adjOf edges cur)).2) →
          p ∈ ordered ++ [cur] := by
        intro p c hpc hc
        rcases List.mem_append.mp hc with hc | hc
        · rcases List.mem_append.mp hc with hc | hc
          · exact List.mem_append_left _ (h4 p c hpc (List.mem_append_left _ hc))
          · simp at hc; subst hc
            exact List.mem_append_left _ (h4 p c hpc (by simp))
        · rcases List.mem_append.mp hc with hc | hc
          · exact List.mem_append_left _ (h4 p c hpc (by simp [hc]))
          · exact (remIndeg_zero_iff edges (ordered ++ [cur]) c).mp (hr2_zero c hc) p hpc
      have h5' : ∀ p c, (p, c) ∈ edges → c ∈ ordered ++ [cur] →
          idBefore (ordered ++ [cur]) p c := by
        intro p c hpc hc
        rcases List.mem_append.mp hc with hc | hc
        · exact idBefore_append ordered [cur] p c (h5 p c hpc hc)
        · simp at hc; subst hc
          exact idBefore_concat ordered p c (h4 p c hpc (by simp))
      have h6' : ids.length + 1 ≤ fuel + (ordered ++ [cur]).length := by
        simp only [List.length_append, List.length_singleton]
        omega
      exact ih (rest ++ (decChildren indeg (adjOf edges cur)).2) (ordered ++ [cur])
        (decChildren indeg (adjOf edges cur)).1 h1' h2' h3' h4' h5' h6'

theorem kahnIds_spec (nodes : List RecentlyDeletedItem)
    (hnd : (nodes.map (·.id)).Nodup) :
    (kahnIds nodes).Nodup ∧
    (∀ x ∈ kahnIds nodes, x ∈ nodes.map (·.id)) ∧
    (∀ p c, (p, c) ∈ buildEdges nodes → c ∈ kahnIds nodes →
      idBefore (kahnIds nodes) p c) := by
  have hq0 : kahnIds nodes
      = kahnLoop (adjOf (buildEdges nodes)) (nodes.length + 1) (indegOf (buildEdges nodes))
          ((nodes.map (·.id)).filter (fun i => indegOf (buildEdges nodes) i == 0)) [] := rfl
  have h := kahnLoop_invariant (buildEdges nodes) (nodes.map (·.id))
    (buildEdges_endpoints nodes) (nodes.length + 1)
    ((nodes.map (·.id)).filter (fun i => indegOf (buildEdges nodes) i == 0)) []
    (indegOf (buildEdges nodes))
    (fun c => indegOf_eq_remIndeg (buildEdges nodes) c)
    (by simpa using List.Nodup.filter _ hnd)
    (by
      intro x hx
      simp only [List.nil_append] at hx
      exact (List.mem_filter.mp hx).1)
    (by
      intro p c hpc hc
      simp only [List.nil_append] at hc
      have hz : indegOf (buildEdges nodes) c = 0 := by
        have := (List.mem_filter.mp hc).2
        simpa using this
      rw [indegOf_eq_remIndeg] at hz
      exact (remIndeg_zero_iff (buildEdges nodes) [] c).mp hz p hpc)
    (by intro p c _ hc; simp at hc)
    (by simp)
  rw [hq0]
  exact h

theorem filterMap_find_map_id (nodes : List RecentlyDeletedItem) :
    ∀ (l : List Nat), (∀ i ∈ l, i ∈ nodes.map (·.id)) →
      ((l.filterMap (fun i => (nodes.reverse).find? (fun n => n.id == i))).map (·.id)) = l := by
  intro l
  induction l with
  | nil => intro _; simp
  | cons i rest ihl =>
    intro hl
    have hex : ∃ n ∈ nodes.reverse, (n.id == i) = true := by
      obtain ⟨n, hn, hni⟩ := List.mem_map.mp (hl i (by simp))
      exact ⟨n, List.mem_reverse.mpr hn, by simp [hni]⟩
    have hsome : ((nodes.reverse).find? (fun n => n.id == i)).isSome = true :=
      List.find?_isSome.mpr hex
    obtain ⟨n, hn⟩ := Option.isSome_iff_exists.mp hsome
    have hni : n.id = i := by
      have := List.find?_some hn
      simpa using this
    rw [List.filterMap_cons, hn, List.map_cons, hni, ihl (fun j hj => hl j (by simp [hj]))]

theorem pass1_trace (env : Env) :
    ∀ (nodes : List RecentlyDeletedItem) (live : List LiveRow)
      (pending : List (String × String)) (tr : List UpsertEvent)
      (out : List LiveRow × List (String × String) × List UpsertEvent),
      pass1 env nodes live pending tr = .ok out →
      out.2.2 = tr ++ nodes.map (eventOf env) := by
  intro nodes
  induction nodes with
  | nil =>
    intro live pending tr out h
    simp only [pass1] at h
    cases h
    simp
  | cons n rest ihn =>
    intro live pending tr out h
    cases hM : model_lookup env n.table_name with
    | none => simp [pass1, hM] at h
    | some M =>
      cases hU : env.upsertFails n.table_name (rdGetD (strippedPayload n) M.pk_name)
          (recreateData M (strippedPayload n)) with
      | some msg => simp [pass1, hM, hU] at h
      | none =>
        simp only [pass1, hM, hU] at h
        have := ihn _ _ _ _ h
        rw [this]
        have hev : eventOf env n
            = ⟨n.table_name, rdGetD (strippedPayload n) M.pk_name,
               recreateData M (strippedPayload n)⟩ := by
          simp [eventOf, hM]
        simp [hev]

theorem restore_success_trace (env : Env) (db : DB) (req : RestoreRequest) :
    ∀ r c mu db2 trace, restore env db req = (.success r c mu, db2, trace) →
      trace = (computeOrder (restoreNodes env db req)).map (eventOf env) := by
  intro r c mu db2 trace hrun
  rcases restore_branch env db req with h | ⟨b, h⟩ | ⟨d, h⟩ | h
  · rw [hrun] at h; cases h
  · rw [hrun] at h; cases h
  · rw [hrun] at h; cases h
  · rw [h] at hrun
    set ordered := computeOrder (restoreNodes env db req) with hord
    cases hp1 : pass1 env ordered db.live [] [] with
    | error e =>
      obtain ⟨n, _, hcase⟩ := pass1_error env ordered db.live [] [] e hp1
      rw [show runPasses env db ordered = (e, db, []) from by simp [runPasses, hp1]] at hrun
      have he : e = .success r c mu := congrArg Prod.fst hrun
      rcases hcase with ⟨_, hsh⟩ | ⟨M, msg, _, _, hsh⟩ <;> rw [hsh] at he <;> cases he
    | ok tup =>
      obtain ⟨live1, pending, tr1⟩ := tup
      cases hp2 : pass2 env pending live1 with
      | error e =>
        obtain ⟨a, p, msg, hsh, _⟩ := pass2_error env pending live1 e hp2
        rw [show runPasses env db ordered = (e, db, []) from by
          simp [runPasses, hp1, hp2]] at hrun
        have he : e = .success r c mu := congrArg Prod.fst hrun
        rw [hsh] at he
        cases he
      | ok live2 =>
        have hrun2 : runPasses env db ordered
            = (.success (ordered.map (fun n => n.table_name ++ ":" ++ n.record_id))
                ordered.length (mutedFor ordered),
               ⟨live2, ordered.reverse.foldl (fun t n => deleteEntry t n.id) db.trash⟩,
               tr1) := by
          simp [runPasses, hp1, hp2]
        rw [hrun2] at hrun
        have htr : tr1 = trace := by
          have := congrArg (fun x => x.2.2) hrun
          simpa using this
        rw [← htr]
        have := pass1_trace env ordered db.live [] [] (live1, pending, tr1) hp1
        simpa using this

theorem restoreNodes_nodup (env : Env) (db : DB) (req : RestoreRequest) :
    ((restoreNodes env db req).map (·.id)).Nodup := by
  rw [restoreNodes]
  exact (dedupById_spec _).1

/-- C3: a successful restore's pass-1 trace is exactly the `computeOrder`
order's upsert events; when Kahn's in-degree algorithm orders every node
(`kahnComplete`), the order's ids are Kahn's output, the order is a
permutation of the closure, and every parent-to-child dependency edge of
the closure has the parent strictly before the child; when the ordered
count falls short of the node count, the engine falls back to the stable
ascending sort by the entity type's declared parent-rule count (a
permutation of the closure, pairwise weight-sorted) instead of failing. -/
theorem restore_topological_order (env : Env) (db : DB) (req : RestoreRequest) :
    (∀ r c mu db2 trace, restore env db req = (.success r c mu, db2, trace) →
      trace = (computeOrder (restoreNodes env db req)).map (eventOf env)) ∧
    (kahnComplete (restoreNodes env db req) = true →
      ((computeOrder (restoreNodes env db req)).map (·.id)
          = kahnIds (restoreNodes env db req) ∧
        (computeOrder (restoreNodes env db req)).Perm (restoreNodes env db req) ∧
        ∀ pc ∈ buildEdges (restoreNodes env db req),
          idBefore ((computeOrder (restoreNodes env db req)).map (·.id))
            pc.1 pc.2)) ∧
    (kahnComplete (restoreNodes env db req) = false →
      (computeOrder (restoreNodes env db req)
          = (restoreNodes env db req).mergeSort
              (fun a b => ruleWeight a ≤ ruleWeight b) ∧
        (computeOrder (restoreNodes env db req)).Pairwise
          (fun a b => ruleWeight a ≤ ruleWeight b) ∧
        (computeOrder (restoreNodes env db req)).Perm
          (restoreNodes env db req))) := by
  set nodes := restoreNodes env db req with hn
  have hnd : (nodes.map (·.id)).Nodup := restoreNodes_nodup env db req
  obtain ⟨hk1, hk2, hk3⟩ := kahnIds_spec nodes hnd
  refine ⟨restore_success_trace env db req, ?_, ?_⟩
  · intro hcomp
    have hlen : (kahnIds nodes).length = nodes.length := by
      have := hcomp
      simp only [kahnComplete, beq_iff_eq] at this
      exact this
    have hco : computeOrder nodes
        = (kahnIds nodes).filterMap
            (fun i => (nodes.reverse).find? (fun n => n.id == i)) := by
      simp [computeOrder, hcomp]
    have hmap : (computeOrder nodes).map (·.id) = kahnIds nodes := by
      rw [hco]; exact filterMap_find_map_id nodes (kahnIds nodes) hk2
    have hperm_ids : (kahnIds nodes).Perm (nodes.map (·.id)) := by
      refine List.Subperm.perm_of_length_le (List.subperm_of_subset hk1 hk2) ?_
      simp [hlen]
    have hsub : ∀ x ∈ computeOrder nodes, x ∈ nodes := by
      intro x hx
      rw [hco] at hx
      obtain ⟨i, _, hfind⟩ := List.mem_filterMap.mp hx
      exact List.mem_reverse.mp (List.mem_of_find?_eq_some hfind)
    have hond : (computeOrder nodes).Nodup := by
      refine List.Nodup.of_map (·.id) ?_
      rw [hmap]; exact hk1
    have hperm : (computeOrder nodes).Perm nodes := by
      refine List.Subperm.perm_of_length_le
        (List.subperm_of_subset hond hsub) ?_
      have h1 : (computeOrder nodes).length = (kahnIds nodes).length := by
        rw [← hmap, List.length_map]
      omega
    refine ⟨hmap, hperm, ?_⟩
    intro pc hpc
    have hc2 : pc.2 ∈ kahnIds nodes :=
      hperm_ids.mem_iff.mpr (buildEdges_endpoints nodes pc hpc).2
    rw [hmap]
    exact hk3 pc.1 pc.2 hpc hc2
  · intro hcomp
    have hco : computeOrder nodes
        = nodes.mergeSort (fun a b => ruleWeight a ≤ ruleWeight b) := by
      simp [computeOrder, hcomp]
    refine ⟨hco, ?_, ?_⟩
    · rw [hco]
      have hs := @List.sorted_mergeSort RecentlyDeletedItem
        (fun a b : RecentlyDeletedItem => decide (ruleWeight a ≤ ruleWeight b))
        (by intro a b c hab hbc
            simp only [decide_eq_true_eq] at hab hbc ⊢
            omega)
        (by intro a b
            simp only [Bool.or_eq_true, decide_eq_true_eq]
            omega)
        nodes
      exact hs.imp (by intro a b h; simpa using h)
    · rw [hco]
      exact List.mergeSort_perm nodes _

theorem restore_topological_order_witness :
    (restore fxEnv c2db ⟨[1], []⟩).2.2
      = (computeOrder (restoreNodes fxEnv c2db ⟨[1], []⟩)).map (eventOf fxEnv) ∧
    idBefore
      ((computeOrder (restoreNodes fxEnv c2db ⟨[1], []⟩)).map (·.id)) 2 1 := by
  have h := restore_topological_order fxEnv c2db ⟨[1], []⟩
  constructor
  · have hfst : (restore fxEnv c2db ⟨[1], []⟩).1
        = .success ["ProductVariant:V1", "VariantCombination:C1"] 2 [] := by decide
    have heq : restore fxEnv c2db ⟨[1], []⟩
        = ((restore fxEnv c2db ⟨[1], []⟩).1,
           (restore fxEnv c2db ⟨[1], []⟩).2.1,
           (restore fxEnv c2db ⟨[1], []⟩).2.2) := rfl
    rw [hfst] at heq
    exact h.1 _ _ _ _ _ heq
  · have h2 := h.2.1 (by decide)
    exact h2.2.2 (2, 1) (by decide)

/-! ## Claim C6: two-phase Attribute self-reference restore -/

theorem rdGet_map_overwrite (l : RD) (k0 k : String) (v : JValue) (h : k0 ≠ k) :
    rdGet (l.map (fun p => if p.1 == k0 then (k0, v) else p)) k = rdGet l k := by
  have hpred : ((fun q : String × JValue => q.1 == k)
        ∘ (fun p : String × JValue => if p.1 == k0 then (k0, v) else p))
      = (fun p : String × JValue => p.1 == k) := by
    funext p
    by_cases hp : p.1 = k0 <;> simp [Function.comp, hp, h]
  cases hf : l.find? (fun p => p.1 == k) with
  | none =>
    simp only [rdGet, List.find?_map, hpred, hf]
    rfl
  | some q =>
    have hqk : q.1 = k := by
      have := List.find?_some hf
      simpa using this
    have hne : (q.1 == k0) = false := by
      simp only [beq_eq_false_iff_ne, ne_eq, hqk]
      exact fun hc => h hc.symm
    have hqne : ¬ q.1 = k0 := by simpa using hne
    simp only [rdGet, List.find?_map, hpred, hf]
    simp [hqne]

theorem rdGet_map_set_self (l : RD) (k : String) (v : JValue)
    (h : rdHas l k = true) :
    rdGet (l.map (fun p => if p.1 == k then (k, v) else p)) k = some v := by
  have hpred : ((fun q : String × JValue => q.1 == k)
        ∘ (fun p : String × JValue => if p.1 == k then (k, v) else p))
      = (fun p : String × JValue => p.1 == k) := by
    funext p
    by_cases hp : p.1 = k <;> simp [Function.comp, hp]
  cases hf : l.find? (fun p => p.1 == k) with
  | none =>
    rw [show rdHas l k = ((l.find? (fun p => p.1 == k)).map (·.2)).isSome
      from rfl, hf] at h
    cases h
  | some q =>
    have hqk : q.1 = k := by
      have := List.find?_some hf
      simpa using this
    simp only [rdGet, List.find?_map, hpred, hf]
    simp [hqk]

theorem rdGet_rdSet_self (rd : RD) (k : String) (v : JValue) :
    rdGet (rdSet rd k v) k = some v := by
  unfold rdSet
  by_cases h : rdHas rd k = true
  · rw [if_pos h]
    exact rdGet_map_set_self rd k v h
  · rw [if_neg h]
    have hfind : rd.find? (fun p => p.1 == k) = Option.none := by
      cases hf : rd.find? (fun p => p.1 == k) with
      | none => rfl
      | some p => exact absurd (by simp [rdHas, rdGet, hf]) h
    simp [rdGet, List.find?_append, hfind]

theorem rdGet_rdSet_ne (rd : RD) (k0 k : String) (v : JValue) (h : k0 ≠ k) :
    rdGet (rdSet rd k0 v) k = rdGet rd k := by
  unfold rdSet
  by_cases hh : rdHas rd k0 = true
  · rw [if_pos hh]
    exact rdGet_map_overwrite rd k0 k v h
  · rw [if_neg hh]
    have hk : (k0 == k) = false := by simp [h]
    simp [rdGet, List.find?_append, List.find?_cons, hk]

theorem rdGet_rdDrop_self (rd : RD) (k : String) :
    rdGet (rdDrop rd k) k = Option.none := by
  cases hf : (rdDrop rd k).find? (fun p => p.1 == k) with
  | none =>
    simp only [rdGet, hf]
    rfl
  | some q =>
    have h1 : q.1 = k := by
      have := List.find?_some hf
      simpa using this
    have h2 : q ∈ rdDrop rd k := List.mem_of_find?_eq_some hf
    have h3 : (q.1 != k) = true := (List.mem_filter.mp h2).2
    rw [h1] at h3
    simp at h3

theorem rdGet_rdDrop_ne (rd : RD) (bad k : String) (h : k ≠ bad) :
    rdGet (rdDrop rd bad) k = rdGet rd k := by
  unfold rdDrop
  induction rd with
  | nil => rfl
  | cons p ps ih =>
    rw [List.filter_cons]
    by_cases hp : p.1 = bad
    · rw [if_neg (by simp [hp])]
      have hpk : (p.1 == k) = false := by
        simp only [beq_eq_false_iff_ne, ne_eq, hp]
        exact fun hc => h hc.symm
      rw [show rdGet (p :: ps) k = rdGet ps k from by
        simp [rdGet, List.find?_cons, hpk]]
      exact ih
    · rw [if_pos (by simp [hp])]
      simp only [rdGet, List.find?_cons]
      cases hpk : (p.1 == k) with
      | true => rfl
      | false => exact ih

theorem recreateData_none (M : ModelInfo) (payload : RD) (k : String)
    (h : rdGet payload k = Option.none) :
    rdGet (recreateData M payload) k = Option.none := by
  unfold recreateData
  have hgen : ∀ (fs : List FieldInfo) (acc : RD), rdGet acc k = Option.none →
      rdGet (fs.foldl
        (fun acc f =>
          let key := if f.isFK then f.attname else f.name
          match rdGet payload key with
          | some v => rdSet acc key v
          | none => acc)
        acc) k = Option.none := by
    intro fs
    induction fs with
    | nil => intro acc hacc; exact hacc
    | cons f rest ih =>
      intro acc hacc
      rw [List.foldl_cons]
      refine ih _ ?_
      cases hg : rdGet payload (if f.isFK then f.attname else f.name) with
      | none => simpa [hg] using hacc
      | some v =>
        simp only [hg]
        have hne : (if f.isFK then f.attname else f.name) ≠ k := by
          intro hc
          rw [hc, h] at hg
          cases hg
        rw [rdGet_rdSet_ne _ _ _ _ hne]
        exact hacc
  exact hgen M.fields [] (by rfl)

/-- The `pending_attr_parent_links` update of one pass-1 step. -/
def pendStep (p : List (String × String)) (n : RecentlyDeletedItem) :
    List (String × String) :=
  if n.table_name == "Attribute" && truthy (rdGetD n.record_data "parent_id") then
    pendingSet p (pyStr (rdGetD n.record_data "attr_id"))
      (pyStr (rdGetD n.record_data "parent_id"))
  else p

theorem pass1_pending (env : Env) :
    ∀ (nodes : List RecentlyDeletedItem) (live : List LiveRow)
      (pending : List (String × String)) (tr : List UpsertEvent)
      (out : List LiveRow × List (String × String) × List UpsertEvent),
      pass1 env nodes live pending tr = .ok out →
      out.2.1 = nodes.foldl pendStep pending := by
  intro nodes
  induction nodes with
  | nil =>
    intro live pending tr out h
    simp only [pass1] at h
    cases h
    rfl
  | cons n rest ihn =>
    intro live pending tr out h
    cases hM : model_lookup env n.table_name with
    | none => simp [pass1, hM] at h
    | some M =>
      cases hU : env.upsertFails n.table_name (rdGetD (strippedPayload n) M.pk_name)
          (recreateData M (strippedPayload n)) with
      | some msg => simp [pass1, hM, hU] at h
      | none =>
        simp only [pass1, hM, hU] at h
        rw [List.foldl_cons]
        exact ihn _ _ _ _ h

theorem mem_pendingSet (m : List (String × String)) (k0 v0 k v : String)
    (h : (k, v) ∈ pendingSet m k0 v0) :
    (k, v) ∈ m ∨ (k = k0 ∧ v = v0) := by
  unfold pendingSet at h
  by_cases ha : m.any (fun p => p.1 == k0) = true
  · rw [if_pos ha] at h
    obtain ⟨p, hp, hfp⟩ := List.mem_map.mp h
    have hfp2 : (if (p.1 == k0) = true then (k0, v0) else p) = (k, v) := hfp
    by_cases hpk : p.1 = k0
    · rw [if_pos (by simp [hpk])] at hfp2
      right
      exact ⟨congrArg Prod.fst hfp2.symm, congrArg Prod.snd hfp2.symm⟩
    · rw [if_neg (by simp [hpk])] at hfp2
      left
      exact hfp2 ▸ hp
  · rw [if_neg ha] at h
    rcases List.mem_append.mp h with h2 | h2
    · exact Or.inl h2
    · right
      have := List.mem_singleton.mp h2
      exact ⟨congrArg Prod.fst this, congrArg Prod.snd this⟩

theorem pendingSet_mem_key (m : List (String × String)) (k0 v0 : String) :
    ∃ v, (k0, v) ∈ pendingSet m k0 v0 := by
  unfold pendingSet
  by_cases ha : m.any (fun p => p.1 == k0) = true
  · rw [if_pos ha]
    obtain ⟨p, hp, hpk⟩ := List.any_eq_true.mp ha
    refine ⟨v0, ?_⟩
    refine List.mem_map.mpr ⟨p, hp, ?_⟩
    show (if (p.1 == k0) = true then (k0, v0) else p) = (k0, v0)
    rw [if_pos hpk]
  · rw [if_neg ha]
    exact ⟨v0, by simp⟩

theorem pendingSet_mem_keep (m : List (String × String)) (k0 v0 k v : String)
    (h : (k, v) ∈ m) (hk : k ≠ k0) :
    (k, v) ∈ pendingSet m k0 v0 := by
  unfold pendingSet
  by_cases ha : m.any (fun p => p.1 == k0) = true
  · rw [if_pos ha]
    refine List.mem_map.mpr ⟨(k, v), h, ?_⟩
    show (if (((k, v) : String × String).1 == k0) = true then (k0, v0) else (k, v))
      = (k, v)
    rw [if_neg (by simp [hk])]
  · rw [if_neg ha]
    exact List.mem_append.mpr (Or.inl h)

theorem pend_fold_agree (k v : String) :
    ∀ (nodes : List RecentlyDeletedItem) (pending : List (String × String)),
      (∀ v2, (k, v2) ∈ pending → v2 = v) →
      (∀ n ∈ nodes, n.table_name = "Attribute" →
        truthy (rdGetD n.record_data "parent_id") = true →
        pyStr (rdGetD n.record_data "attr_id") = k →
        pyStr (rdGetD n.record_data "parent_id") = v) →
      ∀ v2, (k, v2) ∈ nodes.foldl pendStep pending → v2 = v := by
  intro nodes
  induction nodes with
  | nil =>
    intro pending hp _ v2 h
    exact hp v2 h
  | cons n rest ih =>
    intro pending hp hg v2 h
    rw [List.foldl_cons] at h
    refine ih (pendStep pending n) ?_
      (fun m hm => hg m (List.mem_cons_of_mem _ hm)) v2 h
    intro v3 hv3
    unfold pendStep at hv3
    by_cases hc : (n.table_name == "Attribute"
        && truthy (rdGetD n.record_data "parent_id")) = true
    · rw [if_pos hc] at hv3
      rcases mem_pendingSet _ _ _ _ _ hv3 with hmem | ⟨hk2, hv⟩
      · exact hp v3 hmem
      · have hand := hc
        simp only [Bool.and_eq_true, beq_iff_eq] at hand
        rw [hv]
        exact hg n (List.mem_cons_self n rest) hand.1 hand.2 hk2.symm
    · rw [if_neg hc] at hv3
      exact hp v3 hv3

theorem pend_fold_mem (k : String) :
    ∀ (nodes : List RecentlyDeletedItem) (pending : List (String × String)),
      ((∃ v, (k, v) ∈ pending) ∨
        ∃ n ∈ nodes, n.table_name = "Attribute" ∧
          truthy (rdGetD n.record_data "parent_id") = true ∧
          pyStr (rdGetD n.record_data "attr_id") = k) →
      ∃ v, (k, v) ∈ nodes.foldl pendStep pending := by
  intro nodes
  induction nodes with
  | nil =>
    intro pending h
    rcases h with h | ⟨n, hn, _⟩
    · exact h
    · cases hn
  | cons n rest ih =>
    intro pending h
    rw [List.foldl_cons]
    apply ih
    rcases h with ⟨v, hv⟩ | ⟨m, hm, h1, h2, h3⟩
    · left
      unfold pendStep
      by_cases hc : (n.table_name == "Attribute"
          && truthy (rdGetD n.record_data "parent_id")) = true
      · rw [if_pos hc]
        by_cases hkk : k = pyStr (rdGetD n.record_data "attr_id")
        · rw [← hkk]
          exact pendingSet_mem_key _ _ _
        · exact ⟨v, pendingSet_mem_keep _ _ _ _ _ hv hkk⟩
      · rw [if_neg hc]
        exact ⟨v, hv⟩
    · rcases List.mem_cons.mp hm with rfl | hm2
      · left
        unfold pendStep
        have hc : (m.table_name == "Attribute"
            && truthy (rdGetD m.record_data "parent_id")) = true := by
          simp [h1, h2]
        rw [if_pos hc, ← h3]
        exact pendingSet_mem_key _ _ _
      · right
        exact ⟨m, hm2, h1, h2, h3⟩

theorem applyUpsert_target (live : List LiveRow) (model pk_name : String)
    (pkVal : JValue) (data : RD) :
    ∃ row ∈ applyUpsert live model pk_name pkVal data,
      row.model = model ∧ row.pk = pyStr pkVal := by
  simp only [applyUpsert]
  by_cases ha : (live.any (fun r => r.model == model && r.pk == pyStr pkVal)) = true
  · rw [if_pos ha]
    obtain ⟨r, hr, hcond⟩ := List.any_eq_true.mp ha
    have h2 := hcond
    simp only [Bool.and_eq_true, beq_iff_eq] at h2
    refine ⟨{ r with data := rdUpdate r.data data }, ?_, h2.1, h2.2⟩
    refine List.mem_map.mpr ⟨r, hr, ?_⟩
    show (if (r.model == model && r.pk == pyStr pkVal) = true
      then { r with data := rdUpdate r.data data } else r)
      = { r with data := rdUpdate r.data data }
    rw [if_pos hcond]
  · rw [if_neg ha]
    exact ⟨⟨model, pyStr pkVal, rdUpdate [(pk_name, pkVal)] data⟩, by simp, rfl, rfl⟩

theorem applyUpsert_keep (live : List LiveRow) (model pk_name : String)
    (pkVal : JValue) (data : RD) (r : LiveRow) (hr : r ∈ live) :
    ∃ row ∈ applyUpsert live model pk_name pkVal data,
      row.model = r.model ∧ row.pk = r.pk := by
  simp only [applyUpsert]
  by_cases ha : (live.any (fun r => r.model == model && r.pk == pyStr pkVal)) = true
  · rw [if_pos ha]
    by_cases hc : (r.model == model && r.pk == pyStr pkVal) = true
    · refine ⟨{ r with data := rdUpdate r.data data }, ?_, rfl, rfl⟩
      refine List.mem_map.mpr ⟨r, hr, ?_⟩
      show (if (r.model == model && r.pk == pyStr pkVal) = true
        then { r with data := rdUpdate r.data data } else r)
        = { r with data := rdUpdate r.data data }
      rw [if_pos hc]
    · refine ⟨r, ?_, rfl, rfl⟩
      refine List.mem_map.mpr ⟨r, hr, ?_⟩
      show (if (r.model == model && r.pk == pyStr pkVal) = true
        then { r with data := rdUpdate r.data data } else r) = r
      rw [if_neg hc]
  · rw [if_neg ha]
    exact ⟨r, List.mem_append.mpr (Or.inl hr), rfl, rfl⟩

theorem pass1_row_keep (env : Env) :
    ∀ (nodes : List RecentlyDeletedItem) (live : List LiveRow)
      (pending : List (String × String)) (tr : List UpsertEvent)
      (out : List LiveRow × List (String × String) × List UpsertEvent),
      pass1 env nodes live pending tr = .ok out →
      ∀ r ∈ live, ∃ row ∈ out.1, row.model = r.model ∧ row.pk = r.pk := by
  intro nodes
  induction nodes with
  | nil =>
    intro live pending tr out h r hr
    simp only [pass1] at h
    cases h
    exact ⟨r, hr, rfl, rfl⟩
  | cons n rest ihn =>
    intro live pending tr out h r hr
    cases hM : model_lookup env n.table_name with
    | none => simp [pass1, hM] at h
    | some M =>
      cases hU : env.upsertFails n.table_name (rdGetD (strippedPayload n) M.pk_name)
          (recreateData M (strippedPayload n)) with
      | some msg => simp [pass1, hM, hU] at h
      | none =>
        simp only [pass1, hM, hU] at h
        obtain ⟨r2, hr2, e1, e2⟩ := applyUpsert_keep live n.table_name M.pk_name
          (rdGetD (strippedPayload n) M.pk_name) (recreateData M (strippedPayload n)) r hr
        obtain ⟨row, hrow, e3, e4⟩ := ihn _ _ _ _ h r2 hr2
        exact ⟨row, hrow, by rw [e3, e1], by rw [e4, e2]⟩

theorem pass1_row_create (env : Env) :
    ∀ (nodes : List RecentlyDeletedItem) (live : List LiveRow)
      (pending : List (String × String)) (tr : List UpsertEvent)
      (out : List LiveRow × List (String × String) × List UpsertEvent),
      pass1 env nodes live pending tr = .ok out →
      ∀ n ∈ nodes, ∀ M, model_lookup env n.table_name = some M →
        ∃ row ∈ out.1, row.model = n.table_name ∧
          row.pk = pyStr (rdGetD (strippedPayload n) M.pk_name) := by
  intro nodes
  induction nodes with
  | nil =>
    intro live pending tr out h n hn
    cases hn
  | cons m rest ihn =>
    intro live pending tr out h n hn M hM2
    cases hM : model_lookup env m.table_name with
    | none => simp [pass1, hM] at h
    | some M0 =>
      cases hU : env.upsertFails m.table_name (rdGetD (strippedPayload m) M0.pk_name)
          (recreateData M0 (strippedPayload m)) with
      | some msg => simp [pass1, hM, hU] at h
      | none =>
        simp only [pass1, hM, hU] at h
        rcases List.mem_cons.mp hn with rfl | hn2
        · have hMM : M0 = M := by
            rw [hM] at hM2
            cases hM2
            rfl
          subst hMM
          obtain ⟨r2, hr2, e1, e2⟩ := applyUpsert_target live n.table_name M0.pk_name
            (rdGetD (strippedPayload n) M0.pk_name) (recreateData M0 (strippedPayload n))
          obtain ⟨row, hrow, e3, e4⟩ := pass1_row_keep env rest _ _ _ _ h r2 hr2
          exact ⟨row, hrow, by rw [e3, e1], by rw [e4, e2]⟩
        · exact ihn _ _ _ _ h n hn2 M hM2

theorem pass1_ok_lookup (env : Env) :
    ∀ (nodes : List RecentlyDeletedItem) (live : List LiveRow)
      (pending : List (String × String)) (tr : List UpsertEvent)
      (out : List LiveRow × List (String × String) × List UpsertEvent),
      pass1 env nodes live pending tr = .ok out →
      ∀ n ∈ nodes, ∃ M, model_lookup env n.table_name = some M := by
  intro nodes
  induction nodes with
  | nil =>
    intro live pending tr out h n hn
    cases hn
  | cons m rest ihn =>
    intro live pending tr out h n hn
    cases hM : model_lookup env m.table_name with
    | none => simp [pass1, hM] at h
    | some M0 =>
      cases hU : env.upsertFails m.table_name (rdGetD (strippedPayload m) M0.pk_name)
          (recreateData M0 (strippedPayload m)) with
      | some msg => simp [pass1, hM, hU] at h
      | none =>
        simp only [pass1, hM, hU] at h
        rcases List.mem_cons.mp hn with rfl | hn2
        · exact ⟨M0, hM⟩
        · exact ihn _ _ _ _ h n hn2

theorem pass2_ok_eq (env : Env) :
    ∀ (pending : List (String × String)) (live live2 : List LiveRow),
      pass2 env pending live = .ok live2 →
      live2 = pending.foldl (fun lv p => pass2Update lv p.1 p.2) live := by
  intro pending
  induction pending with
  | nil =>
    intro live live2 h
    simp only [pass2] at h
    cases h
    rfl
  | cons q rest ih =>
    intro live live2 h
    obtain ⟨a, b⟩ := q
    cases hM : model_lookup env "Attribute" with
    | none => simp [pass2, hM] at h
    | some M =>
      cases hU : env.attrUpdateFails a b with
      | some msg => simp [pass2, hM, hU] at h
      | none =>
        simp only [pass2, hM, hU] at h
        rw [List.foldl_cons]
        exact ih _ _ h

theorem pass2_fold_row (k v : String) :
    ∀ (pending : List (String × String)) (live : List LiveRow),
      (∀ p ∈ pending, p.1 = k → p.2 = v) →
      (∃ row ∈ live, row.model = "Attribute" ∧ row.pk = k ∧
        (rdGet row.data "parent_id" = some (.str v) ∨ ∃ p ∈ pending, p.1 = k)) →
      ∃ row ∈ pending.foldl (fun lv p => pass2Update lv p.1 p.2) live,
        row.model = "Attribute" ∧ row.pk = k ∧
        rdGet row.data "parent_id" = some (.str v) := by
  intro pending
  induction pending with
  | nil =>
    intro live _ hrow
    obtain ⟨row, hrowm, h1, h2, h3 | h3⟩ := hrow
    · exact ⟨row, hrowm, h1, h2, h3⟩
    · obtain ⟨p, hp, _⟩ := h3
      cases hp
  | cons q rest ih =>
    intro live hagree hrow
    obtain ⟨a, b⟩ := q
    rw [List.foldl_cons]
    obtain ⟨row, hrowm, h1, h2, h3⟩ := hrow
    refine ih _ (fun p hp h => hagree p (List.mem_cons_of_mem _ hp) h) ?_
    by_cases hak : a = k
    · have hbv : b = v := hagree (a, b) (List.mem_cons_self _ _) hak
      refine ⟨{ row with data := rdSet row.data "parent_id" (.str b) }, ?_, h1, h2, ?_⟩
      · have hcond : (row.model == "Attribute" && row.pk == a) = true := by
          simp [h1, h2, hak]
        refine List.mem_map.mpr ⟨row, hrowm, ?_⟩
        show (if (row.model == "Attribute" && row.pk == a) = true
          then { row with data := rdSet row.data "parent_id" (.str b) } else row)
          = { row with data := rdSet row.data "parent_id" (.str b) }
        rw [if_pos hcond]
      · left
        rw [hbv]
        exact rdGet_rdSet_self _ _ _
    · have hpk : (row.pk == a) = false := by
        simp only [beq_eq_false_iff_ne, ne_eq, h2]
        exact fun hc => hak hc.symm
      have hcond : (row.model == "Attribute" && row.pk == a) = false := by
        simp [hpk]
      refine ⟨row, ?_, h1, h2, ?_⟩
      · refine List.mem_map.mpr ⟨row, hrowm, ?_⟩
        show (if (row.model == "Attribute" && row.pk == a) = true
          then { row with data := rdSet row.data "parent_id" (.str b) } else row)
          = row
        rw [if_neg (by simp [hcond])]
      · rcases h3 with h3 | ⟨p, hp, hpk2⟩
        · exact Or.inl h3
        · right
          rcases List.mem_cons.mp hp with rfl | hp2
          · exact absurd hpk2 hak
          · exact ⟨p, hp2, hpk2⟩

/-- C6, amended: in a successful restore, every node of the self-referencing
`Attribute` type with a truthy snapshot `parent_id` is upserted in pass 1
with the self-reference stripped (its upsert event carries no `parent_id`
key), and — provided every restored `Attribute` snapshot sharing the same
`attr_id` agrees on the parent (the source's `pending_attr_parent_links`
dict keeps one link per `attr_id`, so of duplicate snapshots the last one
wins) — after pass 2 the committed live row carries the snapshot's
`parent_id`.  The environment must register `Attribute` with primary key
`attr_id`, as the repository's model does. -/
theorem attribute_two_phase (env : Env) (db : DB) (req : RestoreRequest)
    (hA : ∀ M, model_lookup env "Attribute" = some M → M.pk_name = "attr_id") :
    ∀ r c mu db2 trace, restore env db req = (.success r c mu, db2, trace) →
    ∀ n ∈ computeOrder (restoreNodes env db req),
      n.table_name = "Attribute" →
      truthy (rdGetD n.record_data "parent_id") = true →
      (eventOf env n ∈ trace ∧
        rdGet (eventOf env n).data "parent_id" = Option.none) ∧
      ((∀ m ∈ computeOrder (restoreNodes env db req),
          m.table_name = "Attribute" →
          truthy (rdGetD m.record_data "parent_id") = true →
          pyStr (rdGetD m.record_data "attr_id")
            = pyStr (rdGetD n.record_data "attr_id") →
          pyStr (rdGetD m.record_data "parent_id")
            = pyStr (rdGetD n.record_data "parent_id")) →
        ∃ row ∈ db2.live, row.model = "Attribute" ∧
          row.pk = pyStr (rdGetD n.record_data "attr_id") ∧
          rdGet row.data "parent_id"
            = some (.str (pyStr (rdGetD n.record_data "parent_id")))) := by
  intro r c mu db2 trace hrun n hn htab htru
  rcases restore_branch env db req with h | ⟨b, h⟩ | ⟨d, h⟩ | h
  · rw [hrun] at h; cases h
  · rw [hrun] at h; cases h
  · rw [hrun] at h; cases h
  rw [h] at hrun
  cases hp1 : pass1 env (computeOrder (restoreNodes env db req)) db.live [] [] with
  | error e =>
    obtain ⟨n2, _, hcase⟩ := pass1_error env _ db.live [] [] e hp1
    rw [show runPasses env db (computeOrder (restoreNodes env db req)) = (e, db, [])
      from by simp [runPasses, hp1]] at hrun
    have he : e = .success r c mu := congrArg Prod.fst hrun
    rcases hcase with ⟨_, hsh⟩ | ⟨M, msg, _, _, hsh⟩ <;> rw [hsh] at he <;> cases he
  | ok tup =>
    obtain ⟨live1, pending, tr1⟩ := tup
    cases hp2 : pass2 env pending live1 with
    | error e =>
      obtain ⟨a, p, msg, hsh, _⟩ := pass2_error env pending live1 e hp2
      rw [show runPasses env db (computeOrder (restoreNodes env db req)) = (e, db, [])
        from by simp [runPasses, hp1, hp2]] at hrun
      have he : e = .success r c mu := congrArg Prod.fst hrun
      rw [hsh] at he
      cases he
    | ok live2 =>
      have hrun2 : runPasses env db (computeOrder (restoreNodes env db req))
          = (.success ((computeOrder (restoreNodes env db req)).map
                (fun n => n.table_name ++ ":" ++ n.record_id))
              (computeOrder (restoreNodes env db req)).length
              (mutedFor (computeOrder (restoreNodes env db req))),
             ⟨live2, (computeOrder (restoreNodes env db req)).reverse.foldl
                (fun t n => deleteEntry t n.id) db.trash⟩,
             tr1) := by
        simp [runPasses, hp1, hp2]
      rw [hrun2] at hrun
      have hdb2 : db2.live = live2 := by
        have := congrArg (fun x => x.2.1.live) hrun
        simpa using this.symm
      have htr : trace = tr1 := by
        have := congrArg (fun x => x.2.2) hrun
        simpa using this.symm
      have htrace : trace = (computeOrder (restoreNodes env db req)).map (eventOf env) := by
        rw [htr]
        have := pass1_trace env _ db.live [] [] (live1, pending, tr1) hp1
        simpa using this
      obtain ⟨M, hM⟩ := pass1_ok_lookup env _ db.live [] [] _ hp1 n hn
      have hsp : strippedPayload n = rdDrop n.record_data "parent_id" := by
        unfold strippedPayload
        rw [if_pos (by simp [htab, htru])]
      have hev : (eventOf env n).data = recreateData M (strippedPayload n) := by
        simp [eventOf, hM]
      refine ⟨⟨?_, ?_⟩, ?_⟩
      · rw [htrace]
        exact List.mem_map_of_mem _ hn
      · rw [hev]
        refine recreateData_none M (strippedPayload n) "parent_id" ?_
        rw [hsp]
        exact rdGet_rdDrop_self _ _
      · intro hagree
        have hpend : pending = (computeOrder (restoreNodes env db req)).foldl pendStep [] := by
          have := pass1_pending env _ db.live [] [] (live1, pending, tr1) hp1
          simpa using this
        have hag : ∀ v2, (pyStr (rdGetD n.record_data "attr_id"), v2) ∈ pending →
            v2 = pyStr (rdGetD n.record_data "parent_id") := by
          rw [hpend]
          refine pend_fold_agree _ _ _ [] (by intro v2 hv; cases hv) ?_
          intro m hm h1 h2 h3
          exact hagree m hm h1 h2 h3
        have hmem : ∃ v2, (pyStr (rdGetD n.record_data "attr_id"), v2) ∈ pending := by
          rw [hpend]
          exact pend_fold_mem _ _ [] (Or.inr ⟨n, hn, htab, htru, rfl⟩)
        have hpk : M.pk_name = "attr_id" := hA M (htab ▸ hM)
        obtain ⟨row, hrow, e1, e2⟩ := pass1_row_create env _ db.live [] [] _ hp1 n hn M hM
        have hpkk : pyStr (rdGetD (strippedPayload n) M.pk_name)
            = pyStr (rdGetD n.record_data "attr_id") := by
          rw [hpk, hsp]
          simp only [rdGetD]
          rw [rdGet_rdDrop_ne n.record_data "parent_id" "attr_id" (by decide)]
        have hlive2 : live2 = pending.foldl (fun lv p => pass2Update lv p.1 p.2) live1 :=
          pass2_ok_eq env pending live1 live2 hp2
        obtain ⟨v2, hv2⟩ := hmem
        obtain ⟨row2, hrow2m, f1, f2, f3⟩ := pass2_fold_row
          (pyStr (rdGetD n.record_data "attr_id"))
          (pyStr (rdGetD n.record_data "parent_id")) pending live1
          (fun p hp hpk1 => hag p.2 (by rw [← hpk1]; simpa using hp))
          ⟨row, hrow, by rw [e1, htab], by rw [e2, hpkk],
            Or.inr ⟨(pyStr (rdGetD n.record_data "attr_id"), v2), hv2, rfl⟩⟩
        refine ⟨row2, ?_, f1, f2, f3⟩
        rw [hdb2, hlive2]
        exact hrow2m

/-- Fixture: a Product seed and two trash snapshots of the same Attribute
`A1` (deleted twice over time), whose `parent_id` links disagree. -/
def c6P1 : RecentlyDeletedItem :=
  ⟨1, "Product", "P1", [("product_id", .str "P1"), ("title", .str "P")],
    "VISIBLE", Option.none, 0, "", "Product deleted"⟩

def c6a1 : RecentlyDeletedItem :=
  ⟨2, "Attribute", "A1",
    [("attr_id", .str "A1"), ("product_id", .str "P1"),
     ("parent_id", .str "A9"), ("name", .str "first")],
    "VISIBLE", Option.none, 0, "", "Attribute deleted"⟩

def c6a1b : RecentlyDeletedItem :=
  ⟨3, "Attribute", "A1",
    [("attr_id", .str "A1"), ("product_id", .str "P1"),
     ("parent_id", .str "B9"), ("name", .str "second")],
    "VISIBLE", Option.none, 0, "", "Attribute deleted"⟩

def c6db : DB :=
  ⟨[⟨"Attribute", "A9", [("attr_id", .str "A9")]⟩,
    ⟨"Attribute", "B9", [("attr_id", .str "B9")]⟩],
   [c6P1, c6a1, c6a1b]⟩

/-- C6, counterexample: restoring Product `P1` pulls both trash snapshots of
Attribute `A1`; the `pending_attr_parent_links` dict is keyed by `attr_id`,
so the second snapshot's link overwrites the first and the committed row's
`parent_id` is `B9` — not the first restored snapshot's `A9` as the claim
demands for every restored entity. -/
theorem attribute_two_phase_counterexample :
    (restore fxEnv c6db ⟨[1], []⟩).1
      = .success ["Product:P1", "Attribute:A1", "Attribute:A1"] 3 [] ∧
    c6a1 ∈ computeOrder (restoreNodes fxEnv c6db ⟨[1], []⟩) ∧
    c6a1.table_name = "Attribute" ∧
    truthy (rdGetD c6a1.record_data "parent_id") = true ∧
    pyStr (rdGetD c6a1.record_data "parent_id") = "A9" ∧
    (∃ row ∈ (restore fxEnv c6db ⟨[1], []⟩).2.1.live,
      row.model = "Attribute" ∧ row.pk = pyStr (rdGetD c6a1.record_data "attr_id")) ∧
    (∀ row ∈ (restore fxEnv c6db ⟨[1], []⟩).2.1.live,
      row.model = "Attribute" → row.pk = pyStr (rdGetD c6a1.record_data "attr_id") →
      rdGet row.data "parent_id" = some (.str "B9")) := by
  decide

/-- Fixture: the single-snapshot variant of the same scenario. -/
def c6wdb : DB :=
  ⟨[⟨"Attribute", "A9", [("attr_id", .str "A9")]⟩], [c6P1, c6a1]⟩

theorem attribute_two_phase_witness :
    (eventOf fxEnv c6a1 ∈ (restore fxEnv c6wdb ⟨[1], []⟩).2.2 ∧
      rdGet (eventOf fxEnv c6a1).data "parent_id" = Option.none) ∧
    ∃ row ∈ (restore fxEnv c6wdb ⟨[1], []⟩).2.1.live,
      row.model = "Attribute" ∧
      row.pk = pyStr (rdGetD c6a1.record_data "attr_id") ∧
      rdGet row.data "parent_id"
        = some (.str (pyStr (rdGetD c6a1.record_data "parent_id"))) := by
  have h := attribute_two_phase fxEnv c6wdb ⟨[1], []⟩
    (by
      intro M hM
      rw [show model_lookup fxEnv "Attribute" = some miAttribute from rfl] at hM
      cases hM
      rfl)
  have hfst : (restore fxEnv c6wdb ⟨[1], []⟩).1
      = .success ["Product:P1", "Attribute:A1"] 2 [] := by decide
  have heq : restore fxEnv c6wdb ⟨[1], []⟩
      = ((restore fxEnv c6wdb ⟨[1], []⟩).1,
         (restore fxEnv c6wdb ⟨[1], []⟩).2.1,
         (restore fxEnv c6wdb ⟨[1], []⟩).2.2) := rfl
  rw [hfst] at heq
  have h2 := h _ _ _ _ _ heq c6a1 (by decide) rfl (by decide)
  exact ⟨h2.1, h2.2 (by decide)⟩

/-! ## Claim C10: restore ignores the trash `status` field -/

/-- Rewrite every trash entry's status (e.g. everything to `PERMANENT`). -/
def setStat (g : RecentlyDeletedItem → String) (e : RecentlyDeletedItem) :
    RecentlyDeletedItem :=
  { e with status := g e }

/-- The same database with every trash entry's status rewritten. -/
def mapStatus (g : RecentlyDeletedItem → String) (db : DB) : DB :=
  ⟨db.live, db.trash.map (setStat g)⟩

theorem foldl_map_acc {α β : Type} (f : α → α) (step stepm : α → β → α)
    (hstep : ∀ acc b, stepm (f acc) b = f (step acc b)) :
    ∀ (bs : List β) (acc : α), bs.foldl stepm (f acc) = f (bs.foldl step acc) := by
  intro bs
  induction bs with
  | nil => intro acc; rfl
  | cons b rest ih =>
    intro acc
    rw [List.foldl_cons, List.foldl_cons, hstep, ih]

theorem ids_map_setStat (g : RecentlyDeletedItem → String)
    (l : List RecentlyDeletedItem) :
    (l.map (setStat g)).map (·.id) = l.map (·.id) := by
  rw [List.map_map]
  rfl

theorem exists_live_status (env : Env) (g : RecentlyDeletedItem → String) (db : DB) :
    exists_live env (mapStatus g db) = exists_live env db := rfl

theorem parents_for_status (env : Env) (g : RecentlyDeletedItem → String)
    (db : DB) (item : RecentlyDeletedItem) :
    parents_for env (mapStatus g db) (setStat g item) = parents_for env db item := by
  unfold parents_for
  congr 1
  funext blocked fn
  rw [show (setStat g item).record_data = item.record_data from rfl]
  cases hev : evalParentFn fn item.record_data with
  | none => rfl
  | some tup =>
    obtain ⟨pm, pp, fk⟩ := tup
    dsimp only
    rw [show exists_live env (mapStatus g db) pm pp = exists_live env db pm pp from rfl,
      show (mapStatus g db).trash = db.trash.map (setStat g) from rfl,
      List.any_map,
      show ((fun e : RecentlyDeletedItem =>
          e.table_name == pm && e.record_id == pyStr pp) ∘ setStat g)
        = (fun e : RecentlyDeletedItem =>
          e.table_name == pm && e.record_id == pyStr pp) from funext fun e => rfl]

theorem parents_in_trash_status (env : Env) (g : RecentlyDeletedItem → String)
    (db : DB) (node : RecentlyDeletedItem) :
    parents_in_trash env (mapStatus g db) (setStat g node)
      = (parents_in_trash env db node).map (setStat g) := by
  unfold parents_in_trash
  rw [show (setStat g node).record_data = node.record_data from rfl,
    show (setStat g node).table_name = node.table_name from rfl]
  have := foldl_map_acc (List.map (setStat g))
    (fun out fn =>
      match evalParentFn fn node.record_data with
      | none => out
      | some (pm, pp, _) =>
        if !truthy pp then out
        else if exists_live env db pm pp then out
        else
          match db.trash.find?
            (fun e => e.table_name == pm && e.record_id == pyStr pp) with
          | some hit => out ++ [hit]
          | none => out)
    (fun out fn =>
      match evalParentFn fn node.record_data with
      | none => out
      | some (pm, pp, _) =>
        if !truthy pp then out
        else if exists_live env (mapStatus g db) pm pp then out
        else
          match (mapStatus g db).trash.find?
            (fun e => e.table_name == pm && e.record_id == pyStr pp) with
          | some hit => out ++ [hit]
          | none => out)
    ?_ (rulesFor node.table_name).parents []
  · simpa using this
  · intro acc fn
    dsimp only
    cases hev : evalParentFn fn node.record_data with
    | none => rfl
    | some tup =>
      obtain ⟨pm, pp, fk⟩ := tup
      dsimp only
      by_cases ht : truthy pp = true
      · rw [show exists_live env (mapStatus g db) pm pp = exists_live env db pm pp from rfl]
        by_cases hl : exists_live env db pm pp = true
        · simp only [ht, hl]
          rfl
        · simp only [ht, Bool.not_true, if_false,
            eq_false_of_ne_true hl]
          rw [show (mapStatus g db).trash = db.trash.map (setStat g) from rfl,
            List.find?_map,
            show ((fun e : RecentlyDeletedItem =>
                e.table_name == pm && e.record_id == pyStr pp) ∘ setStat g)
              = (fun e : RecentlyDeletedItem =>
                e.table_name == pm && e.record_id == pyStr pp) from funext fun e => rfl]
          cases hf : db.trash.find?
              (fun e => e.table_name == pm && e.record_id == pyStr pp) with
          | none => rfl
          | some hit => simp
      · simp only [eq_false_of_ne_true ht]
        rfl

theorem direct_children_status (g : RecentlyDeletedItem → String) (db : DB)
    (node : RecentlyDeletedItem) :
    direct_children (mapStatus g db) (setStat g node)
      = (direct_children db node).map (setStat g) := by
  unfold direct_children
  rw [show (setStat g node).table_name = node.table_name from rfl,
    show (setStat g node).record_id = node.record_id from rfl]
  have := foldl_map_acc (List.map (setStat g))
    (fun out cr =>
      out ++ db.trash.filter
        (fun e => e.table_name == cr.child &&
          rdGet e.record_data cr.fk_key == some (.str node.record_id)))
    (fun out cr =>
      out ++ (mapStatus g db).trash.filter
        (fun e => e.table_name == cr.child &&
          rdGet e.record_data cr.fk_key == some (.str node.record_id)))
    ?_ (rulesFor node.table_name).corestore []
  · simpa using this
  · intro acc cr
    dsimp only
    rw [show (mapStatus g db).trash = db.trash.map (setStat g) from rfl,
      List.filter_map,
      show ((fun e : RecentlyDeletedItem => e.table_name == cr.child &&
          rdGet e.record_data cr.fk_key == some (.str node.record_id)) ∘ setStat g)
        = (fun e : RecentlyDeletedItem => e.table_name == cr.child &&
          rdGet e.record_data cr.fk_key == some (.str node.record_id)) from
        funext fun e => rfl,
      List.map_append]

theorem computeSeeds_status (g : RecentlyDeletedItem → String) (db : DB)
    (req : RestoreRequest) :
    computeSeeds (mapStatus g db) req = (computeSeeds db req).map (setStat g) := by
  simp only [computeSeeds]
  rw [List.map_append]
  congr 1
  · rw [show (mapStatus g db).trash = db.trash.map (setStat g) from rfl,
      List.filter_map,
      show ((fun e : RecentlyDeletedItem => req.ids.contains e.id) ∘ setStat g)
        = (fun e : RecentlyDeletedItem => req.ids.contains e.id) from
        funext fun e => rfl]
  · have := foldl_map_acc (List.map (setStat g))
      (fun acc tr =>
        if tr.1.trim == "" || tr.2.trim == "" then acc
        else
          match db.trash.find?
            (fun e => e.table_name == tr.1.trim && e.record_id == tr.2.trim) with
          | some hit => acc ++ [hit]
          | none => acc)
      (fun acc tr =>
        if tr.1.trim == "" || tr.2.trim == "" then acc
        else
          match (mapStatus g db).trash.find?
            (fun e => e.table_name == tr.1.trim && e.record_id == tr.2.trim) with
          | some hit => acc ++ [hit]
          | none => acc)
      ?_ req.record_ids []
    · simpa using this
    · intro acc tr
      dsimp only
      by_cases hb : (tr.1.trim == "" || tr.2.trim == "") = true
      · rw [if_pos hb, if_pos hb]
      · rw [if_neg hb, if_neg hb]
        rw [show (mapStatus g db).trash = db.trash.map (setStat g) from rfl,
          List.find?_map,
          show ((fun e : RecentlyDeletedItem =>
              e.table_name == tr.1.trim && e.record_id == tr.2.trim) ∘ setStat g)
            = (fun e : RecentlyDeletedItem =>
              e.table_name == tr.1.trim && e.record_id == tr.2.trim) from
            funext fun e => rfl]
        cases hf : db.trash.find?
            (fun e => e.table_name == tr.1.trim && e.record_id == tr.2.trim) with
        | none => rfl
        | some hit => simp

theorem addNew_status (g : RecentlyDeletedItem → String) :
    ∀ (chs : List RecentlyDeletedItem) (seen : List Nat)
      (queue result : List RecentlyDeletedItem),
      addNew seen (queue.map (setStat g)) (result.map (setStat g))
          (chs.map (setStat g))
        = ⟨(addNew seen queue result chs).seen,
           (addNew seen queue result chs).queue.map (setStat g),
           (addNew seen queue result chs).result.map (setStat g)⟩ := by
  intro chs
  induction chs with
  | nil => intro seen queue result; rfl
  | cons ch rest ih =>
    intro seen queue result
    rw [List.map_cons]
    simp only [addNew]
    rw [show (setStat g ch).id = ch.id from rfl]
    by_cases hc : seen.contains ch.id = true
    · rw [if_pos hc, if_pos hc]
      exact ih seen queue result
    · rw [if_neg hc, if_neg hc]
      have := ih (seen ++ [ch.id]) (queue ++ [ch]) (result ++ [ch])
      simpa using this

theorem corestoreBFS_status (g : RecentlyDeletedItem → String) (db : DB) :
    ∀ (fuel : Nat) (seen : List Nat) (queue result : List RecentlyDeletedItem),
      corestoreBFS (mapStatus g db) fuel seen (queue.map (setStat g))
          (result.map (setStat g))
        = ((corestoreBFS db fuel seen queue result).1.map (setStat g),
           (corestoreBFS db fuel seen queue result).2) := by
  intro fuel
  induction fuel with
  | zero =>
    intro seen queue result
    cases queue <;> rfl
  | succ fuel ih =>
    intro seen queue result
    cases queue with
    | nil => rfl
    | cons cur rest =>
      rw [List.map_cons]
      simp only [corestoreBFS]
      rw [direct_children_status, addNew_status]
      dsimp only
      exact ih _ _ _

theorem collect_corestore_closure_status (g : RecentlyDeletedItem → String)
    (db : DB) (seed : RecentlyDeletedItem) :
    collect_corestore_closure (mapStatus g db) (setStat g seed)
      = (collect_corestore_closure db seed).map (setStat g) := by
  unfold collect_corestore_closure
  rw [show (mapStatus g db).trash = db.trash.map (setStat g) from rfl,
    List.length_map]
  exact congrArg Prod.fst
    (corestoreBFS_status g db (db.trash.length + 1) [seed.id] [seed] [seed])

theorem upwardsBFS_status (env : Env) (g : RecentlyDeletedItem → String) (db : DB) :
    ∀ (fuel : Nat) (seen : List Nat) (queue result : List RecentlyDeletedItem),
      upwardsBFS env (mapStatus g db) fuel seen (queue.map (setStat g))
          (result.map (setStat g))
        = (upwardsBFS env db fuel seen queue result).map (setStat g) := by
  intro fuel
  induction fuel with
  | zero => intro seen queue result; rfl
  | succ fuel ih =>
    intro seen queue result
    cases queue with
    | nil => rfl
    | cons cur rest =>
      rw [List.map_cons]
      simp only [upwardsBFS]
      rw [parents_in_trash_status, addNew_status]
      dsimp only
      exact ih _ _ _

theorem collect_upwards_closure_status (env : Env) (g : RecentlyDeletedItem → String)
    (db : DB) (seed : RecentlyDeletedItem) :
    collect_upwards_closure env (mapStatus g db) (setStat g seed)
      = (collect_upwards_closure env db seed).map (setStat g) := by
  simp only [collect_upwards_closure]
  rw [parents_in_trash_status,
    show (mapStatus g db).trash = db.trash.map (setStat g) from rfl,
    List.length_map,
    show (setStat g seed).id = seed.id from rfl,
    ids_map_setStat]
  exact upwardsBFS_status env g db (db.trash.length + 1)
    (seed.id :: (parents_in_trash env db seed).map (·.id))
    (parents_in_trash env db seed) (parents_in_trash env db seed)

theorem foldl_map_both {α β : Type} (f : α → α) (m : β → β) (step stepm : α → β → α)
    (hstep : ∀ acc b, stepm (f acc) (m b) = f (step acc b)) :
    ∀ (bs : List β) (acc : α), (bs.map m).foldl stepm (f acc) = f (bs.foldl step acc) := by
  intro bs
  induction bs with
  | nil => intro acc; rfl
  | cons b rest ih =>
    intro acc
    rw [List.map_cons, List.foldl_cons, List.foldl_cons, hstep, ih]

theorem seedNodes_status (env : Env) (g : RecentlyDeletedItem → String) (db : DB)
    (sd : RecentlyDeletedItem) :
    seedNodes env (mapStatus g db) (setStat g sd)
      = (seedNodes env db sd).map (setStat g) := by
  simp only [seedNodes]
  rw [collect_corestore_closure_status, collect_upwards_closure_status,
    ← List.map_append]
  set N0 := collect_corestore_closure db sd ++ collect_upwards_closure env db sd
    with hN0
  have hup : ∀ (acc : List RecentlyDeletedItem) (n : RecentlyDeletedItem),
      (collect_upwards_closure env (mapStatus g db) (setStat g n)).foldl
        (fun acc2 p =>
          if ((N0.map (setStat g)).map (·.id)).contains p.id
              || (acc2.map (·.id)).contains p.id then acc2
          else acc2 ++ [p])
        (acc.map (setStat g))
      = ((collect_upwards_closure env db n).foldl
          (fun acc2 p =>
            if (N0.map (·.id)).contains p.id
                || (acc2.map (·.id)).contains p.id then acc2
            else acc2 ++ [p])
          acc).map (setStat g) := by
    intro acc n
    rw [collect_upwards_closure_status]
    refine foldl_map_both (List.map (setStat g)) (setStat g) _ _ ?_
      (collect_upwards_closure env db n) acc
    intro acc2 p
    dsimp only
    rw [ids_map_setStat, ids_map_setStat,
      show (setStat g p).id = p.id from rfl]
    by_cases hc : ((N0.map (·.id)).contains p.id
        || ((acc2.map (·.id)).contains p.id)) = true
    · rw [if_pos hc, if_pos hc]
    · rw [if_neg hc, if_neg hc, List.map_append]
      rfl
  have hextra : (N0.map (setStat g)).foldl
      (fun acc n =>
        (collect_upwards_closure env (mapStatus g db) n).foldl
          (fun acc2 p =>
            if ((N0.map (setStat g)).map (·.id)).contains p.id
                || (acc2.map (·.id)).contains p.id then acc2
            else acc2 ++ [p])
          acc)
      []
      = (N0.foldl
          (fun acc n =>
            (collect_upwards_closure env db n).foldl
              (fun acc2 p =>
                if (N0.map (·.id)).contains p.id
                    || (acc2.map (·.id)).contains p.id then acc2
                else acc2 ++ [p])
              acc)
          []).map (setStat g) := by
    have := foldl_map_both (List.map (setStat g)) (setStat g)
      (fun acc n =>
        (collect_upwards_closure env db n).foldl
          (fun acc2 p =>
            if (N0.map (·.id)).contains p.id
                || (acc2.map (·.id)).contains p.id then acc2
            else acc2 ++ [p])
          acc)
      (fun acc n =>
        (collect_upwards_closure env (mapStatus g db) n).foldl
          (fun acc2 p =>
            if ((N0.map (setStat g)).map (·.id)).contains p.id
                || (acc2.map (·.id)).contains p.id then acc2
            else acc2 ++ [p])
          acc)
      (fun acc n => hup acc n) N0 []
    simpa using this
  rw [hextra, ← List.map_append]
  set N1 := N0.foldl
    (fun acc n =>
      (collect_upwards_closure env db n).foldl
        (fun acc2 p =>
          if (N0.map (·.id)).contains p.id
              || (acc2.map (·.id)).contains p.id then acc2
          else acc2 ++ [p])
        acc)
    [] with hN1
  have himg : ∀ (acc : List RecentlyDeletedItem) (n : RecentlyDeletedItem),
      (rulesFor (setStat g n).table_name).parents.foldl
        (fun acc2 fn =>
          match evalParentFn fn (setStat g n).record_data with
          | none => acc2
          | some (pm, pp, _) =>
            if pm == "Image" && truthy pp then
              match (mapStatus g db).trash.find?
                (fun e => e.table_name == "Image" && e.record_id == pyStr pp) with
              | some img =>
                if (((N0 ++ N1).map (setStat g)).map (·.id)).contains img.id
                then acc2
                else acc2 ++ [img]
              | none => acc2
            else acc2)
        (acc.map (setStat g))
      = ((rulesFor n.table_name).parents.foldl
          (fun acc2 fn =>
            match evalParentFn fn n.record_data with
            | none => acc2
            | some (pm, pp, _) =>
              if pm == "Image" && truthy pp then
                match db.trash.find?
                  (fun e => e.table_name == "Image" && e.record_id == pyStr pp) with
                | some img =>
                  if ((N0 ++ N1).map (·.id)).contains img.id then acc2
                  else acc2 ++ [img]
                | none => acc2
              else acc2)
          acc).map (setStat g) := by
    intro acc n
    rw [show (setStat g n).table_name = n.table_name from rfl,
      show (setStat g n).record_data = n.record_data from rfl]
    refine foldl_map_acc (List.map (setStat g)) _ _ ?_
      (rulesFor n.table_name).parents acc
    intro acc2 fn
    dsimp only
    cases hev : evalParentFn fn n.record_data with
    | none => rfl
    | some tup =>
      obtain ⟨pm, pp, fk⟩ := tup
      dsimp only
      by_cases hi : (pm == "Image" && truthy pp) = true
      · rw [if_pos hi, if_pos hi,
          show (mapStatus g db).trash = db.trash.map (setStat g) from rfl,
          List.find?_map,
          show ((fun e : RecentlyDeletedItem =>
              e.table_name == "Image" && e.record_id == pyStr pp) ∘ setStat g)
            = (fun e : RecentlyDeletedItem =>
              e.table_name == "Image" && e.record_id == pyStr pp) from
            funext fun e => rfl]
        cases hf : db.trash.find?
            (fun e => e.table_name == "Image" && e.record_id == pyStr pp) with
        | none => rfl
        | some img =>
          rw [show Option.map (setStat g) (some img) = some (setStat g img) from rfl]
          dsimp only
          rw [ids_map_setStat, show (setStat g img).id = img.id from rfl]
          by_cases hc : (((N0 ++ N1).map (·.id)).contains img.id) = true
          · rw [if_pos hc, if_pos hc]
          · rw [if_neg hc, if_neg hc, List.map_append]
            rfl
      · rw [if_neg hi, if_neg hi]
  have himgs : ((N0 ++ N1).map (setStat g)).foldl
      (fun acc n =>
        (rulesFor n.table_name).parents.foldl
          (fun acc2 fn =>
            match evalParentFn fn n.record_data with
            | none => acc2
            | some (pm, pp, _) =>
              if pm == "Image" && truthy pp then
                match (mapStatus g db).trash.find?
                  (fun e => e.table_name == "Image" && e.record_id == pyStr pp) with
                | some img =>
                  if (((N0 ++ N1).map (setStat g)).map (·.id)).contains img.id
                  then acc2
                  else acc2 ++ [img]
                | none => acc2
              else acc2)
          acc)
      []
      = ((N0 ++ N1).foldl
          (fun acc n =>
            (rulesFor n.table_name).parents.foldl
              (fun acc2 fn =>
                match evalParentFn fn n.record_data with
                | none => acc2
                | some (pm, pp, _) =>
                  if pm == "Image" && truthy pp then
                    match db.trash.find?
                      (fun e => e.table_name == "Image" && e.record_id == pyStr pp) with
                    | some img =>
                      if ((N0 ++ N1).map (·.id)).contains img.id then acc2
                      else acc2 ++ [img]
                    | none => acc2
                  else acc2)
              acc)
          []).map (setStat g) := by
    have := foldl_map_both (List.map (setStat g)) (setStat g)
      (fun acc n =>
        (rulesFor n.table_name).parents.foldl
          (fun acc2 fn =>
            match evalParentFn fn n.record_data with
            | none => acc2
            | some (pm, pp, _) =>
              if pm == "Image" && truthy pp then
                match db.trash.find?
                  (fun e => e.table_name == "Image" && e.record_id == pyStr pp) with
                | some img =>
                  if ((N0 ++ N1).map (·.id)).contains img.id then acc2
                  else acc2 ++ [img]
                | none => acc2
              else acc2)
          acc)
      (fun acc n =>
        (rulesFor n.table_name).parents.foldl
          (fun acc2 fn =>
            match evalParentFn fn n.record_data with
            | none => acc2
            | some (pm, pp, _) =>
              if pm == "Image" && truthy pp then
                match (mapStatus g db).trash.find?
                  (fun e => e.table_name == "Image" && e.record_id == pyStr pp) with
                | some img =>
                  if (((N0 ++ N1).map (setStat g)).map (·.id)).contains img.id
                  then acc2
                  else acc2 ++ [img]
                | none => acc2
              else acc2)
          acc)
      (fun acc n => himg acc n) (N0 ++ N1) []
    simpa using this
  rw [himgs, ← List.map_append]

theorem foldl_map_eq {α β : Type} (m : β → β) (step stepm : α → β → α)
    (hstep : ∀ acc b, stepm acc (m b) = step acc b) :
    ∀ (bs : List β) (acc : α), (bs.map m).foldl stepm acc = bs.foldl step acc := by
  intro bs
  induction bs with
  | nil => intro acc; rfl
  | cons b rest ih =>
    intro acc
    rw [List.map_cons, List.foldl_cons, List.foldl_cons, hstep, ih]

theorem dedup_fold_status (g : RecentlyDeletedItem → String) :
    ∀ (l : List RecentlyDeletedItem) (seen : List Nat)
      (acc : List RecentlyDeletedItem),
      (l.map (setStat g)).foldl dstep (seen, acc.map (setStat g))
        = ((l.foldl dstep (seen, acc)).1,
           (l.foldl dstep (seen, acc)).2.map (setStat g)) := by
  intro l
  induction l with
  | nil => intro seen acc; rfl
  | cons n rest ih =>
    intro seen acc
    rw [List.map_cons, List.foldl_cons, List.foldl_cons]
    simp only [dstep]
    rw [show (setStat g n).id = n.id from rfl]
    by_cases hc : seen.contains n.id = true
    · rw [if_pos hc, if_pos hc]
      exact ih seen acc
    · rw [if_neg hc, if_neg hc]
      have := ih (seen ++ [n.id]) (acc ++ [n])
      simpa using this

theorem dedupById_status (g : RecentlyDeletedItem → String)
    (l : List RecentlyDeletedItem) :
    dedupById (l.map (setStat g)) = (dedupById l).map (setStat g) := by
  rw [dedupById_eq_dstep, dedupById_eq_dstep]
  have h := dedup_fold_status g l [] []
  have h2 := congrArg Prod.snd h
  simpa using h2

theorem guardViolations_status (env : Env) (g : RecentlyDeletedItem → String)
    (db : DB) (nodes : List RecentlyDeletedItem) :
    guardViolations env (mapStatus g db) (nodes.map (setStat g))
      = guardViolations env db nodes := by
  unfold guardViolations
  refine foldl_map_eq (setStat g) _ _ ?_ nodes []
  intro acc n
  dsimp only
  rw [show (setStat g n).table_name = n.table_name from rfl,
    show (setStat g n).record_id = n.record_id from rfl,
    parents_for_status]

theorem collectLoop_status (env : Env) (g : RecentlyDeletedItem → String) (db : DB) :
    ∀ (seeds acc : List RecentlyDeletedItem),
      collectLoop env (mapStatus g db) (seeds.map (setStat g)) (acc.map (setStat g))
        = match collectLoop env db seeds acc with
          | .ok l => .ok (l.map (setStat g))
          | .error b => .error b := by
  intro seeds
  induction seeds with
  | nil => intro acc; rfl
  | cons sd rest ih =>
    intro acc
    rw [List.map_cons]
    simp only [collectLoop]
    rw [show (setStat g sd).table_name = sd.table_name from rfl,
      parents_for_status]
    by_cases hc : (!(rulesFor sd.table_name).standalone
        && !(parents_for env db sd).isEmpty) = true
    · rw [if_pos hc, if_pos hc]
    · rw [if_neg hc, if_neg hc, seedNodes_status, ← List.map_append]
      exact ih (acc ++ seedNodes env db sd)

theorem foldl_congr_step {α β : Type} (step1 step2 : α → β → α)
    (h : ∀ a b, step1 a b = step2 a b) (bs : List β) (a : α) :
    bs.foldl step1 a = bs.foldl step2 a := by
  rw [show step1 = step2 from funext fun a => funext fun b => h a b]

theorem buildEdges_status (g : RecentlyDeletedItem → String)
    (nodes : List RecentlyDeletedItem) :
    buildEdges (nodes.map (setStat g)) = buildEdges nodes := by
  unfold buildEdges
  refine foldl_map_eq (setStat g) _ _ ?_ nodes []
  intro acc child
  dsimp only
  rw [show (setStat g child).table_name = child.table_name from rfl,
    show (setStat g child).record_data = child.record_data from rfl]
  refine foldl_congr_step _ _ ?_ (rulesFor child.table_name).parents acc
  intro acc2 fn
  cases hev : evalParentFn fn child.record_data with
  | none => rfl
  | some tup =>
    obtain ⟨pm, pp, fk⟩ := tup
    dsimp only
    by_cases hb : (pm == "" || !truthy pp) = true
    · rw [if_pos hb, if_pos hb]
    · rw [if_neg hb, if_neg hb,
        show (nodes.map (setStat g)).reverse = nodes.reverse.map (setStat g) from
          (List.map_reverse _ _).symm,
        List.find?_map,
        show ((fun n : RecentlyDeletedItem =>
            n.table_name == pm && n.record_id == pyStr pp) ∘ setStat g)
          = (fun n : RecentlyDeletedItem =>
            n.table_name == pm && n.record_id == pyStr pp) from funext fun e => rfl]
      cases hf : nodes.reverse.find?
          (fun n => n.table_name == pm && n.record_id == pyStr pp) with
      | none => rfl
      | some pn =>
        rw [show Option.map (setStat g) (some pn) = some (setStat g pn) from rfl]
        dsimp only
        rfl

theorem kahnIds_status (g : RecentlyDeletedItem → String)
    (nodes : List RecentlyDeletedItem) :
    kahnIds (nodes.map (setStat g)) = kahnIds nodes := by
  simp only [kahnIds]
  rw [buildEdges_status, ids_map_setStat, List.length_map]

theorem kahnComplete_status (g : RecentlyDeletedItem → String)
    (nodes : List RecentlyDeletedItem) :
    kahnComplete (nodes.map (setStat g)) = kahnComplete nodes := by
  simp only [kahnComplete]
  rw [kahnIds_status, List.length_map]

theorem computeOrder_status (g : RecentlyDeletedItem → String)
    (nodes : List RecentlyDeletedItem) :
    computeOrder (nodes.map (setStat g)) = (computeOrder nodes).map (setStat g) := by
  unfold computeOrder
  rw [kahnComplete_status]
  by_cases hk : kahnComplete nodes = true
  · rw [if_pos hk, if_pos hk, kahnIds_status]
    have hfn : (fun i => ((nodes.map (setStat g)).reverse).find? (fun n => n.id == i))
        = (fun i => Option.map (setStat g)
            (nodes.reverse.find? (fun n => n.id == i))) := by
      funext i
      rw [show (nodes.map (setStat g)).reverse = nodes.reverse.map (setStat g) from
          (List.map_reverse _ _).symm,
        List.find?_map,
        show ((fun n : RecentlyDeletedItem => n.id == i) ∘ setStat g)
          = (fun n : RecentlyDeletedItem => n.id == i) from funext fun e => rfl]
    rw [hfn, ← List.map_filterMap]
  · rw [if_neg hk, if_neg hk]
    exact (List.map_mergeSort (f := setStat g) (l := nodes) (fun a _ b _ => rfl)).symm

theorem pass1_status (env : Env) (g : RecentlyDeletedItem → String) :
    ∀ (nodes : List RecentlyDeletedItem) (live : List LiveRow)
      (pending : List (String × String)) (tr : List UpsertEvent),
      pass1 env (nodes.map (setStat g)) live pending tr
        = pass1 env nodes live pending tr := by
  intro nodes
  induction nodes with
  | nil => intro live pending tr; rfl
  | cons n rest ih =>
    intro live pending tr
    rw [List.map_cons]
    simp only [pass1]
    rw [show (setStat g n).table_name = n.table_name from rfl,
      show (setStat g n).record_data = n.record_data from rfl,
      show (setStat g n).record_id = n.record_id from rfl,
      show strippedPayload (setStat g n) = strippedPayload n from rfl]
    cases hM : model_lookup env n.table_name with
    | none => rfl
    | some M =>
      dsimp only
      cases hU : env.upsertFails n.table_name (rdGetD (strippedPayload n) M.pk_name)
          (recreateData M (strippedPayload n)) with
      | some msg => rfl
      | none =>
        dsimp only
        exact ih _ _ _

theorem trashDelete_status (g : RecentlyDeletedItem → String) :
    ∀ (fuel : Nat) (t : List RecentlyDeletedItem) (work : List Nat),
      trashDelete (t.map (setStat g)) fuel work
        = (trashDelete t fuel work).map (setStat g) := by
  intro fuel
  induction fuel with
  | zero => intro t work; rfl
  | succ fuel ih =>
    intro t work
    cases work with
    | nil => rfl
    | cons w rest =>
      simp only [trashDelete]
      rw [show (t.map (setStat g)).filter (fun e => e.parent == some w)
          = (t.filter (fun e => e.parent == some w)).map (setStat g) from by
          rw [List.filter_map,
            show ((fun e : RecentlyDeletedItem => e.parent == some w) ∘ setStat g)
              = (fun e : RecentlyDeletedItem => e.parent == some w) from
              funext fun e => rfl],
        ids_map_setStat,
        show (t.map (setStat g)).filter (fun e => e.id != w)
          = (t.filter (fun e => e.id != w)).map (setStat g) from by
          rw [List.filter_map,
            show ((fun e : RecentlyDeletedItem => e.id != w) ∘ setStat g)
              = (fun e : RecentlyDeletedItem => e.id != w) from
              funext fun e => rfl]]
      exact ih _ _

theorem deleteEntry_status (g : RecentlyDeletedItem → String)
    (t : List RecentlyDeletedItem) (tid : Nat) :
    deleteEntry (t.map (setStat g)) tid = (deleteEntry t tid).map (setStat g) := by
  unfold deleteEntry
  rw [List.length_map]
  exact trashDelete_status g (t.length + 1) t [tid]

theorem mutedFor_status (g : RecentlyDeletedItem → String)
    (ordered : List RecentlyDeletedItem) :
    mutedFor (ordered.map (setStat g)) = mutedFor ordered := by
  unfold mutedFor
  congr 1
  funext m
  rw [List.any_map,
    show ((fun n : RecentlyDeletedItem => n.table_name == m) ∘ setStat g)
      = (fun n : RecentlyDeletedItem => n.table_name == m) from funext fun e => rfl]

theorem runPasses_status (env : Env) (g : RecentlyDeletedItem → String) (db : DB)
    (ordered : List RecentlyDeletedItem) :
    runPasses env (mapStatus g db) (ordered.map (setStat g))
      = ((runPasses env db ordered).1,
         ⟨(runPasses env db ordered).2.1.live,
          (runPasses env db ordered).2.1.trash.map (setStat g)⟩,
         (runPasses env db ordered).2.2) := by
  unfold runPasses
  rw [pass1_status, show (mapStatus g db).live = db.live from rfl]
  cases hp1 : pass1 env ordered db.live [] [] with
  | error e => rfl
  | ok tup =>
    obtain ⟨live1, pending, tr1⟩ := tup
    dsimp only
    cases hp2 : pass2 env pending live1 with
    | error e => rfl
    | ok live2 =>
      dsimp only
      rw [show (mapStatus g db).trash = db.trash.map (setStat g) from rfl,
        show (ordered.map (setStat g)).reverse = ordered.reverse.map (setStat g) from
          (List.map_reverse _ _).symm]
      rw [show (ordered.reverse.map (setStat g)).foldl
          (fun t n => deleteEntry t n.id) (db.trash.map (setStat g))
        = (ordered.reverse.foldl (fun t n => deleteEntry t n.id) db.trash).map
            (setStat g) from by
        refine foldl_map_both (List.map (setStat g)) (setStat g) _ _ ?_
          ordered.reverse db.trash
        intro acc n
        dsimp only
        rw [show (setStat g n).id = n.id from rfl]
        exact deleteEntry_status g acc n.id]
      rw [show (ordered.map (setStat g)).map
          (fun n => n.table_name ++ ":" ++ n.record_id)
        = ordered.map (fun n => n.table_name ++ ":" ++ n.record_id) from by
        rw [List.map_map]
        rfl,
        List.length_map, mutedFor_status]

/-- C10: the restore endpoint never reads a trash entry's `status` field.
For every rewriting of the statuses (for example marking every entry
`PERMANENT`): seed resolution by trash id or `(table, record_id)` finds the
same entries, the missing-parent check of `_parents_for` counts the entry as
present in trash all the same, and the whole endpoint returns the same
response, the same committed live rows and the same upsert trace, with the
committed trash differing only by the rewritten statuses — so a `PERMANENT`
entry seeds, unblocks its children and restores like any other entry. -/
theorem restore_status_blind (env : Env) (g : RecentlyDeletedItem → String)
    (db : DB) (req : RestoreRequest) :
    computeSeeds (mapStatus g db) req = (computeSeeds db req).map (setStat g) ∧
    (∀ item, parents_for env (mapStatus g db) (setStat g item)
      = parents_for env db item) ∧
    restore env (mapStatus g db) req
      = ((restore env db req).1,
         ⟨(restore env db req).2.1.live,
          (restore env db req).2.1.trash.map (setStat g)⟩,
         (restore env db req).2.2) := by
  refine ⟨computeSeeds_status g db req,
    fun item => parents_for_status env g db item, ?_⟩
  simp only [restore]
  rw [computeSeeds_status,
    show ((computeSeeds db req).map (setStat g)).isEmpty
        = (computeSeeds db req).isEmpty from by
      cases computeSeeds db req <;> rfl]
  by_cases h1 : (computeSeeds db req).isEmpty = true
  · rw [if_pos h1, if_pos h1]
    rfl
  · rw [if_neg h1, if_neg h1]
    have hcl := collectLoop_status env g db (computeSeeds db req) []
    rw [show List.map (setStat g) ([] : List RecentlyDeletedItem) = [] from rfl] at hcl
    rw [hcl]
    cases hc2 : collectLoop env db (computeSeeds db req) [] with
    | error missing =>
      dsimp only
      rfl
    | ok raw =>
      dsimp only
      rw [dedupById_status, guardViolations_status]
      by_cases h3 : (!(guardViolations env db (dedupById raw)).isEmpty) = true
      · rw [if_pos h3, if_pos h3]
        rfl
      · rw [if_neg h3, if_neg h3, computeOrder_status]
        exact runPasses_status env g db (computeOrder (dedupById raw))
